import Mathlib

/-!
# urs_ext.c : demultiplexing and merging of MUX2 tide-gauge series

A shallow embedding of `shallow_water/urs_ext.c`.

Conventions of the embedding.

* C `float`/`double` values are exact rationals (`ℚ`): every statement below is
  over exact arithmetic, rounding is not modelled.
* C `int` values that may hold the marker `-1` (recording windows, grid flag,
  running start/stop trackers) are `Int`; loop counters, station indices,
  station counts and the series length are `Nat`.  Integer overflow is not
  modelled.
* A C array reached through a pointer is a total function `Nat → _`
  (memory indexed by element offset); a store `a[i] = v` is
  `Function.update a i v`.  Allocation sizes are not modelled: an access past
  the allocated length reads or writes the function like any other offset.
* The weighting loop of `_read_mux2` runs over `mytgs0[ista].nt` slots, which
  need not be `number_of_time_steps` (the series length of station 0); the
  statements about a merged slot `k` therefore ask for `k < mytgs0[ista].nt`
  as well as `k < number_of_time_steps`.
-/

namespace UrsExt

/-! ## Constants -/

/-- `#define NODATA 99.0` -/
def NODATA : ℚ := 99

/-- `#define EPSILON 0.00001` -/
def EPSILON : ℚ := 1 / 100000

/-- `#define POFFSET 5`, the number of site parameters. -/
def POFFSET : Nat := 5

/-! ## fillDataArray -/

/-- The test `it + 1 >= nst[jsta] && it + 1 <= nft[jsta]`: station `jsta` is
recording at loop index `it` (time step `it + 1`). -/
def recording (nst nft : Nat → Int) (it jsta : Nat) : Bool :=
  decide (nst jsta ≤ (it : Int) + 1) && decide ((it : Int) + 1 ≤ nft jsta)

/-- The loop `for (; jsta < jsta + n; jsta++) if (recording) offset++;`
run for `n` iterations starting at station `jsta`. -/
def skipRecords (nst nft : Nat → Int) (it : Nat) : Nat → Nat → Nat → Nat
  | 0, _, offset => offset
  | n + 1, jsta, offset =>
    skipRecords nst nft it n (jsta + 1)
      (if recording nst nft it jsta then offset + 1 else offset)

/-- The loop `for (; it < it + n; it++) data[it] = v;`
run for `n` iterations starting at index `it`. -/
def fillFrom (v : ℚ) : Nat → Nat → (Nat → ℚ) → (Nat → ℚ)
  | 0, _, data => data
  | n + 1, it, data => fillFrom v n (it + 1) (Function.update data it v)

/-- The main loop of `fillDataArray` (the `else` branch), with `n` iterations
left, loop index `it`, running `offset` and the current `last_it`.
Returns the buffer and `last_it` at loop exit; the third branch is the
`break`. -/
def fillLoop (ista total_number_of_stations : Nat) (nst nft : Nat → Int)
    (muxData : Nat → ℚ) : Nat → Nat → Nat → Int → (Nat → ℚ) → (Nat → ℚ) × Int
  | 0, _, _, last_it, data => (data, last_it)
  | n + 1, it, offset, _, data =>
    let last_it : Int := it
    -- skip t record of data block
    let offset := offset + 1
    -- skip records from earlier tide gauges
    let offset := skipRecords nst nft it ista 0 offset
    if recording nst nft it ista then
      -- gauge is recording at this time
      let data := Function.update data it (muxData offset)
      let offset := offset + 1
      -- skip records from later tide gauges
      let offset :=
        skipRecords nst nft it (total_number_of_stations - (ista + 1)) (ista + 1) offset
      fillLoop ista total_number_of_stations nst nft muxData n (it + 1) offset last_it data
    else if (it : Int) + 1 < nst ista then
      -- gauge has not yet started recording
      let data := Function.update data it 0
      let offset :=
        skipRecords nst nft it (total_number_of_stations - (ista + 1)) (ista + 1) offset
      fillLoop ista total_number_of_stations nst nft muxData n (it + 1) offset last_it data
    else
      -- gauge has finished recording
      (Function.update data it NODATA, last_it)

/-- What `fillDataArray` leaves behind: the output buffer and the two running
trackers it updates through `istart_p` and `istop_p`. -/
structure FillResult where
  data : Nat → ℚ
  istart : Int
  istop : Int

/-- Embedding of `fillDataArray`. -/
def fillDataArray (ista total_number_of_stations nt : Nat) (ig : Int)
    (nst nft : Nat → Int) (data : Nat → ℚ) (istart istop : Int)
    (muxData : Nat → ℚ) : FillResult :=
  -- Update start and stop timesteps for this gauge
  let istart :=
    if nst ista ≠ -1 then
      (if istart = -1 then nst ista
       else (if nst ista < istart then nst ista else istart))
    else istart
  let istop :=
    if nft ista ≠ -1 then
      (if istop = -1 then nft ista
       else (if nft ista < istop then nft ista else istop))
    else istop
  if ig = -1 ∨ nst ista = -1 then
    -- gauge never started recording, or was outside of all grids
    { data := fillFrom 0 nt 0 data, istart := istart, istop := istop }
  else
    let r := fillLoop ista total_number_of_stations nst nft muxData nt 0 0 (-1) data
    if r.2 < (nt : Int) - 1 then
      -- the loop was exited early because the gauge had finished recording
      { data := fillFrom NODATA (nt - (r.2 + 1).toNat) (r.2 + 1).toNat r.1,
        istart := istart, istop := istop }
    else
      { data := r.1, istart := istart, istop := istop }

/-! ## The reference layout of a data block (written from the format description) -/

/-- Station `j` is active at time step `t`: `nst[j] <= t <= nft[j]`. -/
def activeAt (nst nft : Nat → Int) (t j : Nat) : Bool :=
  decide (nst j ≤ (t : Int)) && decide ((t : Int) ≤ nft j)

/-- The records of one time step `t` in the reference layout: one marker value,
then one value per station active at `t`, stations in ascending index order. -/
def muxStep (total_number_of_stations : Nat) (nst nft : Nat → Int)
    (marker : Nat → ℚ) (series : Nat → Nat → ℚ) (t : Nat) : List ℚ :=
  marker t ::
    ((List.range total_number_of_stations).filter (activeAt nst nft t)).map
      (fun j => series j t)

/-- The reference block layout `mux(nst, nft, series, T)`: the records of the
time steps `1, ..., T` in order. -/
def mux (total_number_of_stations : Nat) (nst nft : Nat → Int)
    (marker : Nat → ℚ) (series : Nat → Nat → ℚ) : Nat → List ℚ
  | 0 => []
  | T + 1 =>
    mux total_number_of_stations nst nft marker series T ++
      muxStep total_number_of_stations nst nft marker series (T + 1)

/-- Number of stations among the first `n` that are active at time step `t`. -/
def activeCount (n : Nat) (nst nft : Nat → Int) (t : Nat) : Nat :=
  ((List.range n).filter (activeAt nst nft t)).length

/-- Number of (station, step) pairs active at the steps `1, ..., T`. -/
def activePairs (total_number_of_stations : Nat) (nst nft : Nat → Int) (T : Nat) : Nat :=
  ((List.range T).map (fun i => activeCount total_number_of_stations nst nft (i + 1))).sum

/-- A block held in memory: element `i` of the list at offset `i`. -/
def blockMem (block : List ℚ) : Nat → ℚ := fun i => block.getD i 0

/-! ## The offset reached by the decoder (closed form used in the statements) -/

/-- Number of block elements consumed by one full pass of the loop body of
`fillDataArray` at loop index `it`: the marker, the earlier gauges recording,
the gauge at hand if recording, and the later gauges recording. -/
def stepWidth (ista total_number_of_stations : Nat) (nst nft : Nat → Int) (it : Nat) : Nat :=
  1 + skipRecords nst nft it ista 0 0
    + (if recording nst nft it ista then 1 else 0)
    + skipRecords nst nft it (total_number_of_stations - (ista + 1)) (ista + 1) 0

/-- Offset at the head of loop index `it` when no earlier index left the loop. -/
def headOffset (ista total_number_of_stations : Nat) (nst nft : Nat → Int) : Nat → Nat
  | 0 => 0
  | it + 1 =>
    headOffset ista total_number_of_stations nst nft it
      + stepWidth ista total_number_of_stations nst nft it

/-- Offset from which the value of loop index `it` is copied: past the marker
of this step and past the records of the lower-indexed gauges recording now. -/
def copyOffset (ista total_number_of_stations : Nat) (nst nft : Nat → Int) (it : Nat) : Nat :=
  headOffset ista total_number_of_stations nst nft it + 1 + skipRecords nst nft it ista 0 0

/-- The value that the decoder stores for loop index `k` of a gauge that has
started recording in this source. -/
def decodedAt (ista total_number_of_stations : Nat) (nst nft : Nat → Int)
    (muxData : Nat → ℚ) (k : Nat) : ℚ :=
  if (k : Int) + 1 < nst ista then 0
  else if (k : Int) + 1 ≤ nft ista then
    muxData (copyOffset ista total_number_of_stations nst nft k)
  else NODATA

/-- The loop of `fillDataArray` followed by the sentinel fill after an early exit. -/
def fillFinish (ista total_number_of_stations : Nat) (nst nft : Nat → Int)
    (muxData : Nat → ℚ) (n it offset : Nat) (data : Nat → ℚ) : Nat → ℚ :=
  let r := fillLoop ista total_number_of_stations nst nft muxData n it offset ((it : Int) - 1) data
  if r.2 < ((it + n : Nat) : Int) - 1 then
    fillFrom NODATA ((it + n) - (r.2 + 1).toNat) (r.2 + 1).toNat r.1
  else r.1

/-- First recorded steps of the two-station example: station A (index 0)
starts at step 1, station B (index 1) at step 2. -/
def exampleNst : Nat → Int := fun j => if j = 0 then 1 else 2

/-- Last recorded steps of the two-station example: station A stops at step 3,
station B at step 2. -/
def exampleNft : Nat → Int := fun j => if j = 0 then 3 else 2

/-! ## isdata and the merge step of `_read_mux2` -/

/-- Embedding of `isdata`: `0` when `x` is the sentinel, `1` otherwise. -/
def isdata (x : ℚ) : Nat :=
  if x < NODATA + EPSILON ∧ NODATA < x + EPSILON then 0 else 1

/-- The body of the weighting loop of `_read_mux2` for one slot: the new value
of `sts_data[i][k]` from its old value `acc`, the decoded `temp_sts_data[k]`
and `weights[isrc]`. -/
def mergeStep (acc v w : ℚ) : ℚ :=
  if isdata acc ≠ 0 ∧ isdata v ≠ 0 then acc + v * w else NODATA

/-- The weighting loop `for (; k < k + n; k++)` of `_read_mux2` over one row. -/
def mergeLoop (temp_sts_data : Nat → ℚ) (w : ℚ) : Nat → Nat → (Nat → ℚ) → (Nat → ℚ)
  | 0, _, row => row
  | n + 1, k, row =>
    mergeLoop temp_sts_data w n (k + 1)
      (Function.update row k (mergeStep (row k) (temp_sts_data k) w))

/-- Folding one slot over a list of (decoded value, weight) pairs, from the
accumulated value `acc`. -/
def mergeFold (acc : ℚ) (l : List (ℚ × ℚ)) : ℚ :=
  l.foldl (fun a p => mergeStep a p.1 p.2) acc

/-! ## The source and station loops of `_read_mux2` -/

/-- Modelled from the spec: the station record `struct tgsrwg` of `structure.h`,
which is not part of the sources at hand; only the fields that `urs_ext.c`
reads are kept (sampling interval, series length, grid flag, latitude,
longitude, elevation). -/
structure tgsrwg where
  dt : ℚ
  nt : Int
  ig : Int
  geolat : ℚ
  geolon : ℚ
  z : ℚ

/-- What `_read_mux2` uses of one source: its window tables
(`fros_per_source`, `lros_per_source`), its weight and its data block. -/
structure Source where
  fros : Nat → Int
  lros : Nat → Int
  weight : ℚ
  muxData : Nat → ℚ

/-- The mutable state of the loops of `_read_mux2`. -/
structure MuxState where
  sts_data : Nat → Nat → ℚ
  temp_sts_data : Nat → ℚ
  istart : Int
  istop : Int

/-- The state before the first source: `calloc`ed rows and temporary buffer,
`istart = -1`, `istop = -1`. -/
def initState : MuxState :=
  { sts_data := fun _ _ => 0, temp_sts_data := fun _ => 0, istart := -1, istop := -1 }

/-- The metadata update at the end of the station loop body, on one row. -/
def updateMeta (m : tgsrwg) (N isrc : Nat) (fros_ista lros_ista : Int)
    (row : Nat → ℚ) : Nat → ℚ :=
  if isrc = 0 then
    -- Assign values for first source
    let row := Function.update row N m.geolat
    let row := Function.update row (N + 1) m.geolon
    let row := Function.update row (N + 2) m.z
    let row := Function.update row (N + 3) (fros_ista : ℚ)
    Function.update row (N + 4) (lros_ista : ℚ)
  else
    -- Update first and last timesteps for subsequent sources
    let row :=
      if row (N + 3) > (fros_ista : ℚ) then Function.update row (N + 3) (fros_ista : ℚ)
      else row
    if row (N + 4) < (lros_ista : ℚ) then Function.update row (N + 4) (lros_ista : ℚ)
    else row

/-- The body of the station loop of `_read_mux2` for selected station `i` of
source number `isrc`; `N` is `number_of_time_steps`. -/
def stationStep (mytgs0 : Nat → tgsrwg) (total_number_of_stations N : Nat)
    (permutation : Nat → Nat) (isrc : Nat) (src : Source) (i : Nat)
    (s : MuxState) : MuxState :=
  let ista := permutation i
  let r := fillDataArray ista total_number_of_stations N (mytgs0 ista).ig
    src.fros src.lros s.temp_sts_data s.istart s.istop src.muxData
  let row := mergeLoop r.data src.weight (mytgs0 ista).nt.toNat 0 (s.sts_data i)
  let row := updateMeta (mytgs0 ista) N isrc (src.fros ista) (src.lros ista) row
  { sts_data := Function.update s.sts_data i row,
    temp_sts_data := r.data, istart := r.istart, istop := r.istop }

/-- The station loop `for (; i < i + n; i++)` of `_read_mux2`. -/
def stationLoop (mytgs0 : Nat → tgsrwg) (total_number_of_stations N : Nat)
    (permutation : Nat → Nat) (isrc : Nat) (src : Source) :
    Nat → Nat → MuxState → MuxState
  | 0, _, s => s
  | n + 1, i, s =>
    stationLoop mytgs0 total_number_of_stations N permutation isrc src n (i + 1)
      (stationStep mytgs0 total_number_of_stations N permutation isrc src i s)

/-- The source loop of `_read_mux2` over the sources still to be read, the next
one being source number `isrc`. -/
def sourceLoop (mytgs0 : Nat → tgsrwg) (total_number_of_stations N : Nat)
    (number_of_selected_stations : Nat) (permutation : Nat → Nat) :
    List Source → Nat → MuxState → MuxState
  | [], _, s => s
  | src :: rest, isrc, s =>
    sourceLoop mytgs0 total_number_of_stations N number_of_selected_stations permutation
      rest (isrc + 1)
      (stationLoop mytgs0 total_number_of_stations N permutation isrc src
        number_of_selected_stations 0 s)

/-- The rows `sts_data` after `_read_mux2` has processed all sources. -/
def mergedRows (mytgs0 : Nat → tgsrwg) (total_number_of_stations N : Nat)
    (number_of_selected_stations : Nat) (permutation : Nat → Nat)
    (srcs : List Source) : MuxState :=
  sourceLoop mytgs0 total_number_of_stations N number_of_selected_stations permutation
    srcs 0 initState

/-! ## One row of `sts_data` seen by itself -/

/-- The decoded series of station `ista` in source `src`: what `fillDataArray`
leaves in a zeroed temporary buffer. -/
def decodeRow (mytgs0 : Nat → tgsrwg) (total_number_of_stations N : Nat)
    (ista : Nat) (src : Source) : Nat → ℚ :=
  (fillDataArray ista total_number_of_stations N (mytgs0 ista).ig
    src.fros src.lros (fun _ => 0) (-1) (-1) src.muxData).data

/-- What the station loop body does to the row of station `ista` for source
number `isrc`: weighting loop, then metadata update. -/
def rowStep (mytgs0 : Nat → tgsrwg) (total_number_of_stations N : Nat)
    (ista isrc : Nat) (src : Source) (row : Nat → ℚ) : Nat → ℚ :=
  updateMeta (mytgs0 ista) N isrc (src.fros ista) (src.lros ista)
    (mergeLoop (decodeRow mytgs0 total_number_of_stations N ista src) src.weight
      (mytgs0 ista).nt.toNat 0 row)

/-- The row of station `ista` through the sources still to be read, the next
one being source number `isrc`. -/
def rowFold (mytgs0 : Nat → tgsrwg) (total_number_of_stations N : Nat) (ista : Nat) :
    List Source → Nat → (Nat → ℚ) → (Nat → ℚ)
  | [], _, row => row
  | src :: rest, isrc, row =>
    rowFold mytgs0 total_number_of_stations N ista rest (isrc + 1)
      (rowStep mytgs0 total_number_of_stations N ista isrc src row)

/-- The (decoded value, weight) pairs that the sources contribute to slot `k`
of station `ista`. -/
def slotPairs (mytgs0 : Nat → tgsrwg) (total_number_of_stations N : Nat) (ista k : Nat)
    (srcs : List Source) : List (ℚ × ℚ) :=
  srcs.map (fun src => (decodeRow mytgs0 total_number_of_stations N ista src k, src.weight))

/-- Series of the two-station example used to evaluate the decoder. -/
def exampleSeries : Nat → Nat → ℚ := fun j t => if j = 1 ∧ t = 2 then 22 else 11

/-- Station records of the example: three steps, every gauge inside a grid. -/
def exampleMeta : Nat → tgsrwg :=
  fun _ => { dt := 1, nt := 3, ig := 0, geolat := 0, geolon := 0, z := 0 }

/-- Station records of a network whose gauges are outside of all grids. -/
def offGridMeta : Nat → tgsrwg :=
  fun _ => { dt := 1, nt := 3, ig := -1, geolat := 0, geolon := 0, z := 0 }

/-- The source of the two-station example, with weight `1` and block
`[t1, A1, t2, A2, B2, t3, A3] = [5, 11, 5, 11, 22, 5, 11]`. -/
def exampleSource : Source :=
  { fros := exampleNst, lros := exampleNft, weight := 1,
    muxData := blockMem [5, 11, 5, 11, 22, 5, 11] }

/-- Station records of a one-step network: every gauge inside a grid. -/
def oneStepMeta : Nat → tgsrwg :=
  fun _ => { dt := 1, nt := 1, ig := 0, geolat := 0, geolon := 0, z := 0 }

/-- A one-step source of weight `1/2` whose only gauge records the value `198`. -/
def highSource : Source :=
  { fros := fun _ => 1, lros := fun _ => 1, weight := 1 / 2, muxData := blockMem [5, 198] }

/-- A one-step source of weight `1/2` whose only gauge records the value `-198`. -/
def lowSource : Source :=
  { fros := fun _ => 1, lros := fun _ => 1, weight := 1 / 2, muxData := blockMem [5, -198] }

/-- A one-step source of weight `1` whose only gauge records `99 + 2^-17`, the
single-precision neighbour of `99.0`. -/
def nearSource : Source :=
  { fros := fun _ => 1, lros := fun _ => 1, weight := 1,
    muxData := blockMem [5, 99 + 1 / 131072] }

/-- The weighted sum of a list of (value, weight) pairs. -/
def weightedSum (l : List (ℚ × ℚ)) : ℚ := (l.map (fun p => p.1 * p.2)).sum

/-- No accumulated value met before a source is merged is the sentinel: folding
the first `n` pairs, for any `n` that leaves a source to come, gives a value that
`isdata` accepts. -/
def noSentinelOnTheWay (l : List (ℚ × ℚ)) : Prop :=
  ∀ n : Nat, n < l.length → isdata (mergeFold 0 (l.take n)) ≠ 0

/-- A second source for the two-station example: station A records steps 2..3,
station B never records. -/
def lateSource : Source :=
  { fros := fun j => if j = 0 then 2 else -1, lros := fun j => if j = 0 then 3 else -1,
    weight := 1, muxData := blockMem [5, 5, 11, 5, 11] }

/-! ## getNumData -/

/-- The loop of `getNumData` over the stations, with `n` iterations left, on the
pair (`numData`, `last_output_step`). -/
def getNumDataLoop (fros lros : Nat → Int) : Nat → Nat → Int × Int → Int × Int
  | 0, _, acc => acc
  | n + 1, ista, acc =>
    getNumDataLoop fros lros n (ista + 1)
      (if fros ista ≠ -1 then
        (acc.1 + (lros ista - fros ista + 1),
          if acc.2 < lros ista then lros ista else acc.2)
       else acc)

/-- Embedding of `getNumData`. -/
def getNumData (fros lros : Nat → Int) (total_number_of_stations : Nat) : Int :=
  let r := getNumDataLoop fros lros total_number_of_stations 0 (0, 0)
  -- these are the t records
  r.1 + r.2 * (total_number_of_stations : Int)

/-- The sum over the first `n` stations with `fros != -1` of `lros - fros + 1`
(the per-station active spans). -/
def spanSum (fros lros : Nat → Int) (n : Nat) : Int :=
  ((List.range n).map
    (fun j => if fros j ≠ -1 then lros j - fros j + 1 else 0)).sum

/-- The last active step: the greatest of `0` and the `lros` of the first `n`
stations with `fros != -1`. -/
def lastActiveStep (fros lros : Nat → Int) (n : Nat) : Int :=
  (List.range n).foldl (fun m j => if fros j ≠ -1 then max m (lros j) else m) 0

/-! ## _read_mux2_headers -/

/-- What the readers get from one openable mux2 file: the station count and the
station records of its header, its two window tables, and the content of the
buffer `muxData` once `_read_mux2` has read the data block of this file into it. -/
structure MuxFile where
  numsta : Nat
  tgs : Nat → tgsrwg
  fros : Nat → Int
  lros : Nat → Int
  muxData : Nat → ℚ

/-- Content, before the call, of the storage that `_read_mux2_headers` writes:
the locals of `_read_mux2` that receive its results, the arrays behind the
statics `mytgs0`, `fros`, `lros` (window tables indexed by source, then station)
and the static `numDataMax`.  What a failed call does not write keeps this
content. -/
structure Storage where
  total_number_of_stations : Nat
  number_of_time_steps : Int
  delta_t : ℚ
  mytgs0 : Nat → tgsrwg
  fros : Nat → Nat → Int
  lros : Nat → Nat → Int
  numDataMax : Int

/-- The compatibility loop `for (j = 0; j < numsta; j++)` of `_read_mux2_headers`
with `n` iterations left: `false` stands for one of the two `return 0`. -/
def stationsCompatible (mytgs mytgs0 : Nat → tgsrwg) : Nat → Nat → Bool
  | 0, _ => true
  | n + 1, j =>
    if (mytgs j).dt ≠ (mytgs0 j).dt then false
    else if (mytgs j).nt ≠ (mytgs0 j).nt then false
    else stationsCompatible mytgs mytgs0 n (j + 1)

/-- The body of the source loop of `_read_mux2_headers` for source number `i`;
the flag is `false` when the body executes `return 0`. -/
def headerStep (f : MuxFile) (i : Nat) (st : Storage) : Bool × Storage :=
  let pre : Bool × Storage :=
    if i = 0 then
      (true, { st with total_number_of_stations := f.numsta, mytgs0 := f.tgs })
    else if f.numsta ≠ st.total_number_of_stations then (false, st)
    else (stationsCompatible f.tgs st.mytgs0 f.numsta 0, st)
  if pre.1 then
    -- Read the start and stop times for this source
    let st := { pre.2 with fros := Function.update pre.2.fros i f.fros,
                           lros := Function.update pre.2.lros i f.lros }
    -- Compute the size of the data block for this source
    let numData := getNumData f.fros f.lros st.total_number_of_stations
    if numData < 0 then (false, st)
    else (true, { st with numDataMax :=
                    if st.numDataMax < numData then numData else st.numDataMax })
  else (false, pre.2)

/-- The source loop of `_read_mux2_headers` over the files still to be read, the
next one being source number `i`. -/
def headersLoop : List MuxFile → Nat → Storage → Bool × Storage
  | [], _, st => (true, st)
  | f :: rest, i, st =>
    if (headerStep f i st).1 then headersLoop rest (i + 1) (headerStep f i st).2
    else (false, (headerStep f i st).2)

/-- What `_read_mux2_headers` returns and leaves in storage. -/
structure HeadersResult where
  ret : Nat
  st : Storage

/-- Embedding of `_read_mux2_headers` over openable files. -/
def _read_mux2_headers (files : List MuxFile) (st : Storage) : HeadersResult :=
  let r := headersLoop files 0 st
  if r.1 then
    -- Store time resolution and number of timesteps
    { ret := 1,
      st := { r.2 with delta_t := (r.2.mytgs0 0).dt,
                       number_of_time_steps := (r.2.mytgs0 0).nt } }
  else { ret := 0, st := r.2 }

/-! ## _read_mux2 -/

/-- The sources as the loops of `_read_mux2` see them: window tables from the
statics `fros`, `lros`, weight from `weights`, block from the file. -/
def sourcesOf (fros lros : Nat → Nat → Int) (weights : Nat → ℚ) :
    List MuxFile → Nat → List Source
  | [], _ => []
  | f :: rest, isrc =>
    { fros := fros isrc, lros := lros isrc, weight := weights isrc, muxData := f.muxData }
      :: sourcesOf fros lros weights rest (isrc + 1)

/-- What `_read_mux2` hands back: the rows `sts_data`, the array `params`, the
updated `*number_of_stations` and the permutation it used. -/
structure ReadMux2Result where
  sts_data : Nat → Nat → ℚ
  params : Nat → ℚ
  number_of_stations : Nat
  permutation : Nat → Nat

/-- Embedding of `_read_mux2` (allocations and `fopen` succeed, so the result
is never `NULL`).  The value returned by `_read_mux2_headers` is not looked at.
Row and buffer indices are taken from `number_of_time_steps` when it is not
negative. -/
def _read_mux2 (files : List MuxFile) (weights : Nat → ℚ) (params : Nat → ℚ)
    (number_of_stations : Nat) (permutation : Nat → Nat) (st : Storage) :
    Option ReadMux2Result :=
  let h := _read_mux2_headers files st
  let total_number_of_stations := h.st.total_number_of_stations
  let number_of_time_steps := h.st.number_of_time_steps
  let delta_t := h.st.delta_t
  -- Apply rule that an empty permutation file means 'take all stations'
  let number_of_selected_stations :=
    if number_of_stations = 0 then total_number_of_stations else number_of_stations
  -- Return possibly updated number of stations
  let number_of_stations_back :=
    if number_of_stations = 0 then total_number_of_stations else number_of_stations
  -- Create the Identity permutation vector
  let permutation : Nat → Nat :=
    if number_of_stations = 0 then (fun i => i) else permutation
  -- The params array is used only for passing data back to Python.
  let params := Function.update params 0 (number_of_selected_stations : ℚ)
  let params := Function.update params 1 delta_t
  let params := Function.update params 2 (number_of_time_steps : ℚ)
  some
    { sts_data :=
        (mergedRows h.st.mytgs0 total_number_of_stations number_of_time_steps.toNat
          number_of_selected_stations permutation
          (sourcesOf h.st.fros h.st.lros weights files 0)).sts_data,
      params := params,
      number_of_stations := number_of_stations_back,
      permutation := permutation }

/-! ## read_mux2 -/

/-- The C conversion `(int) x` of a floating-point value: truncation toward zero. -/
def cInt (x : ℚ) : Int := if 0 ≤ x then ⌊x⌋ else ⌈x⌉

/-- The errors that `read_mux2` raises after its arguments have been parsed. -/
inductive Mux2Error where
  | emptyList
  | noData
  | incorrectTimes
  | nonPositiveLength
  deriving DecidableEq, Repr

/-- The loop of `read_mux2` that finds the minimum start and maximum finish over
the selected stations, with `n` iterations left, on the pair
(`start_tstep`, `finish_tstep`). -/
def windowLoop (cdata : Nat → Nat → ℚ) (nt : Int) : Nat → Nat → Int × Int → Int × Int
  | 0, _, w => w
  | n + 1, i, w =>
    windowLoop cdata nt n (i + 1)
      (if cInt (cdata i (nt + 3).toNat) < w.1 then cInt (cdata i (nt + 3).toNat) else w.1,
       if cInt (cdata i (nt + 4).toNat) > w.2 then cInt (cdata i (nt + 4).toNat) else w.2)

/-- The pair (`start_tstep`, `finish_tstep`) of `read_mux2`, from the initial
values `nt + 1` and `-1`. -/
def globalWindow (cdata : Nat → Nat → ℚ) (nt : Int) (number_of_selected_stations : Nat) :
    Int × Int :=
  windowLoop cdata nt number_of_selected_stations 0 (nt + 1, -1)

/-- The two window checks of `read_mux2`. -/
def windowCheck (nt start_tstep finish_tstep : Int) : Except Mux2Error Unit :=
  if start_tstep > nt ∨ finish_tstep < 0 then Except.error Mux2Error.incorrectTimes
  else if start_tstep ≥ finish_tstep then Except.error Mux2Error.nonPositiveLength
  else Except.ok ()

/-- The loop `for (; it < it + n; it++)` of the output assembler of `read_mux2`
over one station, on the pair (`time`, row of `pydata`); `crow` is `cdata[i]`. -/
def timeLoop (crow : Nat → ℚ) (nt start_tstep finish_tstep : Int) :
    Nat → Nat → Nat × (Nat → ℚ) → Nat × (Nat → ℚ)
  | 0, _, s => s
  | n + 1, it, s =>
    if start_tstep ≤ (it : Int) + 1 ∧ (it : Int) + 1 ≤ finish_tstep then
      timeLoop crow nt start_tstep finish_tstep n (it + 1)
        (s.1 + 1,
          Function.update s.2 s.1
            (if (it : Int) + 1 > cInt (crow (nt + 4).toNat) then
              -- This gauge has stopped recording but others are still recording
              0
             else crow it))
    else timeLoop crow nt start_tstep finish_tstep n (it + 1) s

/-- The loop `for (; j < j + n; j++)` of `read_mux2` that passes back the site
parameters of one station. -/
def metaLoop (crow : Nat → ℚ) (nt num_ts : Int) : Nat → Nat → (Nat → ℚ) → (Nat → ℚ)
  | 0, _, row => row
  | n + 1, j, row =>
    metaLoop crow nt num_ts n (j + 1)
      (Function.update row (num_ts + (j : Int)).toNat (crow (nt + (j : Int)).toNat))

/-- The body of the station loop of the output assembler: the row of `pydata`
for one station from its row of `cdata`. -/
def assembleRow (crow : Nat → ℚ) (nt start_tstep finish_tstep : Int) (row : Nat → ℚ) :
    Nat → ℚ :=
  metaLoop crow nt (finish_tstep - start_tstep + 1) POFFSET 0
    (timeLoop crow nt start_tstep finish_tstep finish_tstep.toNat 0 (0, row)).2

/-- The station loop `for (; i < i + n; i++)` of the output assembler. -/
def assembleLoop (cdata : Nat → Nat → ℚ) (nt start_tstep finish_tstep : Int) :
    Nat → Nat → (Nat → Nat → ℚ) → (Nat → Nat → ℚ)
  | 0, _, pydata => pydata
  | n + 1, i, pydata =>
    assembleLoop cdata nt start_tstep finish_tstep n (i + 1)
      (Function.update pydata i
        (assembleRow (cdata i) nt start_tstep finish_tstep (pydata i)))

/-- The array returned by `read_mux2`: its two dimensions and its elements. -/
structure OutputTable where
  dimensions : Int × Int
  data : Nat → Nat → ℚ

/-- The part of `read_mux2` after `_read_mux2` has returned `cdata`: window
search, window checks, output assembly.  `pydata` is the content of the array
as `PyArray_FromDims` hands it over. -/
def assembleOutput (cdata : Nat → Nat → ℚ) (nt : Int) (number_of_selected_stations : Nat)
    (pydata : Nat → Nat → ℚ) : Except Mux2Error OutputTable :=
  let w := globalWindow cdata nt number_of_selected_stations
  match windowCheck nt w.1 w.2 with
  | Except.error e => Except.error e
  | Except.ok _ =>
    let num_ts := w.2 - w.1 + 1
    Except.ok
      { dimensions := ((number_of_selected_stations : Int), num_ts + (POFFSET : Int)),
        data := assembleLoop cdata nt w.1 w.2 number_of_selected_stations 0 pydata }

/-- Embedding of `read_mux2` once its arguments are parsed: `files` are the
sources named by `filenames`, `permutation` the selected stations (its length is
the selected-station count). -/
def read_mux2 (files : List MuxFile) (weights : Nat → ℚ) (file_params : Nat → ℚ)
    (permutation : List Nat) (st : Storage) (pydata : Nat → Nat → ℚ) :
    Except Mux2Error OutputTable :=
  if files.length = 0 then Except.error Mux2Error.emptyList
  else
    match _read_mux2 files weights file_params permutation.length
        (fun i => permutation.getD i 0) st with
    | none => Except.error Mux2Error.noData
    | some r =>
      assembleOutput r.sts_data (cInt (r.params 2)) r.number_of_stations pydata

/-- Rows of `cdata` for series length 3 in which every station has the
reconciled first step 9 and the reconciled last step 9. -/
def lateRows : Nat → Nat → ℚ := fun _ k => if k = 6 ∨ k = 7 then ((9 : Int) : ℚ) else 0

/-- Station records of a two-station network in which station 1 has a longer
series (5 steps) than station 0 (3 steps). -/
def unevenMeta : Nat → tgsrwg :=
  fun j => { dt := 1, nt := if j = 0 then 3 else 5, ig := 0, geolat := 0, geolon := 0, z := 0 }

/-- A file of the two-station example network with uneven series lengths. -/
def unevenFile : MuxFile :=
  { numsta := 2, tgs := unevenMeta, fros := exampleNst, lros := exampleNft,
    muxData := blockMem [5, 11, 5, 11, 22, 5, 11] }

/-- Storage as a fresh process has it: nothing read yet, `numDataMax = 0`. -/
def freshStorage : Storage :=
  { total_number_of_stations := 0, number_of_time_steps := 0, delta_t := 0,
    mytgs0 := fun _ => { dt := 0, nt := 0, ig := 0, geolat := 0, geolon := 0, z := 0 },
    fros := fun _ _ => 0, lros := fun _ _ => 0, numDataMax := 0 }

/-- The file of the two-station example: A records steps 1..3, B only step 2. -/
def exampleFile : MuxFile :=
  { numsta := 2, tgs := exampleMeta, fros := exampleNst, lros := exampleNft,
    muxData := blockMem [5, 11, 5, 11, 22, 5, 11] }

/-- A file with three stations, none of which ever records. -/
def threeStationFile : MuxFile :=
  { numsta := 3, tgs := exampleMeta, fros := fun _ => -1, lros := fun _ => -1,
    muxData := blockMem [] }

/-- Storage in which the locals of `_read_mux2` happen to hold a series length
of 3 and the window tables the marker `-1`. -/
def staleStorage : Storage :=
  { total_number_of_stations := 0, number_of_time_steps := 3, delta_t := 0,
    mytgs0 := fun _ => { dt := 0, nt := 0, ig := 0, geolat := 0, geolon := 0, z := 0 },
    fros := fun _ _ => -1, lros := fun _ _ => -1, numDataMax := 0 }

/-- A file of the two-station network in which station 0 never records and
station 1 records the steps 1..3; its block is `[t1, B1, t2, B2, t3, B3]`. -/
def gapFile : MuxFile :=
  { numsta := 2, tgs := exampleMeta,
    fros := fun j => if j = 0 then -1 else 1, lros := fun j => if j = 0 then -1 else 3,
    muxData := blockMem [5, 21, 5, 22, 5, 23] }

/-- The source that `_read_mux2` makes of `gapFile` with weight 1. -/
def gapSource : Source :=
  { fros := gapFile.fros, lros := gapFile.lros, weight := 1, muxData := gapFile.muxData }

/-- Station records of a two-station network in which station 1 has a longer
series (5 steps) than station 0 (3 steps) and lies at longitude `99 + 2^-17`. -/
def bandMeta : Nat → tgsrwg :=
  fun j => { dt := 1, nt := if j = 0 then 3 else 5, ig := 0, geolat := 10,
             geolon := 99 + 1 / 131072, z := 0 }

/-- A file of that network with the windows and the block of the example. -/
def bandFile : MuxFile :=
  { numsta := 2, tgs := bandMeta, fros := exampleNst, lros := exampleNft,
    muxData := blockMem [5, 11, 5, 11, 22, 5, 11] }

/-- The source that `_read_mux2` makes of `bandFile` with weight `1/2`. -/
def bandSource : Source :=
  { fros := bandFile.fros, lros := bandFile.lros, weight := 1 / 2,
    muxData := bandFile.muxData }

/-- The sources of a list of files with the window tables of the files
themselves, the first one being source number `isrc`. -/
def fileSources (weights : Nat → ℚ) : List MuxFile → Nat → List Source
  | [], _ => []
  | f :: rest, isrc =>
    { fros := f.fros, lros := f.lros, weight := weights isrc, muxData := f.muxData }
      :: fileSources weights rest (isrc + 1)

/-- Rows of `cdata` for series length 3: both stations start at step 1, station 0
stops at step 3 and station 1 at step 2; every other slot holds 50. -/
def shortRows : Nat → Nat → ℚ :=
  fun i k =>
    if k = 6 then ((1 : Int) : ℚ)
    else if k = 7 then (if i = 0 then ((3 : Int) : ℚ) else ((2 : Int) : ℚ))
    else 50

/-! ## The reads of the decoder and of the assembler -/

/-- The reads of `muxData` in the main loop of `fillDataArray`, in order: the
pairs (loop index `it`, offset of the `memcpy`), with `n` iterations left, loop
index `it` and running `offset`.  Same control flow as `fillLoop`. -/
def fillReads (ista total_number_of_stations : Nat) (nst nft : Nat → Int) :
    Nat → Nat → Nat → List (Nat × Nat)
  | 0, _, _ => []
  | n + 1, it, offset =>
    let offset := offset + 1
    let offset := skipRecords nst nft it ista 0 offset
    if recording nst nft it ista then
      (it, offset) ::
        fillReads ista total_number_of_stations nst nft n (it + 1)
          (skipRecords nst nft it (total_number_of_stations - (ista + 1)) (ista + 1)
            (offset + 1))
    else if (it : Int) + 1 < nst ista then
      fillReads ista total_number_of_stations nst nft n (it + 1)
        (skipRecords nst nft it (total_number_of_stations - (ista + 1)) (ista + 1) offset)
    else []

/-- The reads of `muxData` in one call of `fillDataArray`: none in the zero-fill
branch, those of the main loop otherwise. -/
def fillDataArrayReads (ista total_number_of_stations nt : Nat) (ig : Int)
    (nst nft : Nat → Int) : List (Nat × Nat) :=
  if ig = -1 ∨ nst ista = -1 then []
  else fillReads ista total_number_of_stations nst nft nt 0 0

/-- Number of the steps `1, ..., T` at which station `j` is active. -/
def activeSteps (nst nft : Nat → Int) (j T : Nat) : Nat :=
  ((List.range T).filter (fun i => activeAt nst nft (i + 1) j)).length

/-- The indices `it` at which the assembler loop of `read_mux2` reads
`cdata[i][it]` for one station, in order, with `n` iterations left.  Same
control flow as `timeLoop`. -/
def timeLoopReads (crow : Nat → ℚ) (nt start_tstep finish_tstep : Int) :
    Nat → Nat → List Nat
  | 0, _ => []
  | n + 1, it =>
    if start_tstep ≤ (it : Int) + 1 ∧ (it : Int) + 1 ≤ finish_tstep then
      if (it : Int) + 1 > cInt (crow (nt + 4).toNat) then
        timeLoopReads crow nt start_tstep finish_tstep n (it + 1)
      else it :: timeLoopReads crow nt start_tstep finish_tstep n (it + 1)
    else timeLoopReads crow nt start_tstep finish_tstep n (it + 1)

/-- The indices at which the output assembler reads the row `cdata[i]` as
time-series values, for the global window found by `read_mux2`. -/
def assembleReads (cdata : Nat → Nat → ℚ) (nt : Int) (number_of_selected_stations : Nat)
    (i : Nat) : List Nat :=
  timeLoopReads (cdata i) nt (globalWindow cdata nt number_of_selected_stations).1
    (globalWindow cdata nt number_of_selected_stations).2
    (globalWindow cdata nt number_of_selected_stations).2.toNat 0

/-- Station record of a one-station network with series length 3, latitude 10
and longitude 20. -/
def longMeta : Nat → tgsrwg :=
  fun _ => { dt := 1, nt := 3, ig := 0, geolat := 10, geolon := 20, z := 0 }

/-- A file of that network whose only station is declared to record the steps
1..5, past the series length 3. -/
def longFile : MuxFile :=
  { numsta := 1, tgs := longMeta, fros := fun _ => 1, lros := fun _ => 5,
    muxData := blockMem [5, 31, 5, 32, 5, 33, 5, 34, 5, 35] }

/-- The source that `_read_mux2` makes of `longFile` with weight 1. -/
def longSource : Source :=
  { fros := longFile.fros, lros := longFile.lros, weight := 1, muxData := longFile.muxData }

/-! # Lemmas and theorems -/

/-! ## The decoder -/

theorem fillFrom_apply (v : ℚ) (n it : Nat) (data : Nat → ℚ) (k : Nat) :
    fillFrom v n it data k = if it ≤ k ∧ k < it + n then v else data k := by
  induction n generalizing it data with
  | zero => rw [fillFrom, if_neg (by omega)]
  | succ n ih =>
    rw [fillFrom, ih]
    by_cases h1 : it + 1 ≤ k ∧ k < it + 1 + n
    · rw [if_pos h1, if_pos (by omega)]
    · rw [if_neg h1]
      by_cases h2 : k = it
      · subst h2
        simp
      · rw [Function.update_noteq h2, if_neg (by omega)]

theorem skipRecords_add (nst nft : Nat → Int) (it n jsta offset : Nat) :
    skipRecords nst nft it n jsta offset = offset + skipRecords nst nft it n jsta 0 := by
  induction n generalizing jsta offset with
  | zero => simp [skipRecords]
  | succ n ih =>
    simp only [skipRecords]
    rw [ih (jsta + 1) (if recording nst nft it jsta then offset + 1 else offset),
      ih (jsta + 1) (if recording nst nft it jsta then 0 + 1 else 0)]
    split <;> omega

theorem fillFinish_apply (ista total : Nat) (nst nft : Nat → Int) (muxData : Nat → ℚ)
    (n it offset : Nat) (data : Nat → ℚ)
    (hoff : offset = headOffset ista total nst nft it) (k : Nat) :
    fillFinish ista total nst nft muxData n it offset data k =
      if it ≤ k ∧ k < it + n then decodedAt ista total nst nft muxData k else data k := by
  induction n generalizing it offset data with
  | zero =>
    rw [if_neg (by omega)]
    simp [fillFinish, fillLoop]
  | succ n ih =>
    have hstep : ∀ b : Nat,
        skipRecords nst nft it (total - (ista + 1)) (ista + 1)
          (skipRecords nst nft it ista 0 (offset + 1) + b)
        = headOffset ista total nst nft it + 1 + skipRecords nst nft it ista 0 0 + b
          + skipRecords nst nft it (total - (ista + 1)) (ista + 1) 0 := by
      intro b
      rw [skipRecords_add nst nft it (total - (ista + 1)),
        skipRecords_add nst nft it ista 0 (offset + 1), hoff]
    have hcast : (((it + 1 : Nat) : Int) - 1) = (it : Int) := by push_cast; ring
    by_cases hrec : recording nst nft it ista = true
    · -- recording: copy and go on
      have hw : (nst ista ≤ (it : Int) + 1) ∧ ((it : Int) + 1 ≤ nft ista) := by
        simpa [recording] using hrec
      have key := ih (it + 1)
        (skipRecords nst nft it (total - (ista + 1)) (ista + 1)
          (skipRecords nst nft it ista 0 (offset + 1) + 1))
        (Function.update data it (muxData (skipRecords nst nft it ista 0 (offset + 1))))
        (by rw [hstep 1]; simp [headOffset, stepWidth, hrec]; ring)
      have hunf : fillFinish ista total nst nft muxData (n + 1) it offset data
          = fillFinish ista total nst nft muxData n (it + 1)
              (skipRecords nst nft it (total - (ista + 1)) (ista + 1)
                (skipRecords nst nft it ista 0 (offset + 1) + 1))
              (Function.update data it (muxData (skipRecords nst nft it ista 0 (offset + 1)))) := by
        simp only [fillFinish, fillLoop, hrec, if_true, hcast]
        rw [show it + (n + 1) = it + 1 + n by omega]
      rw [hunf, key]
      by_cases h1 : it + 1 ≤ k ∧ k < it + 1 + n
      · rw [if_pos h1, if_pos (by omega)]
      · rw [if_neg h1]
        by_cases h2 : k = it
        · subst h2
          rw [if_pos (by omega), Function.update_same, decodedAt,
            if_neg (by omega), if_pos hw.2, copyOffset,
            skipRecords_add nst nft k ista 0 (offset + 1), hoff]
        · rw [Function.update_noteq h2, if_neg (by omega)]
    · by_cases hpre : (it : Int) + 1 < nst ista
      · -- not yet started: zero and go on
        have key := ih (it + 1)
          (skipRecords nst nft it (total - (ista + 1)) (ista + 1)
            (skipRecords nst nft it ista 0 (offset + 1)))
          (Function.update data it 0)
          (by
            have := hstep 0
            simp only [Nat.add_zero] at this
            rw [this]; simp [headOffset, stepWidth, hrec]; ring)
        have hunf : fillFinish ista total nst nft muxData (n + 1) it offset data
            = fillFinish ista total nst nft muxData n (it + 1)
                (skipRecords nst nft it (total - (ista + 1)) (ista + 1)
                  (skipRecords nst nft it ista 0 (offset + 1)))
                (Function.update data it 0) := by
          simp only [fillFinish, fillLoop, hrec, hpre, if_true, hcast]
          rw [show it + (n + 1) = it + 1 + n by omega]
          simp
        rw [hunf, key]
        by_cases h1 : it + 1 ≤ k ∧ k < it + 1 + n
        · rw [if_pos h1, if_pos (by omega)]
        · rw [if_neg h1]
          by_cases h2 : k = it
          · subst h2
            rw [if_pos (by omega), Function.update_same, decodedAt, if_pos hpre]
          · rw [Function.update_noteq h2, if_neg (by omega)]
      · -- finished: sentinel, leave the loop, fill the rest
        have hfin : nft ista < (it : Int) + 1 := by
          have : ¬ ((nst ista ≤ (it : Int) + 1) ∧ ((it : Int) + 1 ≤ nft ista)) := by
            simpa [recording] using hrec
          omega
        have hunf : fillFinish ista total nst nft muxData (n + 1) it offset data
            = if (it : Int) < ((it + (n + 1) : Nat) : Int) - 1 then
                fillFrom NODATA ((it + (n + 1)) - ((it : Int) + 1).toNat) ((it : Int) + 1).toNat
                  (Function.update data it NODATA)
              else Function.update data it NODATA := by
          simp [fillFinish, fillLoop, hrec, hpre]
        rw [hunf]
        have htn : ((it : Int) + 1).toNat = it + 1 := by omega
        by_cases h1 : it ≤ k ∧ k < it + (n + 1)
        · rw [if_pos h1]
          have hd : decodedAt ista total nst nft muxData k = NODATA := by
            rw [decodedAt, if_neg (by omega), if_neg (by omega)]
          rw [hd]
          split
          · rw [fillFrom_apply, htn]
            by_cases h2 : k = it
            · subst h2
              rw [if_neg (by omega), Function.update_same]
            · rw [if_pos (by omega)]
          · have h2 : k = it := by omega
            subst h2
            rw [Function.update_same]
        · rw [if_neg h1]
          have h2 : k ≠ it := by omega
          split
          · rw [fillFrom_apply, htn, if_neg (by omega), Function.update_noteq h2]
          · rw [Function.update_noteq h2]


theorem fillDataArray_data_active (ista total nt : Nat) (ig : Int) (nst nft : Nat → Int)
    (data : Nat → ℚ) (istart istop : Int) (muxData : Nat → ℚ)
    (hig : ig ≠ -1) (hn : nst ista ≠ -1) (k : Nat) :
    (fillDataArray ista total nt ig nst nft data istart istop muxData).data k =
      if k < nt then decodedAt ista total nst nft muxData k else data k := by
  have h := fillFinish_apply ista total nst nft muxData nt 0 0 data rfl k
  have hc : ¬ (ig = -1 ∨ nst ista = -1) := by
    intro h'
    rcases h' with h' | h'
    · exact hig h'
    · exact hn h'
  have hd : (fillDataArray ista total nt ig nst nft data istart istop muxData).data
      = fillFinish ista total nst nft muxData nt 0 0 data := by
    simp only [fillDataArray, fillFinish, if_neg hc]
    simp only [Nat.cast_zero, zero_sub, Nat.zero_add]
    split <;> rfl
  rw [hd, h]
  simp

theorem fillDataArray_data_inactive (ista total nt : Nat) (ig : Int) (nst nft : Nat → Int)
    (data : Nat → ℚ) (istart istop : Int) (muxData : Nat → ℚ)
    (h : ig = -1 ∨ nst ista = -1) (k : Nat) :
    (fillDataArray ista total nt ig nst nft data istart istop muxData).data k =
      if k < nt then 0 else data k := by
  simp only [fillDataArray, if_pos h]
  rw [fillFrom_apply]
  simp

theorem fillDataArray_data_frame (ista total nt : Nat) (ig : Int) (nst nft : Nat → Int)
    (data : Nat → ℚ) (istart istop : Int) (muxData : Nat → ℚ) (k : Nat) (hk : nt ≤ k) :
    (fillDataArray ista total nt ig nst nft data istart istop muxData).data k = data k := by
  by_cases h : ig = -1 ∨ nst ista = -1
  · rw [fillDataArray_data_inactive _ _ _ _ _ _ _ _ _ _ h, if_neg (by omega)]
  · rw [fillDataArray_data_active _ _ _ _ _ _ _ _ _ _ (fun h' => h (Or.inl h'))
      (fun h' => h (Or.inr h')), if_neg (by omega)]

/-- C1: for a gauge with grid flag other than `-1` and window
`1 <= nst[ista] <= nft[ista]`, `fillDataArray` writes exactly the slots
`data[0..nt-1]`: slot `it` is `0.0` before the window, the block element at the
running offset inside the window, and `NODATA` after it; slots from `nt` on keep
their content.  With two stations, `nt = 3`, A recording steps 1..3 and B only
step 2, decoding B from `[t1, A1, t2, A2, B2, t3, A3]` gives `[0.0, B2, NODATA]`. -/
theorem fillDataArray_three_way (ista total nt : Nat) (ig : Int) (nst nft : Nat → Int)
    (data : Nat → ℚ) (istart istop : Int) (muxData : Nat → ℚ)
    (hig : ig ≠ -1) (h1 : 1 ≤ nst ista) (h2 : nst ista ≤ nft ista) :
    (∀ it, it < nt →
      (((it : Int) + 1 < nst ista →
          (fillDataArray ista total nt ig nst nft data istart istop muxData).data it = 0) ∧
       (nst ista ≤ (it : Int) + 1 → (it : Int) + 1 ≤ nft ista →
          (fillDataArray ista total nt ig nst nft data istart istop muxData).data it
            = muxData (copyOffset ista total nst nft it)) ∧
       (nft ista < (it : Int) + 1 →
          (fillDataArray ista total nt ig nst nft data istart istop muxData).data it
            = NODATA))) ∧
    (∀ k, nt ≤ k →
      (fillDataArray ista total nt ig nst nft data istart istop muxData).data k = data k) ∧
    (∀ (t1 A1 t2 A2 B2 t3 A3 : ℚ) (g : Int) (d : Nat → ℚ) (s e : Int), g ≠ -1 →
      (fillDataArray 1 2 3 g exampleNst exampleNft d s e
          (blockMem [t1, A1, t2, A2, B2, t3, A3])).data 0 = 0 ∧
      (fillDataArray 1 2 3 g exampleNst exampleNft d s e
          (blockMem [t1, A1, t2, A2, B2, t3, A3])).data 1 = B2 ∧
      (fillDataArray 1 2 3 g exampleNst exampleNft d s e
          (blockMem [t1, A1, t2, A2, B2, t3, A3])).data 2 = NODATA) := by
  have hn : nst ista ≠ -1 := by omega
  refine ⟨?_, ?_, ?_⟩
  · intro it hit
    rw [fillDataArray_data_active _ _ _ _ _ _ _ _ _ _ hig hn, if_pos hit]
    refine ⟨?_, ?_, ?_⟩
    · intro h
      rw [decodedAt, if_pos h]
    · intro ha hb
      rw [decodedAt, if_neg (by omega), if_pos hb]
    · intro h
      rw [decodedAt, if_neg (by omega), if_neg (by omega)]
  · intro k hk
    exact fillDataArray_data_frame _ _ _ _ _ _ _ _ _ _ k hk
  · intro t1 A1 t2 A2 B2 t3 A3 g d s e hg
    have hB : exampleNst 1 ≠ -1 := by decide
    refine ⟨?_, ?_, ?_⟩
    · rw [fillDataArray_data_active _ _ _ _ _ _ _ _ _ _ hg hB]
      rfl
    · rw [fillDataArray_data_active _ _ _ _ _ _ _ _ _ _ hg hB]
      rfl
    · rw [fillDataArray_data_active _ _ _ _ _ _ _ _ _ _ hg hB]
      rfl

/-- Witness of C1: station B of the two-station example, on a concrete block. -/
theorem fillDataArray_three_way_witness :
    (0 : Int) ≠ -1 ∧ 1 ≤ exampleNst 1 ∧ exampleNst 1 ≤ exampleNft 1 ∧
    (fillDataArray 1 2 3 0 exampleNst exampleNft (fun _ => 7) (-1) (-1)
        (blockMem [10, 11, 20, 21, 22, 30, 31])).data 1 = 22 ∧
    (fillDataArray 1 2 3 0 exampleNst exampleNft (fun _ => 7) (-1) (-1)
        (blockMem [10, 11, 20, 21, 22, 30, 31])).data 3 = 7 :=
  ⟨by decide, by decide, by decide,
    ((fillDataArray_three_way 1 2 3 0 exampleNst exampleNft (fun _ => 7) (-1) (-1)
        (blockMem [10, 11, 20, 21, 22, 30, 31]) (by decide) (by decide) (by decide)).1 1
        (by decide)).2.1 (by decide) (by decide),
    (fillDataArray_three_way 1 2 3 0 exampleNst exampleNft (fun _ => 7) (-1) (-1)
        (blockMem [10, 11, 20, 21, 22, 30, 31]) (by decide) (by decide) (by decide)).2.1 3
        (by decide)⟩

/-! ## Decoding the reference layout -/

theorem recording_eq_activeAt (nst nft : Nat → Int) (it j : Nat) :
    recording nst nft it j = activeAt nst nft (it + 1) j := by
  simp [recording, activeAt]

theorem skipRecords_eq_filter (nst nft : Nat → Int) (it n jsta : Nat) :
    skipRecords nst nft it n jsta 0
      = ((List.range' jsta n).filter (activeAt nst nft (it + 1))).length := by
  induction n generalizing jsta with
  | zero => simp [skipRecords]
  | succ n ih =>
    rw [skipRecords, skipRecords_add, ih, List.range'_succ, List.filter_cons,
      recording_eq_activeAt]
    split
    · simp; omega
    · simp

theorem range_split (ista total : Nat) (h : ista < total) :
    List.range total
      = List.range' 0 ista ++ ista :: List.range' (ista + 1) (total - (ista + 1)) := by
  obtain ⟨m, rfl⟩ : ∃ m, total = ista + 1 + m := ⟨total - (ista + 1), by omega⟩
  have h1 := List.range'_append 0 ista (m + 1) 1
  simp only [Nat.zero_add, Nat.one_mul] at h1
  rw [List.range_eq_range', show ista + 1 + m = m + 1 + ista by omega, ← h1,
    List.range'_succ, show m + 1 + ista - (ista + 1) = m by omega]

theorem stepWidth_eq (ista total : Nat) (nst nft : Nat → Int) (it : Nat) (h : ista < total) :
    stepWidth ista total nst nft it = 1 + activeCount total nst nft (it + 1) := by
  rw [stepWidth, skipRecords_eq_filter, skipRecords_eq_filter, activeCount,
    range_split ista total h, List.filter_append, List.filter_cons, recording_eq_activeAt]
  split <;> simp <;> omega

theorem headOffset_eq (ista total : Nat) (nst nft : Nat → Int) (it : Nat) (h : ista < total) :
    headOffset ista total nst nft it = it + activePairs total nst nft it := by
  induction it with
  | zero => simp [headOffset, activePairs]
  | succ n ih =>
    rw [headOffset, ih, stepWidth_eq _ _ _ _ _ h, activePairs, activePairs,
      List.range_succ, List.map_append, List.sum_append]
    simp
    omega

theorem mux_length (ista total : Nat) (nst nft : Nat → Int) (marker : Nat → ℚ)
    (series : Nat → Nat → ℚ) (T : Nat) (h : ista < total) :
    (mux total nst nft marker series T).length = headOffset ista total nst nft T := by
  induction T with
  | zero => simp [mux, headOffset]
  | succ n ih =>
    rw [mux, List.length_append, ih, headOffset, stepWidth_eq _ _ _ _ _ h, muxStep]
    simp [activeCount]
    omega

theorem muxStep_copy (ista total : Nat) (nst nft : Nat → Int) (marker : Nat → ℚ)
    (series : Nat → Nat → ℚ) (it : Nat) (h : ista < total)
    (hrec : recording nst nft it ista = true) :
    (muxStep total nst nft marker series (it + 1))[1 + skipRecords nst nft it ista 0 0]?
      = some (series ista (it + 1)) := by
  rw [recording_eq_activeAt] at hrec
  rw [muxStep, Nat.add_comm 1, List.getElem?_cons_succ, skipRecords_eq_filter,
    range_split ista total h, List.filter_append, List.map_append,
    List.getElem?_append_right (by simp), List.filter_cons, if_pos hrec]
  simp

theorem mux_copy (ista total : Nat) (nst nft : Nat → Int) (marker : Nat → ℚ)
    (series : Nat → Nat → ℚ) (T it : Nat) (h : ista < total) (hit : it < T)
    (hrec : recording nst nft it ista = true) :
    (mux total nst nft marker series T)[copyOffset ista total nst nft it]?
      = some (series ista (it + 1)) := by
  induction T with
  | zero => omega
  | succ n ih =>
    rw [mux]
    by_cases hlt : it < n
    · have h1 := ih hlt
      have h2 := (List.getElem?_eq_some.mp h1).1
      rw [List.getElem?_append_left h2, h1]
    · have hn : it = n := by omega
      subst hn
      have hl := mux_length ista total nst nft marker series it h
      rw [List.getElem?_append_right (by rw [hl, copyOffset]; omega), hl]
      have := muxStep_copy ista total nst nft marker series it h hrec
      rw [copyOffset, show headOffset ista total nst nft it + 1 + skipRecords nst nft it ista 0 0
        - headOffset ista total nst nft it = 1 + skipRecords nst nft it ista 0 0 by omega]
      exact this

/-- C2: decoding undoes multiplexing.  On the reference block
`mux(nst, nft, series, T)` with `nt <= T`, for a station `ista` of the network
with grid flag other than `-1` and `nst[ista] != -1`, `fillDataArray` returns
`data[t-1] = series[ista][t]` for every step `t` with `nst[ista] <= t <= nft[ista]`
and `1 <= t <= nt`; the offset of the copy is `t` markers plus the pairs active
at the steps before `t` plus the lower-indexed stations active at step `t`. -/
theorem fillDataArray_mux_roundtrip (ista total nt T : Nat) (ig : Int) (nst nft : Nat → Int)
    (marker : Nat → ℚ) (series : Nat → Nat → ℚ)
    (data : Nat → ℚ) (istart istop : Int)
    (hista : ista < total) (hT : nt ≤ T) (hig : ig ≠ -1) (hn : nst ista ≠ -1)
    (t : Nat) (ht1 : 1 ≤ t) (htn : t ≤ nt)
    (hs : nst ista ≤ (t : Int)) (he : (t : Int) ≤ nft ista) :
    (fillDataArray ista total nt ig nst nft data istart istop
        (blockMem (mux total nst nft marker series T))).data (t - 1) = series ista t ∧
    copyOffset ista total nst nft (t - 1)
      = t + activePairs total nst nft (t - 1) + activeCount ista nst nft t := by
  obtain ⟨it, rfl⟩ : ∃ it, t = it + 1 := ⟨t - 1, by omega⟩
  simp only [Nat.add_sub_cancel]
  have hrec : recording nst nft it ista = true := by
    simp only [recording, Bool.and_eq_true, decide_eq_true_eq]
    push_cast at hs he
    exact ⟨hs, he⟩
  constructor
  · rw [fillDataArray_data_active _ _ _ _ _ _ _ _ _ _ hig hn, if_pos (by omega), decodedAt,
      if_neg (by push_cast at hs; omega), if_pos (by push_cast at he; omega), blockMem,
      List.getD_eq_getElem?_getD,
      mux_copy ista total nst nft marker series T it hista (by omega) hrec]
    rfl
  · rw [copyOffset, headOffset_eq _ _ _ _ _ hista, skipRecords_eq_filter, activeCount,
      List.range_eq_range']
    omega

/-- Witness of C2: station B of the two-station example at its only step. -/
theorem fillDataArray_mux_roundtrip_witness :
    1 < 2 ∧ 3 ≤ 3 ∧ (0 : Int) ≠ -1 ∧ exampleNst 1 ≠ -1 ∧ 1 ≤ 2 ∧ 2 ≤ 3 ∧
    exampleNst 1 ≤ ((2 : Nat) : Int) ∧ ((2 : Nat) : Int) ≤ exampleNft 1 ∧
    (fillDataArray 1 2 3 0 exampleNst exampleNft (fun _ => 0) (-1) (-1)
        (blockMem (mux 2 exampleNst exampleNft (fun _ => 5) exampleSeries 3))).data 1 = 22 ∧
    copyOffset 1 2 exampleNst exampleNft 1 = 4 :=
  ⟨by decide, by decide, by decide, by decide, by decide, by decide, by decide, by decide,
    (fillDataArray_mux_roundtrip 1 2 3 3 0 exampleNst exampleNft (fun _ => 5) exampleSeries
      (fun _ => 0) (-1) (-1) (by decide) (by decide) (by decide) (by decide) 2
      (by decide) (by decide) (by decide) (by decide)).1,
    (fillDataArray_mux_roundtrip 1 2 3 3 0 exampleNst exampleNft (fun _ => 5) exampleSeries
      (fun _ => 0) (-1) (-1) (by decide) (by decide) (by decide) (by decide) 2
      (by decide) (by decide) (by decide) (by decide)).2.trans (by decide)⟩

/-! ## The loops of `_read_mux2`, row by row -/

theorem mergeLoop_apply (temp : Nat → ℚ) (w : ℚ) (n k0 : Nat) (row : Nat → ℚ) (k : Nat) :
    mergeLoop temp w n k0 row k =
      if k0 ≤ k ∧ k < k0 + n then mergeStep (row k) (temp k) w else row k := by
  induction n generalizing k0 row with
  | zero => rw [mergeLoop, if_neg (by omega)]
  | succ n ih =>
    rw [mergeLoop, ih]
    by_cases h1 : k0 + 1 ≤ k ∧ k < k0 + 1 + n
    · rw [if_pos h1, if_pos (by omega), Function.update_noteq (by omega)]
    · rw [if_neg h1]
      by_cases h2 : k = k0
      · subst h2
        rw [Function.update_same, if_pos (by omega)]
      · rw [Function.update_noteq h2, if_neg (by omega)]

theorem updateMeta_series (m : tgsrwg) (N isrc : Nat) (f l : Int) (row : Nat → ℚ)
    (k : Nat) (hk : k < N) : updateMeta m N isrc f l row k = row k := by
  have h0 : k ≠ N := by omega
  have h1 : k ≠ N + 1 := by omega
  have h2 : k ≠ N + 2 := by omega
  have h3 : k ≠ N + 3 := by omega
  have h4 : k ≠ N + 4 := by omega
  unfold updateMeta
  split_ifs <;> simp [Function.update_noteq, h0, h1, h2, h3, h4] <;>
    split_ifs <;> simp [Function.update_noteq, h0, h1, h2, h3, h4]

/-- With a temporary buffer that is zero from `N` on, the decoded buffer does not
depend on what the buffer and the trackers held before. -/
theorem fillDataArray_eq_decodeRow (mytgs0 : Nat → tgsrwg) (total N ista : Nat) (src : Source)
    (temp : Nat → ℚ) (istart istop : Int) (hz : ∀ k, N ≤ k → temp k = 0) :
    (fillDataArray ista total N (mytgs0 ista).ig src.fros src.lros temp istart istop
      src.muxData).data = decodeRow mytgs0 total N ista src := by
  funext k
  unfold decodeRow
  by_cases h : (mytgs0 ista).ig = -1 ∨ src.fros ista = -1
  · rw [fillDataArray_data_inactive _ _ _ _ _ _ _ _ _ _ h,
      fillDataArray_data_inactive _ _ _ _ _ _ _ _ _ _ h]
    split
    · rfl
    · exact hz k (by omega)
  · rw [fillDataArray_data_active _ _ _ _ _ _ _ _ _ _ (fun h' => h (Or.inl h'))
        (fun h' => h (Or.inr h')),
      fillDataArray_data_active _ _ _ _ _ _ _ _ _ _ (fun h' => h (Or.inl h'))
        (fun h' => h (Or.inr h'))]
    split
    · rfl
    · exact hz k (by omega)

theorem decodeRow_tail (mytgs0 : Nat → tgsrwg) (total N ista : Nat) (src : Source)
    (k : Nat) (hk : N ≤ k) : decodeRow mytgs0 total N ista src k = 0 := by
  unfold decodeRow
  rw [fillDataArray_data_frame _ _ _ _ _ _ _ _ _ _ k hk]

theorem stationStep_rows (mytgs0 : Nat → tgsrwg) (total N : Nat) (permutation : Nat → Nat)
    (isrc : Nat) (src : Source) (i : Nat) (s : MuxState)
    (hz : ∀ k, N ≤ k → s.temp_sts_data k = 0) :
    (stationStep mytgs0 total N permutation isrc src i s).sts_data
        = Function.update s.sts_data i
            (rowStep mytgs0 total N (permutation i) isrc src (s.sts_data i)) ∧
    (∀ k, N ≤ k →
      (stationStep mytgs0 total N permutation isrc src i s).temp_sts_data k = 0) := by
  have h := fillDataArray_eq_decodeRow mytgs0 total N (permutation i) src
    s.temp_sts_data s.istart s.istop hz
  constructor
  · simp only [stationStep, rowStep, h]
  · intro k hk
    simp only [stationStep, h]
    exact decodeRow_tail mytgs0 total N (permutation i) src k hk

theorem stationLoop_rows (mytgs0 : Nat → tgsrwg) (total N : Nat) (permutation : Nat → Nat)
    (isrc : Nat) (src : Source) (n i0 : Nat) (s : MuxState)
    (hz : ∀ k, N ≤ k → s.temp_sts_data k = 0) :
    (∀ i, (stationLoop mytgs0 total N permutation isrc src n i0 s).sts_data i
        = if i0 ≤ i ∧ i < i0 + n then
            rowStep mytgs0 total N (permutation i) isrc src (s.sts_data i)
          else s.sts_data i) ∧
    (∀ k, N ≤ k →
      (stationLoop mytgs0 total N permutation isrc src n i0 s).temp_sts_data k = 0) := by
  induction n generalizing i0 s with
  | zero =>
    refine ⟨fun i => ?_, hz⟩
    rw [stationLoop, if_neg (by omega)]
  | succ n ih =>
    have hs := stationStep_rows mytgs0 total N permutation isrc src i0 s hz
    have hi := ih (i0 + 1) (stationStep mytgs0 total N permutation isrc src i0 s) hs.2
    refine ⟨fun i => ?_, hi.2⟩
    rw [stationLoop, hi.1 i, hs.1]
    by_cases h1 : i0 + 1 ≤ i ∧ i < i0 + 1 + n
    · rw [if_pos h1, if_pos (by omega), Function.update_noteq (by omega)]
    · rw [if_neg h1]
      by_cases h2 : i = i0
      · subst h2
        rw [Function.update_same, if_pos (by omega)]
      · rw [Function.update_noteq h2, if_neg (by omega)]

theorem sourceLoop_rows (mytgs0 : Nat → tgsrwg) (total N nsel : Nat) (permutation : Nat → Nat)
    (srcs : List Source) (isrc : Nat) (s : MuxState)
    (hz : ∀ k, N ≤ k → s.temp_sts_data k = 0) (i : Nat) (hi : i < nsel) :
    (sourceLoop mytgs0 total N nsel permutation srcs isrc s).sts_data i
      = rowFold mytgs0 total N (permutation i) srcs isrc (s.sts_data i) := by
  induction srcs generalizing isrc s with
  | nil => rfl
  | cons src rest ih =>
    have hl := stationLoop_rows mytgs0 total N permutation isrc src nsel 0 s hz
    rw [sourceLoop, ih (isrc + 1) _ hl.2, hl.1 i, if_pos (by omega), rowFold]

theorem mergedRows_row (mytgs0 : Nat → tgsrwg) (total N nsel : Nat) (permutation : Nat → Nat)
    (srcs : List Source) (i : Nat) (hi : i < nsel) :
    (mergedRows mytgs0 total N nsel permutation srcs).sts_data i
      = rowFold mytgs0 total N (permutation i) srcs 0 (fun _ => 0) := by
  unfold mergedRows
  rw [sourceLoop_rows mytgs0 total N nsel permutation srcs 0 initState (fun _ _ => rfl) i hi]
  rfl

/-! ## isdata and the merge step -/

theorem isdata_eq_zero_iff (x : ℚ) : isdata x = 0 ↔ |x - NODATA| < EPSILON := by
  unfold isdata
  rw [abs_lt]
  constructor
  · intro h
    split at h
    · rename_i hc
      constructor <;> linarith [hc.1, hc.2]
    · omega
  · intro h
    rw [if_pos ⟨by linarith [h.2], by linarith [h.1]⟩]

theorem isdata_cases (x : ℚ) : isdata x = 0 ∨ isdata x = 1 := by
  unfold isdata
  split
  · exact Or.inl rfl
  · exact Or.inr rfl

theorem isdata_zero : isdata 0 = 1 := by
  unfold isdata NODATA EPSILON
  rw [if_neg]
  intro h
  norm_num at h

theorem isdata_NODATA : isdata NODATA = 0 := by
  rw [isdata_eq_zero_iff]
  simp [EPSILON]

theorem mergeStep_eq (a v w : ℚ) :
    mergeStep a v w = if isdata a = 0 ∨ isdata v = 0 then NODATA else a + w * v := by
  unfold mergeStep
  by_cases h : isdata a = 0 ∨ isdata v = 0
  · rw [if_pos h, if_neg]
    intro h'
    rcases h with h | h
    · exact h'.1 h
    · exact h'.2 h
  · rw [if_neg h, if_pos ⟨fun h' => h (Or.inl h'), fun h' => h (Or.inr h')⟩, mul_comm]

theorem mergeStep_zero_zero (w : ℚ) : mergeStep 0 0 w = 0 := by
  rw [mergeStep_eq, if_neg (by simp [isdata_zero])]
  ring

theorem mergeStep_sentinel (a v w : ℚ) (h : isdata v = 0) : mergeStep a v w = NODATA := by
  rw [mergeStep_eq, if_pos (Or.inr h)]

theorem mergeStep_NODATA (v w : ℚ) : mergeStep NODATA v w = NODATA := by
  rw [mergeStep_eq, if_pos (Or.inl isdata_NODATA)]

theorem mergeFold_NODATA (l : List (ℚ × ℚ)) : mergeFold NODATA l = NODATA := by
  induction l with
  | nil => rfl
  | cons p l ih =>
    unfold mergeFold at ih ⊢
    rw [List.foldl_cons, mergeStep_NODATA, ih]

theorem mergeFold_append (a : ℚ) (l1 l2 : List (ℚ × ℚ)) :
    mergeFold a (l1 ++ l2) = mergeFold (mergeFold a l1) l2 := by
  unfold mergeFold
  rw [List.foldl_append]

theorem mergeFold_sentinel (a : ℚ) (l1 l2 : List (ℚ × ℚ)) (v w : ℚ) (h : isdata v = 0) :
    mergeFold a (l1 ++ (v, w) :: l2) = NODATA := by
  rw [mergeFold_append]
  show mergeFold (mergeStep (mergeFold a l1) v w) l2 = NODATA
  rw [mergeStep_sentinel _ _ _ h, mergeFold_NODATA]

/-! ## The series slots of a row -/

theorem rowStep_series (mytgs0 : Nat → tgsrwg) (total N ista isrc : Nat) (src : Source)
    (row : Nat → ℚ) (k : Nat) (hk : k < N) :
    rowStep mytgs0 total N ista isrc src row k
      = if (k : Int) < (mytgs0 ista).nt then
          mergeStep (row k) (decodeRow mytgs0 total N ista src k) src.weight
        else row k := by
  unfold rowStep
  rw [updateMeta_series _ _ _ _ _ _ _ hk, mergeLoop_apply]
  by_cases h : (k : Int) < (mytgs0 ista).nt
  · rw [if_pos h, if_pos (by omega)]
  · rw [if_neg h, if_neg (by omega)]

theorem rowFold_series (mytgs0 : Nat → tgsrwg) (total N ista : Nat) (srcs : List Source)
    (isrc : Nat) (row : Nat → ℚ) (k : Nat) (hk : k < N) (hnt : (k : Int) < (mytgs0 ista).nt) :
    rowFold mytgs0 total N ista srcs isrc row k
      = mergeFold (row k) (slotPairs mytgs0 total N ista k srcs) := by
  induction srcs generalizing isrc row with
  | nil => rfl
  | cons src rest ih =>
    rw [rowFold, ih, rowStep_series _ _ _ _ _ _ _ _ hk, if_pos hnt]
    rfl

theorem rowFold_zero (mytgs0 : Nat → tgsrwg) (total N ista : Nat) (srcs : List Source)
    (isrc : Nat) (row : Nat → ℚ) (k : Nat) (hk : k < N) (hrow : row k = 0)
    (h : ∀ src ∈ srcs, decodeRow mytgs0 total N ista src k = 0) :
    rowFold mytgs0 total N ista srcs isrc row k = 0 := by
  induction srcs generalizing isrc row with
  | nil => exact hrow
  | cons src rest ih =>
    rw [rowFold]
    apply ih
    · rw [rowStep_series _ _ _ _ _ _ _ _ hk, hrow]
      split
      · rw [h src (List.mem_cons_self _ _), mergeStep_zero_zero]
      · rfl
    · intro s hs
      exact h s (List.mem_cons_of_mem _ hs)

/-- C3: for a selected station that is never active in any source (grid flag `-1`,
or first recorded step `-1` in that source), `fillDataArray` returns `nt` zeros
for each source, and after all sources are folded into the zeroed rows every
series slot of the station's row is `0.0`, which is not the sentinel. -/
theorem never_active_row_zero (mytgs0 : Nat → tgsrwg) (total N nsel : Nat)
    (permutation : Nat → Nat) (srcs : List Source) (i : Nat) (hi : i < nsel)
    (h : ∀ src ∈ srcs,
      (mytgs0 (permutation i)).ig = -1 ∨ src.fros (permutation i) = -1) :
    (∀ src ∈ srcs, ∀ (data : Nat → ℚ) (istart istop : Int) (k : Nat), k < N →
      (fillDataArray (permutation i) total N (mytgs0 (permutation i)).ig src.fros src.lros
        data istart istop src.muxData).data k = 0) ∧
    (∀ k, k < N →
      (mergedRows mytgs0 total N nsel permutation srcs).sts_data i k = 0 ∧
      (mergedRows mytgs0 total N nsel permutation srcs).sts_data i k ≠ NODATA ∧
      isdata ((mergedRows mytgs0 total N nsel permutation srcs).sts_data i k) = 1) := by
  have hfill : ∀ src ∈ srcs, ∀ (data : Nat → ℚ) (istart istop : Int) (k : Nat), k < N →
      (fillDataArray (permutation i) total N (mytgs0 (permutation i)).ig src.fros src.lros
        data istart istop src.muxData).data k = 0 := by
    intro src hsrc data istart istop k hk
    rw [fillDataArray_data_inactive _ _ _ _ _ _ _ _ _ _ (h src hsrc), if_pos hk]
  refine ⟨hfill, ?_⟩
  intro k hk
  have hz : (mergedRows mytgs0 total N nsel permutation srcs).sts_data i k = 0 := by
    rw [mergedRows_row _ _ _ _ _ _ _ hi]
    exact rowFold_zero _ _ _ _ _ _ _ _ hk rfl
      (fun src hsrc => hfill src hsrc _ _ _ k hk)
  rw [hz]
  refine ⟨rfl, ?_, isdata_zero⟩
  unfold NODATA
  norm_num

/-- Witness of C3: station B of the example in a network outside of all grids. -/
theorem never_active_row_zero_witness :
    1 < 2 ∧
    (∀ src ∈ [exampleSource, exampleSource],
      (offGridMeta ((fun j => j) 1)).ig = -1 ∨ src.fros ((fun j => j) 1) = -1) ∧
    (mergedRows offGridMeta 2 3 2 (fun j => j) [exampleSource, exampleSource]).sts_data 1 1
      = 0 :=
  ⟨by decide, fun _ _ => Or.inl rfl,
    ((never_active_row_zero offGridMeta 2 3 2 (fun j => j) [exampleSource, exampleSource] 1
      (by decide) (fun _ _ => Or.inl rfl)).2 1 (by decide)).1⟩

/-- C4: the per-slot merge step of `_read_mux2`.  The station loop body replaces
`sts_data[i][k]` by the merge of its old value with the decoded value and the
weight of the source; the merge of `a`, `v`, `w` is `NODATA` when `a` or `v` is
the sentinel and `a + w*v` otherwise; `isdata` returns `0` exactly for the values
strictly within `EPSILON = 0.00001` of `NODATA = 99.0`; the rows start at `0.0`,
which is not the sentinel. -/
theorem merge_step_rule (mytgs0 : Nat → tgsrwg) (total N : Nat) (permutation : Nat → Nat)
    (isrc : Nat) (src : Source) (i : Nat) (s : MuxState) (k : Nat) (a v w x : ℚ)
    (hk : k < N) (hnt : (k : Int) < (mytgs0 (permutation i)).nt) :
    (stationStep mytgs0 total N permutation isrc src i s).sts_data i k
      = mergeStep (s.sts_data i k)
          ((fillDataArray (permutation i) total N (mytgs0 (permutation i)).ig
            src.fros src.lros s.temp_sts_data s.istart s.istop src.muxData).data k)
          src.weight ∧
    mergeStep a v w = (if isdata a = 0 ∨ isdata v = 0 then NODATA else a + w * v) ∧
    (isdata x = 0 ↔ |x - NODATA| < EPSILON) ∧
    (isdata x = 0 ∨ isdata x = 1) ∧
    NODATA = 99 ∧ EPSILON = 1 / 100000 ∧
    initState.sts_data i k = 0 ∧ isdata 0 = 1 := by
  refine ⟨?_, mergeStep_eq a v w, isdata_eq_zero_iff x, isdata_cases x, rfl, rfl, rfl,
    isdata_zero⟩
  simp only [stationStep, Function.update_same]
  rw [updateMeta_series _ _ _ _ _ _ _ hk, mergeLoop_apply, if_pos (by omega)]

/-- Witness of C4: the second slot of station B of the example, first source. -/
theorem merge_step_rule_witness :
    1 < 3 ∧ ((1 : Nat) : Int) < (exampleMeta ((fun j => j) 1)).nt ∧
    (stationStep exampleMeta 2 3 (fun j => j) 0 exampleSource 1 initState).sts_data 1 1
      = mergeStep (initState.sts_data 1 1)
          ((fillDataArray ((fun j => j) 1) 2 3 (exampleMeta ((fun j => j) 1)).ig
            exampleSource.fros exampleSource.lros initState.temp_sts_data
            initState.istart initState.istop exampleSource.muxData).data 1)
          exampleSource.weight ∧
    mergeStep 0 22 1 = (if isdata 0 = 0 ∨ isdata 22 = 0 then NODATA else 0 + 1 * 22) :=
  ⟨by decide, by decide,
    (merge_step_rule exampleMeta 2 3 (fun j => j) 0 exampleSource 1 initState 1 0 22 1 0
      (by decide) (by decide)).1,
    (merge_step_rule exampleMeta 2 3 (fun j => j) 0 exampleSource 1 initState 1 0 22 1 0
      (by decide) (by decide)).2.1⟩

/-- C5: sentinel propagation is permanent.  If some source decodes the sentinel
for a slot that the weighting loop visits, the slot of the merged row is `NODATA`
after that source and after any later sources, whatever came before and whatever
the later values and weights are; the same holds for the fold of the merge step
over any list of (value, weight) pairs. -/
theorem sentinel_permanent (mytgs0 : Nat → tgsrwg) (total N nsel : Nat)
    (permutation : Nat → Nat) (before : List Source) (src : Source) (later : List Source)
    (i k : Nat) (hi : i < nsel) (hk : k < N)
    (hnt : (k : Int) < (mytgs0 (permutation i)).nt)
    (hs : isdata (decodeRow mytgs0 total N (permutation i) src k) = 0) :
    (mergedRows mytgs0 total N nsel permutation (before ++ src :: later)).sts_data i k
      = NODATA ∧
    (∀ (l1 l2 : List (ℚ × ℚ)) (v w : ℚ), isdata v = 0 →
      mergeFold 0 (l1 ++ (v, w) :: l2) = NODATA) := by
  constructor
  · rw [mergedRows_row _ _ _ _ _ _ _ hi, rowFold_series _ _ _ _ _ _ _ _ hk hnt, slotPairs,
      List.map_append, List.map_cons]
    exact mergeFold_sentinel _ _ _ _ _ hs
  · intro l1 l2 v w hv
    exact mergeFold_sentinel _ _ _ _ _ hv

/-- Witness of C5: station B of the example has finished at step 3 in the first
source, so the third slot stays `NODATA` after a second source. -/
theorem sentinel_permanent_witness :
    1 < 2 ∧ 2 < 3 ∧ ((2 : Nat) : Int) < (exampleMeta ((fun j => j) 1)).nt ∧
    isdata (decodeRow exampleMeta 2 3 ((fun j => j) 1) exampleSource 2) = 0 ∧
    (mergedRows exampleMeta 2 3 2 (fun j => j)
      ([] ++ exampleSource :: [exampleSource])).sts_data 1 2 = NODATA :=
  ⟨by decide, by decide, by decide,
    (congrArg isdata (by decide : decodeRow exampleMeta 2 3 ((fun j => j) 1) exampleSource 2
      = NODATA)).trans isdata_NODATA,
    (sentinel_permanent exampleMeta 2 3 2 (fun j => j) [] exampleSource [exampleSource] 1 2
      (by decide) (by decide) (by decide)
      ((congrArg isdata (by decide : decodeRow exampleMeta 2 3 ((fun j => j) 1)
        exampleSource 2 = NODATA)).trans isdata_NODATA)).1⟩

/-! ## Order of the sources -/

theorem mergeFold_concat (a : ℚ) (l : List (ℚ × ℚ)) (x : ℚ × ℚ) :
    mergeFold a (l ++ [x]) = mergeStep (mergeFold a l) x.1 x.2 := by
  rw [mergeFold_append]
  rfl

theorem weightedSum_concat (l : List (ℚ × ℚ)) (x : ℚ × ℚ) :
    weightedSum (l ++ [x]) = weightedSum l + x.1 * x.2 := by
  simp [weightedSum]

theorem mergeFold_clean (l : List (ℚ × ℚ)) (hv : ∀ p ∈ l, isdata p.1 ≠ 0)
    (hacc : noSentinelOnTheWay l) : mergeFold 0 l = weightedSum l := by
  induction l using List.reverseRecOn with
  | nil => rfl
  | append_singleton l x ih =>
    have h1 : isdata (mergeFold 0 l) ≠ 0 := by
      have := hacc l.length (by simp)
      rwa [List.take_left] at this
    have h2 : isdata x.1 ≠ 0 := hv x (by simp)
    have h3 : mergeFold 0 l = weightedSum l := by
      apply ih
      · intro p hp
        exact hv p (by simp [hp])
      · intro n hn
        have := hacc n (by simp; omega)
        rwa [List.take_append_of_le_length (by omega)] at this
    rw [mergeFold_concat, weightedSum_concat, mergeStep, if_pos ⟨h1, h2⟩, h3]

theorem mergeFold_of_sentinel_mem (l : List (ℚ × ℚ)) (h : ∃ p ∈ l, isdata p.1 = 0) :
    mergeFold 0 l = NODATA := by
  obtain ⟨p, hp, hs⟩ := h
  obtain ⟨l1, l2, rfl⟩ := List.append_of_mem hp
  exact mergeFold_sentinel 0 l1 l2 p.1 p.2 hs

theorem mergeFold_perm (l l' : List (ℚ × ℚ)) (hp : l.Perm l')
    (h : (∃ p ∈ l, isdata p.1 = 0) ∨ (noSentinelOnTheWay l ∧ noSentinelOnTheWay l')) :
    mergeFold 0 l = mergeFold 0 l' := by
  by_cases hs : ∃ p ∈ l, isdata p.1 = 0
  · have hs' : ∃ p ∈ l', isdata p.1 = 0 := by
      obtain ⟨p, hp1, hp2⟩ := hs
      exact ⟨p, hp.mem_iff.mp hp1, hp2⟩
    rw [mergeFold_of_sentinel_mem l hs, mergeFold_of_sentinel_mem l' hs']
  · have hc : noSentinelOnTheWay l ∧ noSentinelOnTheWay l' := by
      rcases h with h | h
      · exact absurd h hs
      · exact h
    have hv : ∀ p ∈ l, isdata p.1 ≠ 0 := fun p hp1 hp2 => hs ⟨p, hp1, hp2⟩
    have hv' : ∀ p ∈ l', isdata p.1 ≠ 0 := fun p hp1 => hv p (hp.mem_iff.mpr hp1)
    rw [mergeFold_clean l hv hc.1, mergeFold_clean l' hv' hc.2]
    exact (hp.map _).sum_eq

/-- C6 fails as stated: two sources of weight `1/2` decoding `198` and `-198`.
Merged in this order the first partial sum is `99`, which `isdata` takes for the
sentinel, and the slot ends as `NODATA`; in the other order it ends as `0`. -/
theorem merge_order_counterexample :
    List.Perm [((198 : ℚ), (1 / 2 : ℚ)), (-198, 1 / 2)] [(-198, 1 / 2), (198, 1 / 2)] ∧
    mergeFold 0 [(198, 1 / 2), (-198, 1 / 2)] = 99 ∧
    mergeFold 0 [(-198, 1 / 2), (198, 1 / 2)] = 0 ∧
    mergeFold 0 [(198, 1 / 2), (-198, 1 / 2)] ≠ mergeFold 0 [(-198, 1 / 2), (198, 1 / 2)] ∧
    slotPairs oneStepMeta 1 1 0 0 [highSource, lowSource] = [(198, 1 / 2), (-198, 1 / 2)] ∧
    (mergedRows oneStepMeta 1 1 1 (fun j => j) [highSource, lowSource]).sts_data 0 0 = 99 ∧
    (mergedRows oneStepMeta 1 1 1 (fun j => j) [lowSource, highSource]).sts_data 0 0 = 0 := by
  have e1 : mergeFold 0 [((198 : ℚ), (1 / 2 : ℚ)), (-198, 1 / 2)] = 99 := by
    norm_num [mergeFold, mergeStep, isdata, NODATA, EPSILON]
  have e2 : mergeFold 0 [((-198 : ℚ), (1 / 2 : ℚ)), (198, 1 / 2)] = 0 := by
    norm_num [mergeFold, mergeStep, isdata, NODATA, EPSILON]
  have h1 : decodeRow oneStepMeta 1 1 0 highSource 0 = 198 := rfl
  have h2 : decodeRow oneStepMeta 1 1 0 lowSource 0 = -198 := rfl
  have p1 : slotPairs oneStepMeta 1 1 0 0 [highSource, lowSource]
      = [(198, 1 / 2), (-198, 1 / 2)] := by
    simp only [slotPairs, List.map, h1, h2]
    rfl
  have p2 : slotPairs oneStepMeta 1 1 0 0 [lowSource, highSource]
      = [(-198, 1 / 2), (198, 1 / 2)] := by
    simp only [slotPairs, List.map, h1, h2]
    rfl
  refine ⟨List.Perm.swap _ _ _, e1, e2, ?_, p1, ?_, ?_⟩
  · rw [e1, e2]
    norm_num
  · rw [mergedRows_row _ _ _ _ _ _ _ (by decide),
      rowFold_series _ _ _ _ _ _ _ _ (by decide) (by decide), p1]
    exact e1
  · rw [mergedRows_row _ _ _ _ _ _ _ (by decide),
      rowFold_series _ _ _ _ _ _ _ _ (by decide) (by decide), p2]
    exact e2

/-- C6 as amended: folding a list of (decoded value, weight) pairs from `0.0` with
the merge step gives the same value for every permutation of the list, provided
some value of the list is the sentinel or, in both orders, no accumulated value
met before a source is merged is the sentinel; and then the merged slot of
`_read_mux2` is the same for both orders of the sources. -/
theorem merge_order_independent (l l' : List (ℚ × ℚ)) (hp : l.Perm l')
    (h : (∃ p ∈ l, isdata p.1 = 0) ∨ (noSentinelOnTheWay l ∧ noSentinelOnTheWay l')) :
    mergeFold 0 l = mergeFold 0 l' ∧
    (∀ (mytgs0 : Nat → tgsrwg) (total N nsel : Nat) (permutation : Nat → Nat)
      (srcs srcs' : List Source) (i k : Nat), i < nsel → k < N →
      (k : Int) < (mytgs0 (permutation i)).nt →
      slotPairs mytgs0 total N (permutation i) k srcs = l →
      slotPairs mytgs0 total N (permutation i) k srcs' = l' →
      (mergedRows mytgs0 total N nsel permutation srcs).sts_data i k
        = (mergedRows mytgs0 total N nsel permutation srcs').sts_data i k) := by
  have hm := mergeFold_perm l l' hp h
  refine ⟨hm, ?_⟩
  intro mytgs0 total N nsel permutation srcs srcs' i k hi hk hnt hl hl'
  rw [mergedRows_row _ _ _ _ _ _ _ hi, mergedRows_row _ _ _ _ _ _ _ hi,
    rowFold_series _ _ _ _ _ _ _ _ hk hnt, rowFold_series _ _ _ _ _ _ _ _ hk hnt, hl, hl']
  exact hm

/-- Witness of C6 as amended: the values `1` and `3`, both of weight `1/2`. -/
theorem merge_order_independent_witness :
    List.Perm [((1 : ℚ), (1 / 2 : ℚ)), (3, 1 / 2)] [(3, 1 / 2), (1, 1 / 2)] ∧
    ((∃ p ∈ [((1 : ℚ), (1 / 2 : ℚ)), (3, 1 / 2)], isdata p.1 = 0) ∨
      (noSentinelOnTheWay [((1 : ℚ), (1 / 2 : ℚ)), (3, 1 / 2)] ∧
        noSentinelOnTheWay [((3 : ℚ), (1 / 2 : ℚ)), (1, 1 / 2)])) ∧
    mergeFold 0 [((1 : ℚ), (1 / 2 : ℚ)), (3, 1 / 2)] = mergeFold 0 [(3, 1 / 2), (1, 1 / 2)] :=
  ⟨List.Perm.swap _ _ _,
    Or.inr ⟨by
      intro n hn
      simp only [List.length_cons, List.length_nil] at hn
      interval_cases n <;>
        norm_num [mergeFold, mergeStep, isdata, NODATA, EPSILON], by
      intro n hn
      simp only [List.length_cons, List.length_nil] at hn
      interval_cases n <;>
        norm_num [mergeFold, mergeStep, isdata, NODATA, EPSILON]⟩,
    (merge_order_independent [((1 : ℚ), (1 / 2 : ℚ)), (3, 1 / 2)] [(3, 1 / 2), (1, 1 / 2)]
      (List.Perm.swap _ _ _)
      (Or.inr ⟨by
        intro n hn
        simp only [List.length_cons, List.length_nil] at hn
        interval_cases n <;>
          norm_num [mergeFold, mergeStep, isdata, NODATA, EPSILON], by
        intro n hn
        simp only [List.length_cons, List.length_nil] at hn
        interval_cases n <;>
          norm_num [mergeFold, mergeStep, isdata, NODATA, EPSILON]⟩)).1⟩

/-! ## Identity and linearity -/

theorem isdata_ne_zero_of_one {x : ℚ} (h : isdata x = 1) : isdata x ≠ 0 := by
  rw [h]
  exact Nat.one_ne_zero

/-- C7 fails as stated: `99 + 2^-17` is a value of its own, but `isdata` takes it
for the sentinel, so a single source of weight `1.0` decoding it leaves `NODATA`
in the slot. -/
theorem single_source_counterexample :
    mergeStep 0 (99 + 1 / 131072) 1 = 99 ∧
    mergeStep 0 (99 + 1 / 131072) 1 ≠ 99 + 1 / 131072 ∧
    decodeRow oneStepMeta 1 1 0 nearSource 0 = 99 + 1 / 131072 ∧
    nearSource.weight = 1 ∧
    (mergedRows oneStepMeta 1 1 1 (fun j => j) [nearSource]).sts_data 0 0 = 99 := by
  have e1 : mergeStep 0 (99 + 1 / 131072) 1 = 99 := by
    norm_num [mergeStep, isdata, NODATA, EPSILON]
  have h1 : decodeRow oneStepMeta 1 1 0 nearSource 0 = 99 + 1 / 131072 := rfl
  refine ⟨e1, ?_, h1, rfl, ?_⟩
  · rw [e1]
    norm_num
  · rw [mergedRows_row _ _ _ _ _ _ _ (by decide),
      rowFold_series _ _ _ _ _ _ _ _ (by decide) (by decide)]
    simp only [slotPairs, List.map, h1]
    exact e1

/-- C7 as amended: for every decoded value `v` that `isdata` accepts, and for
`v = NODATA`, merging the single source with weight `1.0` into the zeroed
accumulator yields exactly `v`, in the merge step and in the merged row of
`_read_mux2`. -/
theorem single_source_identity (v : ℚ) (h : isdata v = 1 ∨ v = NODATA) :
    mergeStep 0 v 1 = v ∧
    (∀ (mytgs0 : Nat → tgsrwg) (total N nsel : Nat) (permutation : Nat → Nat)
      (src : Source) (i k : Nat), i < nsel → k < N →
      (k : Int) < (mytgs0 (permutation i)).nt → src.weight = 1 →
      decodeRow mytgs0 total N (permutation i) src k = v →
      (mergedRows mytgs0 total N nsel permutation [src]).sts_data i k = v) := by
  have hm : mergeStep 0 v 1 = v := by
    rcases h with h | h
    · rw [mergeStep, if_pos ⟨isdata_ne_zero_of_one isdata_zero, isdata_ne_zero_of_one h⟩]
      ring
    · rw [h, mergeStep_sentinel _ _ _ isdata_NODATA]
  refine ⟨hm, ?_⟩
  intro mytgs0 total N nsel permutation src i k hi hk hnt hw hv
  rw [mergedRows_row _ _ _ _ _ _ _ hi, rowFold_series _ _ _ _ _ _ _ _ hk hnt]
  simp only [slotPairs, List.map, hv, hw]
  exact hm

/-- Witness of C7 as amended: the value `22`. -/
theorem single_source_identity_witness :
    (isdata 22 = 1 ∨ (22 : ℚ) = NODATA) ∧ mergeStep 0 22 1 = 22 :=
  ⟨Or.inl (by norm_num [isdata, NODATA, EPSILON]),
    (single_source_identity 22 (Or.inl (by norm_num [isdata, NODATA, EPSILON]))).1⟩

/-- C8 fails as stated: for `v = 198` the first half is `99`, which `isdata`
takes for the sentinel, so the second merge stores `NODATA` and not `198`. -/
theorem two_halves_counterexample :
    mergeStep 0 198 (1 / 2) = 99 ∧
    mergeStep (mergeStep 0 198 (1 / 2)) 198 (1 / 2) = 99 ∧
    mergeStep (mergeStep 0 198 (1 / 2)) 198 (1 / 2) ≠ 198 ∧
    decodeRow oneStepMeta 1 1 0 highSource 0 = 198 ∧
    highSource.weight = 1 / 2 ∧
    (mergedRows oneStepMeta 1 1 1 (fun j => j) [highSource, highSource]).sts_data 0 0 = 99 := by
  have e1 : mergeStep 0 198 (1 / 2) = 99 := by
    norm_num [mergeStep, isdata, NODATA, EPSILON]
  have e2 : mergeStep (mergeStep 0 198 (1 / 2)) 198 (1 / 2) = 99 := by
    rw [e1]
    norm_num [mergeStep, isdata, NODATA, EPSILON]
  have h1 : decodeRow oneStepMeta 1 1 0 highSource 0 = 198 := rfl
  refine ⟨e1, e2, ?_, h1, rfl, ?_⟩
  · rw [e2]
    norm_num
  · rw [mergedRows_row _ _ _ _ _ _ _ (by decide),
      rowFold_series _ _ _ _ _ _ _ _ (by decide) (by decide)]
    simp only [slotPairs, List.map, h1]
    exact e2

/-- C8 as amended: for every decoded value `v` such that `isdata` accepts both
`v` and its half `v * 0.5`, and for `v = NODATA`, merging two sources that both
decode to `v`, each with weight `0.5`, into the zeroed accumulator yields exactly
`v`, in the merge step and in the merged row of `_read_mux2`. -/
theorem two_halves_linearity (v : ℚ)
    (h : (isdata v = 1 ∧ isdata (v * (1 / 2)) = 1) ∨ v = NODATA) :
    mergeStep (mergeStep 0 v (1 / 2)) v (1 / 2) = v ∧
    (∀ (mytgs0 : Nat → tgsrwg) (total N nsel : Nat) (permutation : Nat → Nat)
      (src src' : Source) (i k : Nat), i < nsel → k < N →
      (k : Int) < (mytgs0 (permutation i)).nt → src.weight = 1 / 2 → src'.weight = 1 / 2 →
      decodeRow mytgs0 total N (permutation i) src k = v →
      decodeRow mytgs0 total N (permutation i) src' k = v →
      (mergedRows mytgs0 total N nsel permutation [src, src']).sts_data i k = v) := by
  have hm : mergeStep (mergeStep 0 v (1 / 2)) v (1 / 2) = v := by
    rcases h with h | h
    · have e1 : mergeStep 0 v (1 / 2) = v * (1 / 2) := by
        rw [mergeStep, if_pos ⟨isdata_ne_zero_of_one isdata_zero, isdata_ne_zero_of_one h.1⟩]
        ring
      rw [e1, mergeStep, if_pos ⟨isdata_ne_zero_of_one h.2, isdata_ne_zero_of_one h.1⟩]
      ring
    · rw [h, mergeStep_sentinel _ _ _ isdata_NODATA]
  refine ⟨hm, ?_⟩
  intro mytgs0 total N nsel permutation src src' i k hi hk hnt hw hw' hv hv'
  rw [mergedRows_row _ _ _ _ _ _ _ hi, rowFold_series _ _ _ _ _ _ _ _ hk hnt]
  simp only [slotPairs, List.map, hv, hv', hw, hw']
  exact hm

/-- Witness of C8 as amended: the value `22`. -/
theorem two_halves_linearity_witness :
    ((isdata 22 = 1 ∧ isdata (22 * (1 / 2)) = 1) ∨ (22 : ℚ) = NODATA) ∧
    mergeStep (mergeStep 0 22 (1 / 2)) 22 (1 / 2) = 22 :=
  ⟨Or.inl ⟨by norm_num [isdata, NODATA, EPSILON], by norm_num [isdata, NODATA, EPSILON]⟩,
    (two_halves_linearity 22
      (Or.inl ⟨by norm_num [isdata, NODATA, EPSILON],
        by norm_num [isdata, NODATA, EPSILON]⟩)).1⟩

/-! ## Window reconciliation -/

theorem mergeStep_int_zero (z : Int) (w : ℚ) : mergeStep (z : ℚ) 0 w = z := by
  rw [mergeStep_eq]
  by_cases h : isdata (z : ℚ) = 0
  · rw [if_pos (Or.inl h)]
    rw [isdata_eq_zero_iff, abs_lt] at h
    unfold NODATA EPSILON at h
    have h1 : ((98 : Int) : ℚ) < (z : ℚ) := by
      push_cast
      linarith [h.1]
    have h2 : (z : ℚ) < ((100 : Int) : ℚ) := by
      push_cast
      linarith [h.2]
    have h3 : (98 : Int) < z := by exact_mod_cast h1
    have h4 : z < (100 : Int) := by exact_mod_cast h2
    have h5 : z = 99 := by omega
    rw [h5]
    unfold NODATA
    norm_num
  · rw [if_neg]
    · ring
    · intro h'
      rcases h' with h' | h'
      · exact h h'
      · rw [isdata_zero] at h'
        exact Nat.one_ne_zero h'

theorem updateMeta_first (m : tgsrwg) (N : Nat) (f l : Int) (row : Nat → ℚ) :
    updateMeta m N 0 f l row (N + 3) = f ∧ updateMeta m N 0 f l row (N + 4) = l := by
  unfold updateMeta
  constructor
  · simp
  · simp

theorem updateMeta_later (m : tgsrwg) (N isrc : Nat) (f l : Int) (row : Nat → ℚ)
    (h : isrc ≠ 0) :
    updateMeta m N isrc f l row (N + 3) = min (row (N + 3)) (f : ℚ) ∧
    updateMeta m N isrc f l row (N + 4) = max (row (N + 4)) (l : ℚ) := by
  unfold updateMeta
  rw [if_neg h]
  constructor
  · by_cases h1 : row (N + 3) > (f : ℚ)
    · rw [min_eq_right (le_of_lt h1)]
      simp only [h1, if_true]
      split
      · rw [Function.update_noteq (by omega), Function.update_same]
      · rw [Function.update_same]
    · rw [min_eq_left (not_lt.mp h1)]
      simp only [h1, if_false]
      split
      · rw [Function.update_noteq (by omega)]
      · rfl
  · have e : (if row (N + 3) > (f : ℚ) then Function.update row (N + 3) (f : ℚ) else row) (N + 4)
        = row (N + 4) := by
      split
      · rw [Function.update_noteq (by omega)]
      · rfl
    simp only [e]
    by_cases h2 : row (N + 4) < (l : ℚ)
    · rw [max_eq_right (le_of_lt h2), if_pos h2, Function.update_same]
    · rw [max_eq_left (not_lt.mp h2), if_neg h2, e]

theorem mergeLoop_int (D : Nat → ℚ) (w : ℚ) (n : Nat) (row : Nat → ℚ) (k : Nat) (z : Int)
    (hD : D k = 0) (hrow : row k = z) : mergeLoop D w n 0 row k = z := by
  rw [mergeLoop_apply]
  split
  · rw [hD, hrow, mergeStep_int_zero]
  · exact hrow

theorem rowStep_window_first (mytgs0 : Nat → tgsrwg) (total N ista : Nat) (src : Source)
    (row : Nat → ℚ) :
    rowStep mytgs0 total N ista 0 src row (N + 3) = src.fros ista ∧
    rowStep mytgs0 total N ista 0 src row (N + 4) = src.lros ista := by
  unfold rowStep
  exact updateMeta_first _ _ _ _ _

theorem rowStep_window_later (mytgs0 : Nat → tgsrwg) (total N ista isrc : Nat) (src : Source)
    (row : Nat → ℚ) (a b : Int) (h : isrc ≠ 0)
    (ha : row (N + 3) = a) (hb : row (N + 4) = b) :
    rowStep mytgs0 total N ista isrc src row (N + 3) = ((min a (src.fros ista) : Int) : ℚ) ∧
    rowStep mytgs0 total N ista isrc src row (N + 4) = ((max b (src.lros ista) : Int) : ℚ) := by
  unfold rowStep
  have h3 := mergeLoop_int (decodeRow mytgs0 total N ista src) src.weight
    (mytgs0 ista).nt.toNat row (N + 3) a (decodeRow_tail _ _ _ _ _ _ (by omega)) ha
  have h4 := mergeLoop_int (decodeRow mytgs0 total N ista src) src.weight
    (mytgs0 ista).nt.toNat row (N + 4) b (decodeRow_tail _ _ _ _ _ _ (by omega)) hb
  have hu := updateMeta_later (mytgs0 ista) N isrc (src.fros ista) (src.lros ista)
    (mergeLoop (decodeRow mytgs0 total N ista src) src.weight (mytgs0 ista).nt.toNat 0 row) h
  rw [hu.1, hu.2, h3, h4]
  constructor
  · push_cast
    rfl
  · push_cast
    rfl

theorem rowFold_window_later (mytgs0 : Nat → tgsrwg) (total N ista : Nat) (rest : List Source)
    (isrc : Nat) (row : Nat → ℚ) (a b : Int) (h : isrc ≠ 0)
    (ha : row (N + 3) = a) (hb : row (N + 4) = b) :
    rowFold mytgs0 total N ista rest isrc row (N + 3)
      = ((rest.foldl (fun m s => min m (s.fros ista)) a : Int) : ℚ) ∧
    rowFold mytgs0 total N ista rest isrc row (N + 4)
      = ((rest.foldl (fun m s => max m (s.lros ista)) b : Int) : ℚ) := by
  induction rest generalizing isrc row a b with
  | nil => exact ⟨ha, hb⟩
  | cons src rest ih =>
    have hs := rowStep_window_later mytgs0 total N ista isrc src row a b h ha hb
    rw [rowFold]
    exact ih (isrc + 1) _ _ _ (by omega) hs.1 hs.2

theorem rowFold_window (mytgs0 : Nat → tgsrwg) (total N ista : Nat) (src0 : Source)
    (rest : List Source) (row : Nat → ℚ) :
    rowFold mytgs0 total N ista (src0 :: rest) 0 row (N + 3)
      = ((rest.foldl (fun m s => min m (s.fros ista)) (src0.fros ista) : Int) : ℚ) ∧
    rowFold mytgs0 total N ista (src0 :: rest) 0 row (N + 4)
      = ((rest.foldl (fun m s => max m (s.lros ista)) (src0.lros ista) : Int) : ℚ) := by
  have hs := rowStep_window_first mytgs0 total N ista src0 row
  rw [rowFold]
  exact rowFold_window_later mytgs0 total N ista rest 1 _ _ _ (by omega) hs.1 hs.2

theorem foldl_min_spec (f : Source → Int) (rest : List Source) (a : Int) :
    rest.foldl (fun m s => min m (f s)) a ≤ a ∧
    (∀ s ∈ rest, rest.foldl (fun m s => min m (f s)) a ≤ f s) ∧
    (rest.foldl (fun m s => min m (f s)) a = a ∨
      ∃ s ∈ rest, f s = rest.foldl (fun m s => min m (f s)) a) := by
  induction rest generalizing a with
  | nil => simp
  | cons x rest ih =>
    obtain ⟨h1, h2, h3⟩ := ih (min a (f x))
    rw [List.foldl_cons]
    refine ⟨le_trans h1 (min_le_left _ _), ?_, ?_⟩
    · intro s hs
      rcases List.mem_cons.mp hs with rfl | hs
      · exact le_trans h1 (min_le_right _ _)
      · exact h2 s hs
    · rcases h3 with h3 | ⟨s, hs, h3⟩
      · rcases min_choice a (f x) with hc | hc
        · left
          rw [h3, hc]
        · right
          exact ⟨x, List.mem_cons_self _ _, by rw [h3, hc]⟩
      · right
        exact ⟨s, List.mem_cons_of_mem _ hs, h3⟩

theorem foldl_max_spec (f : Source → Int) (rest : List Source) (a : Int) :
    a ≤ rest.foldl (fun m s => max m (f s)) a ∧
    (∀ s ∈ rest, f s ≤ rest.foldl (fun m s => max m (f s)) a) ∧
    (rest.foldl (fun m s => max m (f s)) a = a ∨
      ∃ s ∈ rest, f s = rest.foldl (fun m s => max m (f s)) a) := by
  induction rest generalizing a with
  | nil => simp
  | cons x rest ih =>
    obtain ⟨h1, h2, h3⟩ := ih (max a (f x))
    rw [List.foldl_cons]
    refine ⟨le_trans (le_max_left _ _) h1, ?_, ?_⟩
    · intro s hs
      rcases List.mem_cons.mp hs with rfl | hs
      · exact le_trans (le_max_right _ _) h1
      · exact h2 s hs
    · rcases h3 with h3 | ⟨s, hs, h3⟩
      · rcases max_choice a (f x) with hc | hc
        · left
          rw [h3, hc]
        · right
          exact ⟨x, List.mem_cons_self _ _, by rw [h3, hc]⟩
      · right
        exact ⟨s, List.mem_cons_of_mem _ hs, h3⟩

/-- The reconciled window of a selected station after all sources: slots `N+3`
and `N+4` hold the least first step and the greatest last step of the sources. -/
theorem mergedRows_window (mytgs0 : Nat → tgsrwg) (total N nsel : Nat)
    (permutation : Nat → Nat) (srcs : List Source) (i : Nat) (hi : i < nsel)
    (hne : srcs ≠ []) :
    ∃ m M : Int,
      (mergedRows mytgs0 total N nsel permutation srcs).sts_data i (N + 3) = m ∧
      (mergedRows mytgs0 total N nsel permutation srcs).sts_data i (N + 4) = M ∧
      (∃ s ∈ srcs, s.fros (permutation i) = m) ∧
      (∀ s ∈ srcs, m ≤ s.fros (permutation i)) ∧
      (∃ s ∈ srcs, s.lros (permutation i) = M) ∧
      (∀ s ∈ srcs, s.lros (permutation i) ≤ M) := by
  obtain ⟨src0, rest, rfl⟩ := List.exists_cons_of_ne_nil hne
  have hw := rowFold_window mytgs0 total N (permutation i) src0 rest (fun _ => 0)
  obtain ⟨a1, a2, a3⟩ := foldl_min_spec (fun s => s.fros (permutation i)) rest
    (src0.fros (permutation i))
  obtain ⟨b1, b2, b3⟩ := foldl_max_spec (fun s => s.lros (permutation i)) rest
    (src0.lros (permutation i))
  refine ⟨rest.foldl (fun m s => min m (s.fros (permutation i))) (src0.fros (permutation i)),
    rest.foldl (fun m s => max m (s.lros (permutation i))) (src0.lros (permutation i)),
    ?_, ?_, ?_, ?_, ?_, ?_⟩
  · rw [mergedRows_row _ _ _ _ _ _ _ hi]
    exact hw.1
  · rw [mergedRows_row _ _ _ _ _ _ _ hi]
    exact hw.2
  · rcases a3 with h | ⟨s, hs, h⟩
    · exact ⟨src0, List.mem_cons_self _ _, h.symm⟩
    · exact ⟨s, List.mem_cons_of_mem _ hs, h⟩
  · intro s hs
    rcases List.mem_cons.mp hs with rfl | hs
    · exact a1
    · exact a2 s hs
  · rcases b3 with h | ⟨s, hs, h⟩
    · exact ⟨src0, List.mem_cons_self _ _, h.symm⟩
    · exact ⟨s, List.mem_cons_of_mem _ hs, h⟩
  · intro s hs
    rcases List.mem_cons.mp hs with rfl | hs
    · exact b1
    · exact b2 s hs

theorem rowFold_concat (mytgs0 : Nat → tgsrwg) (total N ista : Nat) (l : List Source)
    (s : Source) (isrc : Nat) (row : Nat → ℚ) :
    rowFold mytgs0 total N ista (l ++ [s]) isrc row
      = rowStep mytgs0 total N ista (isrc + l.length) s
          (rowFold mytgs0 total N ista l isrc row) := by
  induction l generalizing isrc row with
  | nil => rfl
  | cons x l ih =>
    rw [List.cons_append, rowFold, ih, rowFold, List.length_cons,
      show isrc + 1 + l.length = isrc + (l.length + 1) by omega]

/-- C9: window reconciliation in `_read_mux2`.  For a selected station, the first
source sets the metadata slots `N+3` and `N+4` to its own first and last step;
each later source replaces them by the minimum with its first step and the
maximum with its last step; so after all of a non-empty list of sources they
hold the least `fros[ista]` and the greatest `lros[ista]` over the sources, the
value `-1` taking part like any other number. -/
theorem window_reconciled (mytgs0 : Nat → tgsrwg) (total N nsel : Nat)
    (permutation : Nat → Nat) (src0 : Source) (rest : List Source) (i : Nat)
    (hi : i < nsel) :
    ((mergedRows mytgs0 total N nsel permutation [src0]).sts_data i (N + 3)
        = src0.fros (permutation i) ∧
     (mergedRows mytgs0 total N nsel permutation [src0]).sts_data i (N + 4)
        = src0.lros (permutation i)) ∧
    (∀ s : Source,
      (mergedRows mytgs0 total N nsel permutation ((src0 :: rest) ++ [s])).sts_data i (N + 3)
        = min ((mergedRows mytgs0 total N nsel permutation (src0 :: rest)).sts_data i (N + 3))
            (s.fros (permutation i) : ℚ) ∧
      (mergedRows mytgs0 total N nsel permutation ((src0 :: rest) ++ [s])).sts_data i (N + 4)
        = max ((mergedRows mytgs0 total N nsel permutation (src0 :: rest)).sts_data i (N + 4))
            (s.lros (permutation i) : ℚ)) ∧
    (∃ m M : Int,
      (mergedRows mytgs0 total N nsel permutation (src0 :: rest)).sts_data i (N + 3) = m ∧
      (mergedRows mytgs0 total N nsel permutation (src0 :: rest)).sts_data i (N + 4) = M ∧
      (∃ s ∈ src0 :: rest, s.fros (permutation i) = m) ∧
      (∀ s ∈ src0 :: rest, m ≤ s.fros (permutation i)) ∧
      (∃ s ∈ src0 :: rest, s.lros (permutation i) = M) ∧
      (∀ s ∈ src0 :: rest, s.lros (permutation i) ≤ M)) := by
  refine ⟨?_, ?_, mergedRows_window mytgs0 total N nsel permutation (src0 :: rest) i hi
    (List.cons_ne_nil _ _)⟩
  · rw [mergedRows_row _ _ _ _ _ _ _ hi]
    exact rowStep_window_first mytgs0 total N (permutation i) src0 (fun _ => 0)
  · intro s
    have hw := rowFold_window mytgs0 total N (permutation i) src0 rest (fun _ => 0)
    have hs := rowStep_window_later mytgs0 total N (permutation i)
      (0 + (src0 :: rest).length) s
      (rowFold mytgs0 total N (permutation i) (src0 :: rest) 0 (fun _ => 0)) _ _
      (by simp) hw.1 hw.2
    rw [mergedRows_row _ _ _ _ _ _ _ hi, mergedRows_row _ _ _ _ _ _ _ hi, rowFold_concat,
      hs.1, hs.2, hw.1, hw.2]
    constructor
    · push_cast
      rfl
    · push_cast
      rfl

/-- Witness of C9: station A of the example, read from the example source and
then from a source in which it starts one step later. -/
theorem window_reconciled_witness :
    0 < 2 ∧
    (mergedRows exampleMeta 2 3 2 (fun j => j) [exampleSource]).sts_data 0 (3 + 3)
      = exampleSource.fros ((fun j => j) 0) ∧
    (mergedRows exampleMeta 2 3 2 (fun j => j)
        ((exampleSource :: []) ++ [lateSource])).sts_data 0 (3 + 4)
      = max ((mergedRows exampleMeta 2 3 2 (fun j => j) (exampleSource :: [])).sts_data 0
              (3 + 4))
          (lateSource.lros ((fun j => j) 0) : ℚ) :=
  ⟨by decide,
    (window_reconciled exampleMeta 2 3 2 (fun j => j) exampleSource [] 0 (by decide)).1.1,
    ((window_reconciled exampleMeta 2 3 2 (fun j => j) exampleSource [] 0
      (by decide)).2.1 lateSource).2⟩

/-- C10: window reconciliation is order-independent.  For every non-empty list of
sources and every permutation of it, the metadata slots `N+3` and `N+4` that
`_read_mux2` stores for a selected station are the same. -/
theorem window_order_independent (mytgs0 : Nat → tgsrwg) (total N nsel : Nat)
    (permutation : Nat → Nat) (srcs srcs' : List Source) (i : Nat)
    (hi : i < nsel) (hne : srcs ≠ []) (hp : srcs.Perm srcs') :
    (mergedRows mytgs0 total N nsel permutation srcs).sts_data i (N + 3)
      = (mergedRows mytgs0 total N nsel permutation srcs').sts_data i (N + 3) ∧
    (mergedRows mytgs0 total N nsel permutation srcs).sts_data i (N + 4)
      = (mergedRows mytgs0 total N nsel permutation srcs').sts_data i (N + 4) := by
  have hne' : srcs' ≠ [] := by
    intro h
    rw [h] at hp
    exact hne hp.eq_nil
  obtain ⟨m, M, h3, h4, ⟨s1, hs1, e1⟩, l1, ⟨t1, ht1, f1⟩, u1⟩ :=
    mergedRows_window mytgs0 total N nsel permutation srcs i hi hne
  obtain ⟨m', M', h3', h4', ⟨s2, hs2, e2⟩, l2, ⟨t2, ht2, f2⟩, u2⟩ :=
    mergedRows_window mytgs0 total N nsel permutation srcs' i hi hne'
  have hm : m = m' := by
    apply le_antisymm
    · rw [← e2]
      exact l1 s2 (hp.mem_iff.mpr hs2)
    · rw [← e1]
      exact l2 s1 (hp.mem_iff.mp hs1)
  have hM : M = M' := by
    apply le_antisymm
    · rw [← f1]
      exact u2 t1 (hp.mem_iff.mp ht1)
    · rw [← f2]
      exact u1 t2 (hp.mem_iff.mpr ht2)
  rw [h3, h4, h3', h4', hm, hM]
  exact ⟨rfl, rfl⟩

/-- Witness of C10: the example source and the late source in both orders. -/
theorem window_order_independent_witness :
    0 < 2 ∧ [exampleSource, lateSource] ≠ [] ∧
    List.Perm [exampleSource, lateSource] [lateSource, exampleSource] ∧
    (mergedRows exampleMeta 2 3 2 (fun j => j) [exampleSource, lateSource]).sts_data 0 (3 + 3)
      = (mergedRows exampleMeta 2 3 2 (fun j => j)
          [lateSource, exampleSource]).sts_data 0 (3 + 3) :=
  ⟨by decide, List.cons_ne_nil _ _, List.Perm.swap _ _ _,
    (window_order_independent exampleMeta 2 3 2 (fun j => j) [exampleSource, lateSource]
      [lateSource, exampleSource] 0 (by decide) (List.cons_ne_nil _ _)
      (List.Perm.swap _ _ _)).1⟩

/-! ## The global window check of `read_mux2` -/

theorem cInt_intCast (z : Int) : cInt (z : ℚ) = z := by
  unfold cInt
  split <;> simp

theorem windowLoop_spec (cdata : Nat → Nat → ℚ) (nt : Int) (n i0 : Nat) (w : Int × Int) :
    ((windowLoop cdata nt n i0 w).1 ≤ w.1 ∧
      (∀ i, i0 ≤ i → i < i0 + n →
        (windowLoop cdata nt n i0 w).1 ≤ cInt (cdata i (nt + 3).toNat)) ∧
      ((windowLoop cdata nt n i0 w).1 = w.1 ∨
        ∃ i, i0 ≤ i ∧ i < i0 + n ∧
          (windowLoop cdata nt n i0 w).1 = cInt (cdata i (nt + 3).toNat))) ∧
    (w.2 ≤ (windowLoop cdata nt n i0 w).2 ∧
      (∀ i, i0 ≤ i → i < i0 + n →
        cInt (cdata i (nt + 4).toNat) ≤ (windowLoop cdata nt n i0 w).2) ∧
      ((windowLoop cdata nt n i0 w).2 = w.2 ∨
        ∃ i, i0 ≤ i ∧ i < i0 + n ∧
          (windowLoop cdata nt n i0 w).2 = cInt (cdata i (nt + 4).toNat))) := by
  induction n generalizing i0 w with
  | zero =>
    refine ⟨⟨le_refl _, ?_, Or.inl rfl⟩, ⟨le_refl _, ?_, Or.inl rfl⟩⟩
    · intro i h1 h2
      omega
    · intro i h1 h2
      omega
  | succ n ih =>
    rw [windowLoop]
    have hmin : ∀ a b : Int, (if a < b then a else b) ≤ b ∧ (if a < b then a else b) ≤ a ∧
        ((if a < b then a else b) = b ∨ (if a < b then a else b) = a) := by
      intro a b
      split <;> omega
    have hmax : ∀ a b : Int, b ≤ (if a > b then a else b) ∧ a ≤ (if a > b then a else b) ∧
        ((if a > b then a else b) = b ∨ (if a > b then a else b) = a) := by
      intro a b
      split <;> omega
    obtain ⟨m1, m2, m3⟩ := hmin (cInt (cdata i0 (nt + 3).toNat)) w.1
    obtain ⟨x1, x2, x3⟩ := hmax (cInt (cdata i0 (nt + 4).toNat)) w.2
    generalize (if cInt (cdata i0 (nt + 3).toNat) < w.1 then cInt (cdata i0 (nt + 3).toNat)
      else w.1) = s1 at m1 m2 m3 ⊢
    generalize (if cInt (cdata i0 (nt + 4).toNat) > w.2 then cInt (cdata i0 (nt + 4).toNat)
      else w.2) = s2 at x1 x2 x3 ⊢
    obtain ⟨⟨a1, a2, a3⟩, ⟨b1, b2, b3⟩⟩ := ih (i0 + 1) (s1, s2)
    simp only at a1 a3 b1 b3
    refine ⟨⟨?_, ?_, ?_⟩, ⟨?_, ?_, ?_⟩⟩
    · omega
    · intro i h1 h2
      by_cases hi : i = i0
      · subst hi
        omega
      · exact a2 i (by omega) (by omega)
    · rcases a3 with h | ⟨i, h1, h2, h3⟩
      · rcases m3 with h' | h'
        · exact Or.inl (by omega)
        · exact Or.inr ⟨i0, le_refl _, by omega, by omega⟩
      · exact Or.inr ⟨i, by omega, by omega, h3⟩
    · omega
    · intro i h1 h2
      by_cases hi : i = i0
      · subst hi
        omega
      · exact b2 i (by omega) (by omega)
    · rcases b3 with h | ⟨i, h1, h2, h3⟩
      · rcases x3 with h' | h'
        · exact Or.inl (by omega)
        · exact Or.inr ⟨i0, le_refl _, by omega, by omega⟩
      · exact Or.inr ⟨i, by omega, by omega, h3⟩

theorem assembleOutput_incorrectTimes (cdata : Nat → Nat → ℚ) (nt : Int) (nsel : Nat)
    (pydata : Nat → Nat → ℚ) :
    assembleOutput cdata nt nsel pydata = Except.error Mux2Error.incorrectTimes ↔
      ((globalWindow cdata nt nsel).1 > nt ∨ (globalWindow cdata nt nsel).2 < 0) := by
  unfold assembleOutput windowCheck
  by_cases h1 : (globalWindow cdata nt nsel).1 > nt ∨ (globalWindow cdata nt nsel).2 < 0
  · simp [h1]
  · by_cases h2 : (globalWindow cdata nt nsel).1 ≥ (globalWindow cdata nt nsel).2
    · simp [h1, h2]
    · simp [h1, h2]

theorem assembleOutput_nonPositiveLength (cdata : Nat → Nat → ℚ) (nt : Int) (nsel : Nat)
    (pydata : Nat → Nat → ℚ) :
    assembleOutput cdata nt nsel pydata = Except.error Mux2Error.nonPositiveLength ↔
      (¬ ((globalWindow cdata nt nsel).1 > nt ∨ (globalWindow cdata nt nsel).2 < 0) ∧
        (globalWindow cdata nt nsel).1 ≥ (globalWindow cdata nt nsel).2) := by
  unfold assembleOutput windowCheck
  by_cases h1 : (globalWindow cdata nt nsel).1 > nt ∨ (globalWindow cdata nt nsel).2 < 0
  · simp [h1]
  · by_cases h2 : (globalWindow cdata nt nsel).1 ≥ (globalWindow cdata nt nsel).2
    · simp [h1, h2]
    · simp [h1, h2]

theorem read_mux2_eq (files : List MuxFile) (weights : Nat → ℚ) (file_params : Nat → ℚ)
    (permutation : List Nat) (st : Storage) (pydata : Nat → Nat → ℚ) (hne : files ≠ []) :
    ∃ r, _read_mux2 files weights file_params permutation.length
          (fun i => permutation.getD i 0) st = some r ∧
      read_mux2 files weights file_params permutation st pydata
        = assembleOutput r.sts_data (cInt (r.params 2)) r.number_of_stations pydata := by
  have hl : ¬ files.length = 0 := by
    intro h
    exact hne (List.length_eq_zero.mp h)
  refine ⟨_, rfl, ?_⟩
  unfold read_mux2
  rw [if_neg hl]
  rfl

/-- C11: the global window check of `read_mux2`.  The global start is the least
of `nt + 1` and the reconciled first steps (slot `nt+3`) of the selected
stations, the global finish the greatest of `-1` and their reconciled last
steps (slot `nt+4`); the call fails with 'Incorrect start and finish times'
exactly when `start > nt` or `finish < 0`, and otherwise with the
non-positive-length error exactly when `start >= finish`; if every selected
station starts after `nt`, it fails with the first error. -/
theorem global_window_check (cdata : Nat → Nat → ℚ) (nt : Int) (nsel : Nat)
    (pydata : Nat → Nat → ℚ) :
    ((globalWindow cdata nt nsel).1 ≤ nt + 1 ∧
      (∀ i, i < nsel → (globalWindow cdata nt nsel).1 ≤ cInt (cdata i (nt + 3).toNat)) ∧
      ((globalWindow cdata nt nsel).1 = nt + 1 ∨
        ∃ i, i < nsel ∧ (globalWindow cdata nt nsel).1 = cInt (cdata i (nt + 3).toNat))) ∧
    (-1 ≤ (globalWindow cdata nt nsel).2 ∧
      (∀ i, i < nsel → cInt (cdata i (nt + 4).toNat) ≤ (globalWindow cdata nt nsel).2) ∧
      ((globalWindow cdata nt nsel).2 = -1 ∨
        ∃ i, i < nsel ∧ (globalWindow cdata nt nsel).2 = cInt (cdata i (nt + 4).toNat))) ∧
    (assembleOutput cdata nt nsel pydata = Except.error Mux2Error.incorrectTimes ↔
      ((globalWindow cdata nt nsel).1 > nt ∨ (globalWindow cdata nt nsel).2 < 0)) ∧
    (assembleOutput cdata nt nsel pydata = Except.error Mux2Error.nonPositiveLength ↔
      (¬ ((globalWindow cdata nt nsel).1 > nt ∨ (globalWindow cdata nt nsel).2 < 0) ∧
        (globalWindow cdata nt nsel).1 ≥ (globalWindow cdata nt nsel).2)) ∧
    ((∀ i, i < nsel → nt < cInt (cdata i (nt + 3).toNat)) →
      assembleOutput cdata nt nsel pydata = Except.error Mux2Error.incorrectTimes) ∧
    (∀ (files : List MuxFile) (weights file_params : Nat → ℚ) (permutation : List Nat)
      (st : Storage), files ≠ [] →
      ∃ r, _read_mux2 files weights file_params permutation.length
            (fun i => permutation.getD i 0) st = some r ∧
        read_mux2 files weights file_params permutation st pydata
          = assembleOutput r.sts_data (cInt (r.params 2)) r.number_of_stations pydata) := by
  obtain ⟨⟨a1, a2, a3⟩, ⟨b1, b2, b3⟩⟩ := windowLoop_spec cdata nt nsel 0 (nt + 1, -1)
  refine ⟨⟨a1, ?_, ?_⟩, ⟨b1, ?_, ?_⟩, assembleOutput_incorrectTimes cdata nt nsel pydata,
    assembleOutput_nonPositiveLength cdata nt nsel pydata, ?_, ?_⟩
  · intro i hi
    exact a2 i (Nat.zero_le _) (by omega)
  · rcases a3 with h | ⟨i, _, h2, h3⟩
    · exact Or.inl h
    · exact Or.inr ⟨i, by omega, h3⟩
  · intro i hi
    exact b2 i (Nat.zero_le _) (by omega)
  · rcases b3 with h | ⟨i, _, h2, h3⟩
    · exact Or.inl h
    · exact Or.inr ⟨i, by omega, h3⟩
  · intro hall
    rw [assembleOutput_incorrectTimes]
    left
    rcases a3 with h | ⟨i, _, h2, h3⟩
    · have h' : (globalWindow cdata nt nsel).1 = nt + 1 := h
      omega
    · have h' : (globalWindow cdata nt nsel).1 = cInt (cdata i (nt + 3).toNat) := h3
      have := hall i (by omega)
      omega
  · intro files weights file_params permutation st hne
    exact read_mux2_eq files weights file_params permutation st pydata hne

/-- Witness of C11: two stations that start at step 9 of a series of length 3. -/
theorem global_window_check_witness :
    (∀ i, i < 2 → (3 : Int) < cInt (lateRows i ((3 : Int) + 3).toNat)) ∧
    assembleOutput lateRows 3 2 (fun _ _ => 0) = Except.error Mux2Error.incorrectTimes :=
  ⟨fun _ _ => by simp only [lateRows]; decide,
    (global_window_check lateRows 3 2 (fun _ _ => 0)).2.2.2.2.1
      (fun _ _ => by simp only [lateRows]; decide)⟩

/-! ## getNumData -/

theorem getNumDataLoop_eq (fros lros : Nat → Int) (n j0 : Nat) (acc : Int × Int) :
    getNumDataLoop fros lros n j0 acc
      = (acc.1 + ((List.range' j0 n).map
            (fun j => if fros j ≠ -1 then lros j - fros j + 1 else 0)).sum,
         (List.range' j0 n).foldl
            (fun m j => if fros j ≠ -1 then max m (lros j) else m) acc.2) := by
  induction n generalizing j0 acc with
  | zero => simp [getNumDataLoop]
  | succ n ih =>
    rw [getNumDataLoop, ih, List.range'_succ, List.map_cons, List.sum_cons, List.foldl_cons]
    by_cases h : fros j0 ≠ -1
    · have hm : (if acc.2 < lros j0 then lros j0 else acc.2) = max acc.2 (lros j0) := by
        rw [max_def]
        split <;> split <;> omega
      rw [if_pos h, if_pos h, if_pos h, hm, add_assoc]
    · rw [if_neg h, if_neg h, if_neg h, zero_add]

theorem getNumData_eq (fros lros : Nat → Int) (n : Nat) :
    getNumData fros lros n
      = spanSum fros lros n + lastActiveStep fros lros n * (n : Int) := by
  unfold getNumData spanSum lastActiveStep
  rw [getNumDataLoop_eq, List.range_eq_range']
  simp

/-- C12, the code at the two-station example (A records steps 1..3, B only
step 2): `getNumData` returns 10, the span sum 4 plus the last step 3 times the
station count 2, whereas the block `[t1, A1, t2, A2, B2, t3, A3]` has
4 + 3 = 7 elements; in general `getNumData` adds the last active step once per
station. -/
theorem getNumData_example :
    getNumData exampleNst exampleNft 2 = 10 ∧
    spanSum exampleNst exampleNft 2 + lastActiveStep exampleNst exampleNft 2 = 7 ∧
    (∀ (marker : Nat → ℚ) (series : Nat → Nat → ℚ),
      (mux 2 exampleNst exampleNft marker series 3).length = 7) ∧
    (∀ (fros lros : Nat → Int) (n : Nat),
      getNumData fros lros n
        = spanSum fros lros n + lastActiveStep fros lros n * (n : Int)) := by
  refine ⟨by decide, by decide, ?_, getNumData_eq⟩
  intro marker series
  rfl

/-! ## Header validation -/

theorem stationsCompatible_iff (a b : Nat → tgsrwg) (n j0 : Nat) :
    stationsCompatible a b n j0 = true ↔
      ∀ j, j0 ≤ j → j < j0 + n → (a j).dt = (b j).dt ∧ (a j).nt = (b j).nt := by
  induction n generalizing j0 with
  | zero =>
    simp only [stationsCompatible, true_iff]
    intro j h1 h2
    omega
  | succ n ih =>
    rw [stationsCompatible]
    by_cases hd : (a j0).dt ≠ (b j0).dt
    · rw [if_pos hd]
      constructor
      · intro h
        exact absurd h (by decide)
      · intro h
        exact absurd (h j0 (le_refl _) (by omega)).1 hd
    · rw [if_neg hd]
      by_cases hn : (a j0).nt ≠ (b j0).nt
      · rw [if_pos hn]
        constructor
        · intro h
          exact absurd h (by decide)
        · intro h
          exact absurd (h j0 (le_refl _) (by omega)).2 hn
      · rw [if_neg hn, ih]
        constructor
        · intro h j h1 h2
          by_cases hj : j = j0
          · subst hj
            exact ⟨not_not.mp hd, not_not.mp hn⟩
          · exact h j (by omega) (by omega)
        · intro h j h1 h2
          exact h j (by omega) (by omega)

theorem headerStep_first (f : MuxFile) (st : Storage) :
    ((headerStep f 0 st).1 = true ↔ ¬ getNumData f.fros f.lros f.numsta < 0) ∧
    (headerStep f 0 st).2.total_number_of_stations = f.numsta ∧
    (headerStep f 0 st).2.mytgs0 = f.tgs := by
  unfold headerStep
  simp only [if_true]
  by_cases h : getNumData f.fros f.lros f.numsta < 0
  · simp [h]
  · simp [h]

theorem headerStep_later (f : MuxFile) (i : Nat) (st : Storage) (hi : i ≠ 0) :
    ((headerStep f i st).1 = true ↔
      (f.numsta = st.total_number_of_stations ∧
        (∀ j, j < f.numsta → (f.tgs j).dt = (st.mytgs0 j).dt ∧ (f.tgs j).nt = (st.mytgs0 j).nt) ∧
        ¬ getNumData f.fros f.lros st.total_number_of_stations < 0)) ∧
    (headerStep f i st).2.total_number_of_stations = st.total_number_of_stations ∧
    (headerStep f i st).2.mytgs0 = st.mytgs0 := by
  have hc := stationsCompatible_iff f.tgs st.mytgs0 f.numsta 0
  simp only [Nat.zero_add, Nat.zero_le, true_implies] at hc
  unfold headerStep
  simp only [if_neg hi]
  by_cases h1 : f.numsta ≠ st.total_number_of_stations
  · simp [h1]
  · have h1' : f.numsta = st.total_number_of_stations := not_not.mp h1
    simp only [h1, if_false]
    by_cases h2 : stationsCompatible f.tgs st.mytgs0 f.numsta 0 = true
    · have h2' := hc.mp h2
      by_cases h3 : getNumData f.fros f.lros st.total_number_of_stations < 0
      · simp [h2, h3]
      · simp only [h2, if_true, h3, if_false]
        simp only [not_false_eq_true, and_true, true_iff, and_self]
        exact ⟨h1', h2'⟩
    · have h2' : ¬ (∀ j, j < f.numsta →
          (f.tgs j).dt = (st.mytgs0 j).dt ∧ (f.tgs j).nt = (st.mytgs0 j).nt) :=
        fun h => h2 (hc.mpr h)
      simp only [h2]
      refine ⟨⟨fun h => absurd h (by simp), fun h => absurd h.2.1 h2'⟩, rfl, rfl⟩

theorem headersLoop_later (rest : List MuxFile) (i : Nat) (st : Storage) (hi : i ≠ 0) :
    ((headersLoop rest i st).1 = true ↔
      ∀ f ∈ rest, (f.numsta = st.total_number_of_stations ∧
        (∀ j, j < f.numsta → (f.tgs j).dt = (st.mytgs0 j).dt ∧ (f.tgs j).nt = (st.mytgs0 j).nt) ∧
        ¬ getNumData f.fros f.lros st.total_number_of_stations < 0)) ∧
    (headersLoop rest i st).2.total_number_of_stations = st.total_number_of_stations ∧
    (headersLoop rest i st).2.mytgs0 = st.mytgs0 := by
  induction rest generalizing i st with
  | nil => simp [headersLoop]
  | cons f rest ih =>
    obtain ⟨s1, s2, s3⟩ := headerStep_later f i st hi
    obtain ⟨l1, l2, l3⟩ := ih (i + 1) (headerStep f i st).2 (by omega)
    rw [s2, s3] at l1
    rw [headersLoop]
    by_cases h : (headerStep f i st).1 = true
    · rw [if_pos h]
      refine ⟨?_, by rw [l2, s2], by rw [l3, s3]⟩
      rw [l1]
      constructor
      · intro hall g hg
        rcases List.mem_cons.mp hg with rfl | hg
        · exact s1.mp h
        · exact hall g hg
      · intro hall g hg
        exact hall g (List.mem_cons_of_mem _ hg)
    · rw [if_neg h]
      refine ⟨?_, s2, s3⟩
      constructor
      · intro h'
        exact absurd h' (by simp)
      · intro hall
        exact absurd (s1.mpr (hall f (List.mem_cons_self _ _))) h

theorem headersLoop_all (f0 : MuxFile) (rest : List MuxFile) (st : Storage) :
    ((headersLoop (f0 :: rest) 0 st).1 = true ↔
      (¬ getNumData f0.fros f0.lros f0.numsta < 0 ∧
        ∀ f ∈ rest, (f.numsta = f0.numsta ∧
          (∀ j, j < f.numsta → (f.tgs j).dt = (f0.tgs j).dt ∧ (f.tgs j).nt = (f0.tgs j).nt) ∧
          ¬ getNumData f.fros f.lros f0.numsta < 0))) ∧
    (headersLoop (f0 :: rest) 0 st).2.total_number_of_stations = f0.numsta ∧
    (headersLoop (f0 :: rest) 0 st).2.mytgs0 = f0.tgs := by
  obtain ⟨s1, s2, s3⟩ := headerStep_first f0 st
  obtain ⟨l1, l2, l3⟩ := headersLoop_later rest (0 + 1) (headerStep f0 0 st).2 (by omega)
  rw [s2, s3] at l1
  rw [headersLoop]
  by_cases h : (headerStep f0 0 st).1 = true
  · rw [if_pos h]
    refine ⟨?_, by rw [l2, s2], by rw [l3, s3]⟩
    rw [l1]
    exact ⟨fun hall => ⟨s1.mp h, hall⟩, fun hall => hall.2⟩
  · rw [if_neg h]
    refine ⟨?_, s2, s3⟩
    constructor
    · intro h'
      exact absurd h' (by simp)
    · intro hall
      exact absurd (s1.mpr hall.1) h

theorem _read_mux2_headers_ret (files : List MuxFile) (st : Storage) :
    ((_read_mux2_headers files st).ret = 1 ↔ (headersLoop files 0 st).1 = true) ∧
    ((_read_mux2_headers files st).ret = 0 ↔ ¬ (headersLoop files 0 st).1 = true) := by
  unfold _read_mux2_headers
  by_cases h : (headersLoop files 0 st).1 = true
  · simp [h]
  · simp [h]

theorem headers_fail_iff (f0 : MuxFile) (rest : List MuxFile) (st : Storage) :
    ¬ (headersLoop (f0 :: rest) 0 st).1 = true ↔
      ((∃ f ∈ rest, f.numsta ≠ f0.numsta ∨
          ∃ j, j < f.numsta ∧
            ((f.tgs j).dt ≠ (f0.tgs j).dt ∨ (f.tgs j).nt ≠ (f0.tgs j).nt)) ∨
        (∃ f ∈ f0 :: rest, getNumData f.fros f.lros f0.numsta < 0)) := by
  rw [(headersLoop_all f0 rest st).1]
  constructor
  · intro hG
    by_contra hF
    apply hG
    refine ⟨fun h => hF (Or.inr ⟨f0, List.mem_cons_self _ _, h⟩), ?_⟩
    intro f hf
    refine ⟨?_, ?_, fun h => hF (Or.inr ⟨f, List.mem_cons_of_mem _ hf, h⟩)⟩
    · by_contra h
      exact hF (Or.inl ⟨f, hf, Or.inl h⟩)
    · intro j hj
      constructor
      · by_contra h
        exact hF (Or.inl ⟨f, hf, Or.inr ⟨j, hj, Or.inl h⟩⟩)
      · by_contra h
        exact hF (Or.inl ⟨f, hf, Or.inr ⟨j, hj, Or.inr h⟩⟩)
  · intro hF hG
    rcases hF with ⟨f, hf, h⟩ | ⟨f, hf, h⟩
    · rcases h with h | ⟨j, hj, h⟩
      · exact h (hG.2 f hf).1
      · rcases h with h | h
        · exact h ((hG.2 f hf).2.1 j hj).1
        · exact h ((hG.2 f hf).2.1 j hj).2
    · rcases List.mem_cons.mp hf with rfl | hf
      · exact hG.1 h
      · exact (hG.2 f hf).2.2 h

/-- C13: header validation over the parsed headers of a non-empty list of
openable sources.  `_read_mux2_headers` returns `0` exactly when some source
after the first has another station count than the first, or a station whose
`dt` or `nt` differs from the same station of the first source, or when
`getNumData` of some source's window table is negative; it returns `1`
otherwise.  A station whose `nt` differs from that of station 0 but agrees
across the sources does not make it fail. -/
theorem headers_validation (f0 : MuxFile) (rest : List MuxFile) (st : Storage) :
    ((_read_mux2_headers (f0 :: rest) st).ret = 0 ↔
      ((∃ f ∈ rest, f.numsta ≠ f0.numsta ∨
          ∃ j, j < f.numsta ∧
            ((f.tgs j).dt ≠ (f0.tgs j).dt ∨ (f.tgs j).nt ≠ (f0.tgs j).nt)) ∨
        (∃ f ∈ f0 :: rest, getNumData f.fros f.lros f0.numsta < 0))) ∧
    ((_read_mux2_headers (f0 :: rest) st).ret = 1 ↔
      ¬ ((∃ f ∈ rest, f.numsta ≠ f0.numsta ∨
          ∃ j, j < f.numsta ∧
            ((f.tgs j).dt ≠ (f0.tgs j).dt ∨ (f.tgs j).nt ≠ (f0.tgs j).nt)) ∨
        (∃ f ∈ f0 :: rest, getNumData f.fros f.lros f0.numsta < 0))) ∧
    ((∀ f ∈ rest, f.numsta = f0.numsta ∧
        ∀ j, j < f.numsta → (f.tgs j).dt = (f0.tgs j).dt ∧ (f.tgs j).nt = (f0.tgs j).nt) →
      (∀ f ∈ f0 :: rest, ¬ getNumData f.fros f.lros f0.numsta < 0) →
      (_read_mux2_headers (f0 :: rest) st).ret = 1) := by
  have hr := _read_mux2_headers_ret (f0 :: rest) st
  have hf := headers_fail_iff f0 rest st
  refine ⟨?_, ?_, ?_⟩
  · rw [hr.2, hf]
  · rw [hr.1, ← hf, not_not]
  · intro h1 h2
    rw [hr.1]
    by_contra hc
    rcases hf.mp hc with ⟨f, hm, h⟩ | ⟨f, hm, h⟩
    · rcases h with h | ⟨j, hj, h⟩
      · exact h (h1 f hm).1
      · rcases h with h | h
        · exact h ((h1 f hm).2 j hj).1
        · exact h ((h1 f hm).2 j hj).2
    · exact h2 f hm h

/-- Witness of C13: two copies of a file whose station 1 has a longer series
than station 0; the headers are accepted. -/
theorem headers_validation_witness :
    (∀ f ∈ [unevenFile], f.numsta = unevenFile.numsta ∧
      ∀ j, j < f.numsta →
        (f.tgs j).dt = (unevenFile.tgs j).dt ∧ (f.tgs j).nt = (unevenFile.tgs j).nt) ∧
    (∀ f ∈ unevenFile :: [unevenFile],
      ¬ getNumData f.fros f.lros unevenFile.numsta < 0) ∧
    (unevenFile.tgs 1).nt ≠ (unevenFile.tgs 0).nt ∧
    (_read_mux2_headers (unevenFile :: [unevenFile]) freshStorage).ret = 1 :=
  ⟨by simp, by simp; decide, by decide,
    (headers_validation unevenFile [unevenFile] freshStorage).2.2 (by simp)
      (by simp; decide)⟩

/-! ## Failure of the header validation -/

theorem assembleOutput_ne_noData (cdata : Nat → Nat → ℚ) (nt : Int) (nsel : Nat)
    (pydata : Nat → Nat → ℚ) :
    assembleOutput cdata nt nsel pydata ≠ Except.error Mux2Error.noData := by
  unfold assembleOutput windowCheck
  by_cases h1 : (globalWindow cdata nt nsel).1 > nt ∨ (globalWindow cdata nt nsel).2 < 0
  · simp [h1]
  · by_cases h2 : (globalWindow cdata nt nsel).1 ≥ (globalWindow cdata nt nsel).2
    · simp [h1, h2]
    · simp [h1, h2]

/-- C14, the code on two sources with 2 and 3 stations: `_read_mux2_headers`
returns `0`, but `_read_mux2` does not look at that value; it returns a table,
`read_mux2` does not raise 'No STS_DATA returned', and the block of the first
source has been decoded and merged into the rows (slot 0 of station 0 holds
`A1 = 11`).  With an empty source list `read_mux2` does fail. -/
theorem headers_failure_ignored :
    (∀ st : Storage, (_read_mux2_headers [exampleFile, threeStationFile] st).ret = 0) ∧
    (∀ (weights params : Nat → ℚ) (n : Nat) (permutation : Nat → Nat) (st : Storage),
      ∃ r, _read_mux2 [exampleFile, threeStationFile] weights params n permutation st
        = some r) ∧
    (∀ (weights params : Nat → ℚ) (permutation : List Nat) (st : Storage)
      (pydata : Nat → Nat → ℚ),
      read_mux2 [exampleFile, threeStationFile] weights params permutation st pydata
        ≠ Except.error Mux2Error.noData) ∧
    (∃ r, _read_mux2 [exampleFile, threeStationFile] (fun _ => 1) (fun _ => 0) 0
            (fun i => i) staleStorage = some r ∧
      r.sts_data 0 0 = 11) ∧
    (∀ (weights params : Nat → ℚ) (permutation : List Nat) (st : Storage)
      (pydata : Nat → Nat → ℚ),
      read_mux2 [] weights params permutation st pydata
        = Except.error Mux2Error.emptyList) := by
  refine ⟨?_, ?_, ?_, ?_, ?_⟩
  · intro st
    rw [(_read_mux2_headers_ret _ st).2, headers_fail_iff]
    exact Or.inl ⟨threeStationFile, List.mem_cons_self _ _, Or.inl (by decide)⟩
  · intro weights params n permutation st
    exact ⟨_, rfl⟩
  · intro weights params permutation st pydata
    obtain ⟨r, _, h⟩ := read_mux2_eq [exampleFile, threeStationFile] weights params
      permutation st pydata (List.cons_ne_nil _ _)
    rw [h]
    exact assembleOutput_ne_noData _ _ _ _
  · refine ⟨_, rfl, ?_⟩
    show (mergedRows exampleMeta 2 3 2 (fun i => i)
      (sourcesOf (_read_mux2_headers [exampleFile, threeStationFile] staleStorage).st.fros
        (_read_mux2_headers [exampleFile, threeStationFile] staleStorage).st.lros
        (fun _ => 1) [exampleFile, threeStationFile] 0)).sts_data 0 0 = 11
    rw [mergedRows_row _ _ _ _ _ _ _ (by decide),
      rowFold_series _ _ _ _ _ _ _ _ (by decide) (by decide)]
    have h1 : decodeRow exampleMeta 2 3 0
        { fros := (_read_mux2_headers [exampleFile, threeStationFile] staleStorage).st.fros 0,
          lros := (_read_mux2_headers [exampleFile, threeStationFile] staleStorage).st.lros 0,
          weight := 1, muxData := exampleFile.muxData } 0 = 11 := rfl
    have h2 : decodeRow exampleMeta 2 3 0
        { fros := (_read_mux2_headers [exampleFile, threeStationFile] staleStorage).st.fros 1,
          lros := (_read_mux2_headers [exampleFile, threeStationFile] staleStorage).st.lros 1,
          weight := 1, muxData := threeStationFile.muxData } 0 = 0 := rfl
    simp only [slotPairs, sourcesOf, List.map, h1, h2]
    norm_num [mergeFold, mergeStep, isdata, NODATA, EPSILON]
  · intro weights params permutation st pydata
    rfl

/-! ## The output assembler -/

theorem timeLoop_apply (crow : Nat → ℚ) (nt start finish : Int) (n it : Nat)
    (row : Nat → ℚ) (c : Nat) (h : ((it + n : Nat) : Int) ≤ finish) :
    (timeLoop crow nt start finish n it (it - (start - 1).toNat, row)).2 c
      = if it ≤ c + (start - 1).toNat ∧ c + (start - 1).toNat < it + n then
          (if ((c + (start - 1).toNat : Nat) : Int) + 1 > cInt (crow (nt + 4).toNat) then 0
           else crow (c + (start - 1).toNat))
        else row c := by
  induction n generalizing it row with
  | zero =>
    have h0 : ¬ (it ≤ c + (start - 1).toNat ∧ c + (start - 1).toNat < it + 0) := by omega
    rw [timeLoop, if_neg h0]
  | succ n ih =>
    rw [timeLoop]
    by_cases hw : start ≤ (it : Int) + 1 ∧ (it : Int) + 1 ≤ finish
    · have hlo : (start - 1).toNat ≤ it := by omega
      rw [if_pos hw]
      simp only
      rw [show it - (start - 1).toNat + 1 = (it + 1) - (start - 1).toNat by omega,
        ih (it + 1) _ (by push_cast at h ⊢; omega)]
      by_cases h1 : it + 1 ≤ c + (start - 1).toNat ∧ c + (start - 1).toNat < it + 1 + n
      · have h1' : it ≤ c + (start - 1).toNat ∧ c + (start - 1).toNat < it + (n + 1) := by
          omega
        rw [if_pos h1, if_pos h1']
      · rw [if_neg h1]
        by_cases h2 : c = it - (start - 1).toNat
        · have h3 : c + (start - 1).toNat = it := by omega
          have h1' : it ≤ c + (start - 1).toNat ∧ c + (start - 1).toNat < it + (n + 1) := by
            omega
          rw [if_pos h1', h3, h2, Function.update_same]
        · have h1' : ¬ (it ≤ c + (start - 1).toNat ∧ c + (start - 1).toNat < it + (n + 1)) := by
            omega
          rw [Function.update_noteq h2, if_neg h1']
    · have hlo : it < (start - 1).toNat := by
        push_cast at h
        omega
      rw [if_neg hw, show it - (start - 1).toNat = (it + 1) - (start - 1).toNat by omega,
        ih (it + 1) _ (by push_cast at h ⊢; omega)]
      by_cases h1 : it + 1 ≤ c + (start - 1).toNat ∧ c + (start - 1).toNat < it + 1 + n
      · have h1' : it ≤ c + (start - 1).toNat ∧ c + (start - 1).toNat < it + (n + 1) := by
          omega
        rw [if_pos h1, if_pos h1']
      · have h1' : ¬ (it ≤ c + (start - 1).toNat ∧ c + (start - 1).toNat < it + (n + 1)) := by
          omega
        rw [if_neg h1, if_neg h1']

theorem metaLoop_apply (crow : Nat → ℚ) (nt num_ts : Int) (n j0 : Nat) (row : Nat → ℚ)
    (c : Nat) (h : 0 ≤ num_ts) :
    metaLoop crow nt num_ts n j0 row c
      = if num_ts.toNat + j0 ≤ c ∧ c < num_ts.toNat + j0 + n then
          crow (nt + ((c - num_ts.toNat : Nat) : Int)).toNat
        else row c := by
  induction n generalizing j0 row with
  | zero =>
    have h0 : ¬ (num_ts.toNat + j0 ≤ c ∧ c < num_ts.toNat + j0 + 0) := by omega
    rw [metaLoop, if_neg h0]
  | succ n ih =>
    rw [metaLoop, ih]
    by_cases h1 : num_ts.toNat + (j0 + 1) ≤ c ∧ c < num_ts.toNat + (j0 + 1) + n
    · have h1' : num_ts.toNat + j0 ≤ c ∧ c < num_ts.toNat + j0 + (n + 1) := by omega
      rw [if_pos h1, if_pos h1']
    · rw [if_neg h1]
      by_cases h2 : c = (num_ts + (j0 : Int)).toNat
      · have h1' : num_ts.toNat + j0 ≤ c ∧ c < num_ts.toNat + j0 + (n + 1) := by omega
        rw [if_pos h1', h2, Function.update_same,
          show (((num_ts + (j0 : Int)).toNat - num_ts.toNat : Nat) : Int) = (j0 : Int) by omega]
      · have h1' : ¬ (num_ts.toNat + j0 ≤ c ∧ c < num_ts.toNat + j0 + (n + 1)) := by omega
        rw [Function.update_noteq h2, if_neg h1']

theorem assembleRow_apply (crow : Nat → ℚ) (nt start finish : Int) (row : Nat → ℚ) (c : Nat)
    (hs : start < finish) (hf : 0 ≤ finish) :
    assembleRow crow nt start finish row c
      = if (finish - start + 1).toNat ≤ c ∧ c < (finish - start + 1).toNat + POFFSET then
          crow (nt + ((c - (finish - start + 1).toNat : Nat) : Int)).toNat
        else if c + (start - 1).toNat < finish.toNat then
          (if ((c + (start - 1).toNat : Nat) : Int) + 1 > cInt (crow (nt + 4).toNat) then 0
           else crow (c + (start - 1).toNat))
        else row c := by
  unfold assembleRow
  rw [metaLoop_apply _ _ _ _ _ _ _ (by omega)]
  simp only [Nat.add_zero]
  by_cases h1 : (finish - start + 1).toNat ≤ c ∧ c < (finish - start + 1).toNat + POFFSET
  · rw [if_pos h1, if_pos h1]
  · rw [if_neg h1, if_neg h1]
    have ht := timeLoop_apply crow nt start finish finish.toNat 0 row c (by omega)
    simp only [Nat.zero_sub, Nat.zero_le, true_and, Nat.zero_add] at ht
    rw [ht]

theorem assembleLoop_apply (cdata : Nat → Nat → ℚ) (nt start finish : Int) (n i0 : Nat)
    (pydata : Nat → Nat → ℚ) (i : Nat) :
    assembleLoop cdata nt start finish n i0 pydata i
      = if i0 ≤ i ∧ i < i0 + n then assembleRow (cdata i) nt start finish (pydata i)
        else pydata i := by
  induction n generalizing i0 pydata with
  | zero =>
    have h0 : ¬ (i0 ≤ i ∧ i < i0 + 0) := by omega
    rw [assembleLoop, if_neg h0]
  | succ n ih =>
    rw [assembleLoop, ih]
    by_cases h1 : i0 + 1 ≤ i ∧ i < i0 + 1 + n
    · have h1' : i0 ≤ i ∧ i < i0 + (n + 1) := by omega
      have h2 : i ≠ i0 := by omega
      rw [if_pos h1, if_pos h1', Function.update_noteq h2]
    · rw [if_neg h1]
      by_cases h2 : i = i0
      · subst h2
        have h1' : i ≤ i ∧ i < i + (n + 1) := by omega
        rw [Function.update_same, if_pos h1']
      · have h1' : ¬ (i0 ≤ i ∧ i < i0 + (n + 1)) := by omega
        rw [Function.update_noteq h2, if_neg h1']

theorem assembleOutput_ok (cdata : Nat → Nat → ℚ) (nt : Int) (nsel : Nat)
    (pydata : Nat → Nat → ℚ)
    (h1 : ¬ ((globalWindow cdata nt nsel).1 > nt ∨ (globalWindow cdata nt nsel).2 < 0))
    (h2 : ¬ (globalWindow cdata nt nsel).1 ≥ (globalWindow cdata nt nsel).2) :
    assembleOutput cdata nt nsel pydata = Except.ok
      { dimensions := ((nsel : Int),
          (globalWindow cdata nt nsel).2 - (globalWindow cdata nt nsel).1 + 1 + (POFFSET : Int)),
        data := assembleLoop cdata nt (globalWindow cdata nt nsel).1
          (globalWindow cdata nt nsel).2 nsel 0 pydata } := by
  unfold assembleOutput windowCheck
  simp only [if_neg h1, if_neg h2]

/-- The value that the assembler stores for a step of the global window that
the loop over `it` visits. -/
theorem assembleLoop_step (cdata : Nat → Nat → ℚ) (nt start finish : Int) (nsel : Nat)
    (pydata : Nat → Nat → ℚ) (i : Nat) (t : Int) (hi : i < nsel)
    (hc : start < finish) (h1 : 1 ≤ t) (hs : start ≤ t) (hf : t ≤ finish) :
    assembleLoop cdata nt start finish nsel 0 pydata i (t - max start 1).toNat
      = if t > cInt (cdata i (nt + 4).toNat) then 0 else cdata i (t - 1).toNat := by
  have hin : 0 ≤ i ∧ i < 0 + nsel := by omega
  rw [assembleLoop_apply, if_pos hin, assembleRow_apply _ _ _ _ _ _ hc (by omega)]
  have h2 : ¬ ((finish - start + 1).toNat ≤ (t - max start 1).toNat ∧
      (t - max start 1).toNat < (finish - start + 1).toNat + POFFSET) := by
    omega
  have h3 : (t - max start 1).toNat + (start - 1).toNat < finish.toNat := by omega
  have h4 : (t - max start 1).toNat + (start - 1).toNat = (t - 1).toNat := by omega
  have h5 : (((t - 1).toNat : Nat) : Int) + 1 = t := by omega
  rw [if_neg h2, if_pos h3, h4, h5]

/-- The zero-fill rule of the output assembler at the column that its counter
`time` has reached.  For a selected station `i`
and a time step `t >= 1` of the global window (`start <= t <= finish`, window
checks passed), the value that the assembler stores for `t`, in the column
`t - max(start, 1)` that its counter `time` has reached (`t - start` when
`start >= 1`), is `0.0` when `t` is greater than the station's reconciled last
step (slot `nt+4`), not `NODATA` and not the merged value, and is the merged
value `cdata[i][t-1]` unchanged otherwise. -/
theorem assembler_zero_fill (cdata : Nat → Nat → ℚ) (nt : Int) (nsel : Nat)
    (pydata : Nat → Nat → ℚ) (i : Nat) (t : Int) (hi : i < nsel)
    (hc1 : ¬ ((globalWindow cdata nt nsel).1 > nt ∨ (globalWindow cdata nt nsel).2 < 0))
    (hc2 : ¬ (globalWindow cdata nt nsel).1 ≥ (globalWindow cdata nt nsel).2)
    (h1 : 1 ≤ t) (hs : (globalWindow cdata nt nsel).1 ≤ t)
    (hf : t ≤ (globalWindow cdata nt nsel).2) :
    ∃ tab, assembleOutput cdata nt nsel pydata = Except.ok tab ∧
      (t > cInt (cdata i (nt + 4).toNat) →
        tab.data i (t - max (globalWindow cdata nt nsel).1 1).toNat = 0 ∧
        tab.data i (t - max (globalWindow cdata nt nsel).1 1).toNat ≠ NODATA) ∧
      (t ≤ cInt (cdata i (nt + 4).toNat) →
        tab.data i (t - max (globalWindow cdata nt nsel).1 1).toNat
          = cdata i (t - 1).toNat) := by
  refine ⟨_, assembleOutput_ok cdata nt nsel pydata hc1 hc2, ?_, ?_⟩
  · intro h
    simp only
    rw [assembleLoop_step cdata nt _ _ nsel pydata i t hi (by omega) h1 hs hf, if_pos h]
    refine ⟨rfl, ?_⟩
    unfold NODATA
    norm_num
  · intro h
    simp only
    rw [assembleLoop_step cdata nt _ _ nsel pydata i t hi (by omega) h1 hs hf,
      if_neg (by omega)]

/-! ## The assembler on a window that starts at `-1` -/

theorem gap_read (pydata : Nat → Nat → ℚ) :
    read_mux2 [gapFile] (fun _ => 1) (fun _ => 0) [] freshStorage pydata
      = assembleOutput (mergedRows exampleMeta 2 3 2 (fun i => i) [gapSource]).sts_data 3 2
          pydata := by
  rfl

theorem gap_rows :
    (mergedRows exampleMeta 2 3 2 (fun i => i) [gapSource]).sts_data 0 6 = ((-1 : Int) : ℚ) ∧
    (mergedRows exampleMeta 2 3 2 (fun i => i) [gapSource]).sts_data 0 7 = ((-1 : Int) : ℚ) ∧
    (mergedRows exampleMeta 2 3 2 (fun i => i) [gapSource]).sts_data 1 6 = ((1 : Int) : ℚ) ∧
    (mergedRows exampleMeta 2 3 2 (fun i => i) [gapSource]).sts_data 1 7 = ((3 : Int) : ℚ) := by
  have h0 := rowFold_window exampleMeta 2 3 0 gapSource [] (fun _ => 0)
  have h1 := rowFold_window exampleMeta 2 3 1 gapSource [] (fun _ => 0)
  refine ⟨?_, ?_, ?_, ?_⟩
  · rw [mergedRows_row _ _ _ _ _ _ _ (by decide)]
    exact h0.1
  · rw [mergedRows_row _ _ _ _ _ _ _ (by decide)]
    exact h0.2
  · rw [mergedRows_row _ _ _ _ _ _ _ (by decide)]
    exact h1.1
  · rw [mergedRows_row _ _ _ _ _ _ _ (by decide)]
    exact h1.2

theorem gap_window :
    globalWindow (mergedRows exampleMeta 2 3 2 (fun i => i) [gapSource]).sts_data 3 2
      = (-1, 3) := by
  obtain ⟨a, b, c, d⟩ := gap_rows
  have e3 : ((3 : Int) + 3).toNat = 6 := by decide
  have e4 : ((3 : Int) + 4).toNat = 7 := by decide
  simp only [globalWindow, windowLoop, e3, e4, a, b, c, d, cInt_intCast]
  decide

theorem gap_series :
    (mergedRows exampleMeta 2 3 2 (fun i => i) [gapSource]).sts_data 1 0 = 21 ∧
    (mergedRows exampleMeta 2 3 2 (fun i => i) [gapSource]).sts_data 1 1 = 22 ∧
    (mergedRows exampleMeta 2 3 2 (fun i => i) [gapSource]).sts_data 1 2 = 23 := by
  have h0 : decodeRow exampleMeta 2 3 1 gapSource 0 = 21 := rfl
  have h1 : decodeRow exampleMeta 2 3 1 gapSource 1 = 22 := rfl
  have h2 : decodeRow exampleMeta 2 3 1 gapSource 2 = 23 := rfl
  have hw : gapSource.weight = 1 := rfl
  refine ⟨?_, ?_, ?_⟩
  · rw [mergedRows_row _ _ _ _ _ _ _ (by decide),
      rowFold_series _ _ _ _ _ _ _ _ (by decide) (by decide)]
    simp only [slotPairs, List.map, h0, hw]
    norm_num [mergeFold, mergeStep, isdata, NODATA, EPSILON]
  · rw [mergedRows_row _ _ _ _ _ _ _ (by decide),
      rowFold_series _ _ _ _ _ _ _ _ (by decide) (by decide)]
    simp only [slotPairs, List.map, h1, hw]
    norm_num [mergeFold, mergeStep, isdata, NODATA, EPSILON]
  · rw [mergedRows_row _ _ _ _ _ _ _ (by decide),
      rowFold_series _ _ _ _ _ _ _ _ (by decide) (by decide)]
    simp only [slotPairs, List.map, h2, hw]
    norm_num [mergeFold, mergeStep, isdata, NODATA, EPSILON]

/-- C15, the code on one source in which station 0 never records and station 1
records the steps 1..3: the window checks pass with `start = -1`, `finish = 3`,
the table gets `finish - start + 1 = 5` time-series columns, but the assembler
writes only the three columns 0..2, with the steps 1..3 (column `c` holds
`cdata[1][c]`, not `cdata[1][start + c - 1]`), and leaves the columns 3 and 4 as
they were allocated. -/
theorem assembler_window_from_minus_one (pydata : Nat → Nat → ℚ) :
    ∃ tab, read_mux2 [gapFile] (fun _ => 1) (fun _ => 0) [] freshStorage pydata
        = Except.ok tab ∧
      globalWindow (mergedRows exampleMeta 2 3 2 (fun i => i) [gapSource]).sts_data 3 2
        = (-1, 3) ∧
      tab.dimensions = (2, 10) ∧
      tab.data 1 0 = 21 ∧ tab.data 1 1 = 22 ∧ tab.data 1 2 = 23 ∧
      tab.data 1 3 = pydata 1 3 ∧ tab.data 1 4 = pydata 1 4 ∧
      (mergedRows exampleMeta 2 3 2 (fun i => i) [gapSource]).sts_data 1 0 = 21 := by
  have hw := gap_window
  obtain ⟨s0, s1, s2⟩ := gap_series
  obtain ⟨_, _, _, r7⟩ := gap_rows
  have e4 : ((3 : Int) + 4).toNat = 7 := by decide
  have hok := assembleOutput_ok
    (mergedRows exampleMeta 2 3 2 (fun i => i) [gapSource]).sts_data 3 2 pydata
    (by rw [hw]; decide) (by rw [hw]; decide)
  rw [hw] at hok
  have hstep : ∀ t : Int, 1 ≤ t → t ≤ 3 →
      assembleLoop (mergedRows exampleMeta 2 3 2 (fun i => i) [gapSource]).sts_data 3 (-1) 3 2 0
          pydata 1 (t - max (-1) 1).toNat
        = (mergedRows exampleMeta 2 3 2 (fun i => i) [gapSource]).sts_data 1 (t - 1).toNat := by
    intro t h1 h3
    rw [assembleLoop_step _ 3 (-1) 3 2 pydata 1 t (by decide) (by decide) h1 (by omega) h3,
      e4, r7, cInt_intCast, if_neg (by omega)]
  have hrest : ∀ c : Nat, 3 ≤ c → c < 5 →
      assembleLoop (mergedRows exampleMeta 2 3 2 (fun i => i) [gapSource]).sts_data 3 (-1) 3 2 0
          pydata 1 c = pydata 1 c := by
    intro c h3 h5
    have hin : 0 ≤ 1 ∧ 1 < 0 + 2 := by decide
    have hm : ¬ (((3 : Int) - (-1) + 1).toNat ≤ c ∧
        c < ((3 : Int) - (-1) + 1).toNat + POFFSET) := by
      have : ((3 : Int) - (-1) + 1).toNat = 5 := by decide
      omega
    have ht : ¬ (c + ((-1 : Int) - 1).toNat < (3 : Int).toNat) := by
      have : ((-1 : Int) - 1).toNat = 0 := by decide
      have : (3 : Int).toNat = 3 := by decide
      omega
    rw [assembleLoop_apply, if_pos hin,
      assembleRow_apply _ _ _ _ _ _ (by decide) (by decide), if_neg hm, if_neg ht]
  refine ⟨_, (gap_read pydata).trans hok, hw, rfl, ?_, ?_, ?_, ?_, ?_, s0⟩
  · have := hstep 1 (by decide) (by decide)
    simpa [s0] using this
  · have := hstep 2 (by decide) (by decide)
    simpa [s1] using this
  · have := hstep 3 (by decide) (by decide)
    simpa [s2] using this
  · exact hrest 3 (by decide) (by decide)
  · exact hrest 4 (by decide) (by decide)

/-! ## The metadata columns -/

theorem updateMeta_first_site (m : tgsrwg) (N : Nat) (f l : Int) (row : Nat → ℚ) :
    updateMeta m N 0 f l row N = m.geolat ∧
    updateMeta m N 0 f l row (N + 1) = m.geolon ∧
    updateMeta m N 0 f l row (N + 2) = m.z := by
  unfold updateMeta
  refine ⟨?_, ?_, ?_⟩
  · simp
  · simp
  · simp

theorem updateMeta_later_site (m : tgsrwg) (N isrc : Nat) (f l : Int) (row : Nat → ℚ)
    (k : Nat) (h : isrc ≠ 0) (h3 : k ≠ N + 3) (h4 : k ≠ N + 4) :
    updateMeta m N isrc f l row k = row k := by
  unfold updateMeta
  rw [if_neg h]
  split_ifs <;> simp [Function.update_noteq, h3, h4]

theorem rowStep_site_first (mytgs0 : Nat → tgsrwg) (total N ista : Nat) (src : Source)
    (row : Nat → ℚ) :
    rowStep mytgs0 total N ista 0 src row N = (mytgs0 ista).geolat ∧
    rowStep mytgs0 total N ista 0 src row (N + 1) = (mytgs0 ista).geolon ∧
    rowStep mytgs0 total N ista 0 src row (N + 2) = (mytgs0 ista).z := by
  unfold rowStep
  exact updateMeta_first_site _ _ _ _ _

theorem rowStep_site_later (mytgs0 : Nat → tgsrwg) (total N ista isrc : Nat) (src : Source)
    (row : Nat → ℚ) (k : Nat) (h : isrc ≠ 0) (hk : N ≤ k) (h3 : k ≠ N + 3) (h4 : k ≠ N + 4) :
    rowStep mytgs0 total N ista isrc src row k
      = if (k : Int) < (mytgs0 ista).nt then mergeStep (row k) 0 src.weight else row k := by
  unfold rowStep
  rw [updateMeta_later_site _ _ _ _ _ _ _ h h3 h4, mergeLoop_apply,
    decodeRow_tail _ _ _ _ _ _ hk]
  by_cases hlt : (k : Int) < (mytgs0 ista).nt
  · have h' : 0 ≤ k ∧ k < 0 + (mytgs0 ista).nt.toNat := by omega
    rw [if_pos hlt, if_pos h']
  · have h' : ¬ (0 ≤ k ∧ k < 0 + (mytgs0 ista).nt.toNat) := by omega
    rw [if_neg hlt, if_neg h']

theorem rowFold_site_later (mytgs0 : Nat → tgsrwg) (total N ista : Nat) (rest : List Source)
    (isrc : Nat) (row : Nat → ℚ) (k : Nat) (h : isrc ≠ 0) (hk : N ≤ k) (h3 : k ≠ N + 3)
    (h4 : k ≠ N + 4) (hnt : (mytgs0 ista).nt ≤ (N : Int)) :
    rowFold mytgs0 total N ista rest isrc row k = row k := by
  induction rest generalizing isrc row with
  | nil => rfl
  | cons src rest ih =>
    have hn : ¬ ((k : Int) < (mytgs0 ista).nt) := by omega
    rw [rowFold, ih (isrc + 1) _ (by omega), rowStep_site_later _ _ _ _ _ _ _ _ h hk h3 h4,
      if_neg hn]

/-- The site parameters of a station whose series is not longer than
`number_of_time_steps` stay those of the first source. -/
theorem rowFold_site (mytgs0 : Nat → tgsrwg) (total N ista : Nat) (src0 : Source)
    (rest : List Source) (row : Nat → ℚ) (hnt : (mytgs0 ista).nt ≤ (N : Int)) :
    rowFold mytgs0 total N ista (src0 :: rest) 0 row N = (mytgs0 ista).geolat ∧
    rowFold mytgs0 total N ista (src0 :: rest) 0 row (N + 1) = (mytgs0 ista).geolon ∧
    rowFold mytgs0 total N ista (src0 :: rest) 0 row (N + 2) = (mytgs0 ista).z := by
  obtain ⟨a, b, c⟩ := rowStep_site_first mytgs0 total N ista src0 row
  rw [rowFold]
  refine ⟨?_, ?_, ?_⟩
  · rw [rowFold_site_later _ _ _ _ _ _ _ _ (by omega) (by omega) (by omega) (by omega) hnt, a]
  · rw [rowFold_site_later _ _ _ _ _ _ _ _ (by omega) (by omega) (by omega) (by omega) hnt, b]
  · rw [rowFold_site_later _ _ _ _ _ _ _ _ (by omega) (by omega) (by omega) (by omega) hnt, c]

/-- The last five columns of a row of the table are the slots `nt .. nt+4` of
the row of `cdata`. -/
theorem assembleLoop_meta (cdata : Nat → Nat → ℚ) (nt start finish : Int) (nsel : Nat)
    (pydata : Nat → Nat → ℚ) (i j : Nat) (hi : i < nsel) (hj : j < POFFSET)
    (hc : start < finish) (hf : 0 ≤ finish) :
    assembleLoop cdata nt start finish nsel 0 pydata i ((finish - start + 1).toNat + j)
      = cdata i (nt + (j : Int)).toNat := by
  have hin : 0 ≤ i ∧ i < 0 + nsel := by omega
  have hm : (finish - start + 1).toNat ≤ (finish - start + 1).toNat + j ∧
      (finish - start + 1).toNat + j < (finish - start + 1).toNat + POFFSET := by omega
  rw [assembleLoop_apply, if_pos hin, assembleRow_apply _ _ _ _ _ _ hc hf, if_pos hm,
    Nat.add_sub_cancel_left]

theorem band_read (pydata : Nat → Nat → ℚ) :
    read_mux2 [bandFile, bandFile] (fun _ => 1 / 2) (fun _ => 0) [] freshStorage pydata
      = assembleOutput
          (mergedRows bandMeta 2 3 2 (fun i => i) [bandSource, bandSource]).sts_data 3 2
          pydata := by
  rfl

theorem band_window :
    globalWindow (mergedRows bandMeta 2 3 2 (fun i => i) [bandSource, bandSource]).sts_data 3 2
      = (1, 3) := by
  have h0 := rowFold_window bandMeta 2 3 0 bandSource [bandSource] (fun _ => 0)
  have h1 := rowFold_window bandMeta 2 3 1 bandSource [bandSource] (fun _ => 0)
  have e3 : ((3 : Int) + 3).toNat = 6 := by decide
  have e4 : ((3 : Int) + 4).toNat = 7 := by decide
  simp only [globalWindow, windowLoop, e3, e4]
  rw [mergedRows_row _ _ _ _ _ _ _ (show 0 < 2 by decide),
    mergedRows_row _ _ _ _ _ _ _ (show 1 < 2 by decide)]
  simp only [h0.1, h0.2, h1.1, h1.2, cInt_intCast]
  decide

theorem band_longitude :
    (mergedRows bandMeta 2 3 2 (fun i => i) [bandSource, bandSource]).sts_data 1 4 = 99 := by
  have hsite := rowStep_site_first bandMeta 2 3 1 bandSource (fun _ => 0)
  have hlater := rowStep_site_later bandMeta 2 3 1 (0 + 1) bandSource
    (rowStep bandMeta 2 3 1 0 bandSource (fun _ => 0)) 4 (by decide) (by decide) (by decide)
    (by decide)
  have hnt : ((4 : Nat) : Int) < (bandMeta 1).nt := by decide
  rw [if_pos hnt, hsite.2.1] at hlater
  rw [mergedRows_row _ _ _ _ _ _ _ (show 1 < 2 by decide)]
  simp only [rowFold]
  rw [hlater]
  norm_num [mergeStep, isdata, NODATA, EPSILON, bandMeta, bandSource]

/-- C17, the code on two copies of a source, weights `1/2`, in which station 1
has a series of 5 steps while `number_of_time_steps` is 3 and lies at longitude
`99 + 2^-17`: the headers are accepted, the table has the shape
2 x (3 + 5), but its longitude column for station 1 holds `99.0`: the weighting
loop of the second source runs over 5 slots, reaches the longitude slot and
takes the value for the sentinel.  For a station whose series is not longer
than `number_of_time_steps` the site slots are those of the first source, and
the last five columns of the table are always the slots `nt .. nt+4` of `cdata`. -/
theorem metadata_columns_example (pydata : Nat → Nat → ℚ) :
    (_read_mux2_headers [bandFile, bandFile] freshStorage).ret = 1 ∧
    (bandFile.tgs 1).geolon = 99 + 1 / 131072 ∧
    (∃ tab, read_mux2 [bandFile, bandFile] (fun _ => 1 / 2) (fun _ => 0) [] freshStorage pydata
        = Except.ok tab ∧
      tab.dimensions = (2, 3 + 5) ∧ tab.data 1 (3 + 1) = 99) ∧
    (∀ (mytgs0 : Nat → tgsrwg) (total N nsel : Nat) (permutation : Nat → Nat)
      (src0 : Source) (rest : List Source) (i : Nat), i < nsel →
      (mytgs0 (permutation i)).nt ≤ (N : Int) →
      (mergedRows mytgs0 total N nsel permutation (src0 :: rest)).sts_data i N
        = (mytgs0 (permutation i)).geolat ∧
      (mergedRows mytgs0 total N nsel permutation (src0 :: rest)).sts_data i (N + 1)
        = (mytgs0 (permutation i)).geolon ∧
      (mergedRows mytgs0 total N nsel permutation (src0 :: rest)).sts_data i (N + 2)
        = (mytgs0 (permutation i)).z) ∧
    (∀ (cdata : Nat → Nat → ℚ) (nt start finish : Int) (nsel : Nat) (i j : Nat),
      i < nsel → j < POFFSET → start < finish → 0 ≤ finish →
      assembleLoop cdata nt start finish nsel 0 pydata i ((finish - start + 1).toNat + j)
        = cdata i (nt + (j : Int)).toNat) := by
  have hw := band_window
  have hok := assembleOutput_ok
    (mergedRows bandMeta 2 3 2 (fun i => i) [bandSource, bandSource]).sts_data 3 2 pydata
    (by rw [hw]; decide) (by rw [hw]; decide)
  rw [hw] at hok
  refine ⟨?_, rfl, ⟨_, (band_read pydata).trans hok, rfl, ?_⟩, ?_, ?_⟩
  · rw [(_read_mux2_headers_ret [bandFile, bandFile] freshStorage).1]
    rfl
  · have hm := assembleLoop_meta
      (mergedRows bandMeta 2 3 2 (fun i => i) [bandSource, bandSource]).sts_data 3 1 3 2
      pydata 1 1 (by decide) (by decide) (by decide) (by decide)
    have e : ((3 : Int) + ((1 : Nat) : Int)).toNat = 4 := by decide
    have e' : ((3 : Int) - 1 + 1).toNat + 1 = 3 + 1 := by decide
    rw [e, e', band_longitude] at hm
    exact hm
  · intro mytgs0 total N nsel permutation src0 rest i hi hnt
    rw [mergedRows_row _ _ _ _ _ _ _ hi]
    exact rowFold_site mytgs0 total N (permutation i) src0 rest (fun _ => 0) hnt
  · intro cdata nt start finish nsel i j hi hj hc hf
    exact assembleLoop_meta cdata nt start finish nsel pydata i j hi hj hc hf

/-! ## `_read_mux2` after a successful header validation -/

theorem headerStep_tables (f : MuxFile) (i : Nat) (st : Storage)
    (h : (headerStep f i st).1 = true) :
    (headerStep f i st).2.fros = Function.update st.fros i f.fros ∧
    (headerStep f i st).2.lros = Function.update st.lros i f.lros := by
  unfold headerStep at h ⊢
  by_cases h0 : i = 0
  · simp only [h0, if_true] at h ⊢
    by_cases hn : getNumData f.fros f.lros f.numsta < 0
    · simp [hn] at h
    · simp [hn]
  · simp only [h0, if_false] at h ⊢
    by_cases h1 : f.numsta ≠ st.total_number_of_stations
    · simp [h1] at h
    · simp only [h1, if_false] at h ⊢
      by_cases h2 : stationsCompatible f.tgs st.mytgs0 f.numsta 0 = true
      · simp only [h2, if_true] at h ⊢
        by_cases hn : getNumData f.fros f.lros st.total_number_of_stations < 0
        · simp [hn] at h
        · simp [hn]
      · simp [h2] at h

theorem headersLoop_tables (files : List MuxFile) (i : Nat) (st : Storage)
    (h : (headersLoop files i st).1 = true) :
    (∀ m, m < i → (headersLoop files i st).2.fros m = st.fros m ∧
      (headersLoop files i st).2.lros m = st.lros m) ∧
    (∀ k (hk : k < files.length),
      (headersLoop files i st).2.fros (i + k) = (files.get ⟨k, hk⟩).fros ∧
      (headersLoop files i st).2.lros (i + k) = (files.get ⟨k, hk⟩).lros) := by
  induction files generalizing i st with
  | nil =>
    refine ⟨fun m _ => ⟨rfl, rfl⟩, ?_⟩
    intro k hk
    exact absurd hk (Nat.not_lt_zero _)
  | cons f rest ih =>
    rw [headersLoop] at h ⊢
    by_cases hs : (headerStep f i st).1 = true
    · rw [if_pos hs] at h ⊢
      obtain ⟨t1, t2⟩ := headerStep_tables f i st hs
      obtain ⟨a, b⟩ := ih (i + 1) (headerStep f i st).2 h
      refine ⟨?_, ?_⟩
      · intro m hm
        have := a m (by omega)
        rw [t1, t2, Function.update_noteq (by omega), Function.update_noteq (by omega)] at this
        exact this
      · intro k hk
        cases k with
        | zero =>
          have := a i (by omega)
          rw [t1, t2, Function.update_same, Function.update_same] at this
          exact this
        | succ k =>
          have := b k (by simpa using hk)
          rw [show i + 1 + k = i + (k + 1) by omega] at this
          exact this
    · rw [if_neg hs] at h
      exact absurd h (by simp)

theorem sourcesOf_eq_fileSources (F L : Nat → Nat → Int) (weights : Nat → ℚ)
    (files : List MuxFile) (i : Nat)
    (h : ∀ k (hk : k < files.length),
      F (i + k) = (files.get ⟨k, hk⟩).fros ∧ L (i + k) = (files.get ⟨k, hk⟩).lros) :
    sourcesOf F L weights files i = fileSources weights files i := by
  induction files generalizing i with
  | nil => rfl
  | cons f rest ih =>
    have h0 := h 0 (by simp)
    simp only [Nat.add_zero, List.get_eq_getElem, List.getElem_cons_zero] at h0
    rw [sourcesOf, fileSources, h0.1, h0.2, ih (i + 1)]
    intro k hk
    have := h (k + 1) (by simpa using hk)
    rw [show i + (k + 1) = i + 1 + k by omega] at this
    simpa using this

/-- What `_read_mux2_headers` leaves behind when it returns `1`. -/
theorem headers_success (f0 : MuxFile) (rest : List MuxFile) (st : Storage)
    (weights : Nat → ℚ) (hret : (_read_mux2_headers (f0 :: rest) st).ret = 1) :
    (_read_mux2_headers (f0 :: rest) st).st.total_number_of_stations = f0.numsta ∧
    (_read_mux2_headers (f0 :: rest) st).st.mytgs0 = f0.tgs ∧
    (_read_mux2_headers (f0 :: rest) st).st.number_of_time_steps = (f0.tgs 0).nt ∧
    (_read_mux2_headers (f0 :: rest) st).st.delta_t = (f0.tgs 0).dt ∧
    sourcesOf (_read_mux2_headers (f0 :: rest) st).st.fros
        (_read_mux2_headers (f0 :: rest) st).st.lros weights (f0 :: rest) 0
      = fileSources weights (f0 :: rest) 0 := by
  have hl := (_read_mux2_headers_ret (f0 :: rest) st).1.mp hret
  obtain ⟨_, a2, a3⟩ := headersLoop_all f0 rest st
  obtain ⟨_, b⟩ := headersLoop_tables (f0 :: rest) 0 st hl
  unfold _read_mux2_headers
  simp only [hl, if_true]
  refine ⟨a2, a3, by rw [a3], by rw [a3], ?_⟩
  apply sourcesOf_eq_fileSources
  intro k hk
  have := b k hk
  simpa using this

theorem _read_mux2_eq (files : List MuxFile) (weights params : Nat → ℚ) (n : Nat)
    (permutation : Nat → Nat) (st : Storage) :
    _read_mux2 files weights params n permutation st = some
      { sts_data :=
          (mergedRows (_read_mux2_headers files st).st.mytgs0
            (_read_mux2_headers files st).st.total_number_of_stations
            (_read_mux2_headers files st).st.number_of_time_steps.toNat
            (if n = 0 then (_read_mux2_headers files st).st.total_number_of_stations else n)
            (if n = 0 then (fun i => i) else permutation)
            (sourcesOf (_read_mux2_headers files st).st.fros
              (_read_mux2_headers files st).st.lros weights files 0)).sts_data,
        params :=
          Function.update
            (Function.update
              (Function.update params 0
                (((if n = 0 then (_read_mux2_headers files st).st.total_number_of_stations
                   else n : Nat) : ℚ)))
              1 (_read_mux2_headers files st).st.delta_t)
            2 ((_read_mux2_headers files st).st.number_of_time_steps : ℚ),
        number_of_stations :=
          if n = 0 then (_read_mux2_headers files st).st.total_number_of_stations else n,
        permutation := if n = 0 then (fun i => i) else permutation } := by
  rfl

/-- C18: an empty selection means all stations in identity order.  After a
successful header validation, `_read_mux2` called with a selected-station count
of `0` uses `permutation[i] = i`, reports the total station count back, and for
every station `i` of the network row `i` is the merged row of global station
`i`; called with a non-empty selection it keeps the count and the permutation,
and row `i` is the merged row of global station `permutation[i]`. -/
theorem empty_selection_takes_all (f0 : MuxFile) (rest : List MuxFile)
    (weights params : Nat → ℚ) (permutation : Nat → Nat) (st : Storage)
    (hret : (_read_mux2_headers (f0 :: rest) st).ret = 1) :
    (∃ r, _read_mux2 (f0 :: rest) weights params 0 permutation st = some r ∧
      r.number_of_stations = f0.numsta ∧
      (∀ i, r.permutation i = i) ∧
      (∀ i, i < f0.numsta →
        r.sts_data i = rowFold f0.tgs f0.numsta (f0.tgs 0).nt.toNat i
          (fileSources weights (f0 :: rest) 0) 0 (fun _ => 0))) ∧
    (∀ n, n ≠ 0 →
      ∃ r, _read_mux2 (f0 :: rest) weights params n permutation st = some r ∧
        r.number_of_stations = n ∧
        (∀ i, r.permutation i = permutation i) ∧
        (∀ i, i < n →
          r.sts_data i = rowFold f0.tgs f0.numsta (f0.tgs 0).nt.toNat (permutation i)
            (fileSources weights (f0 :: rest) 0) 0 (fun _ => 0))) := by
  obtain ⟨h1, h2, h3, _, h5⟩ := headers_success f0 rest st weights hret
  constructor
  · refine ⟨_, _read_mux2_eq _ _ _ _ _ _, ?_, ?_, ?_⟩
    · simp only [if_true]
      exact h1
    · intro i
      simp only [if_true]
    · intro i hi
      simp only [if_true]
      rw [mergedRows_row _ _ _ _ _ _ _ (by rw [h1]; exact hi), h1, h2, h3, h5]
  · intro n hn
    refine ⟨_, _read_mux2_eq _ _ _ _ _ _, ?_, ?_, ?_⟩
    · simp only [if_neg hn]
    · intro i
      simp only [if_neg hn]
    · intro i hi
      simp only [if_neg hn]
      rw [mergedRows_row _ _ _ _ _ _ _ hi, h1, h2, h3, h5]

/-- Witness of C18: the example file on its own, empty selection. -/
theorem empty_selection_takes_all_witness :
    (_read_mux2_headers (exampleFile :: []) freshStorage).ret = 1 ∧
    (∃ r, _read_mux2 (exampleFile :: []) (fun _ => 1) (fun _ => 0) 0 (fun _ => 7)
        freshStorage = some r ∧
      r.number_of_stations = exampleFile.numsta ∧
      (∀ i, r.permutation i = i) ∧
      (∀ i, i < exampleFile.numsta →
        r.sts_data i = rowFold exampleFile.tgs exampleFile.numsta
          (exampleFile.tgs 0).nt.toNat i
          (fileSources (fun _ => 1) (exampleFile :: []) 0) 0 (fun _ => 0))) :=
  ⟨rfl,
    (empty_selection_takes_all exampleFile [] (fun _ => 1) (fun _ => 0) (fun _ => 7)
      freshStorage rfl).1⟩

/-- C19 fails as stated: with the example file (2 stations) and a selection of
one station, `_read_mux2` writes `params[0] = 1`, the selected count, not the
total station count 2. -/
theorem params_counterexample :
    (_read_mux2_headers [exampleFile] freshStorage).ret = 1 ∧
    exampleFile.numsta = 2 ∧
    (∃ r, _read_mux2 [exampleFile] (fun _ => 1) (fun _ => 0) 1 (fun _ => 1) freshStorage
        = some r ∧
      r.params 0 = 1 ∧ r.params 0 ≠ (exampleFile.numsta : ℚ)) := by
  refine ⟨rfl, rfl, _, _read_mux2_eq _ _ _ _ _ _, ?_, ?_⟩
  · simp
  · simp [exampleFile]

/-- C19 as amended: after a successful header validation `_read_mux2` writes
`params[0]` = the number of selected stations (the total station count of the
first file's header when the selection is empty), `params[1]` = the sampling
interval of station 0 and `params[2]` = the declared series length of station 0. -/
theorem params_side_channel (f0 : MuxFile) (rest : List MuxFile)
    (weights params : Nat → ℚ) (n : Nat) (permutation : Nat → Nat) (st : Storage)
    (hret : (_read_mux2_headers (f0 :: rest) st).ret = 1) :
    ∃ r, _read_mux2 (f0 :: rest) weights params n permutation st = some r ∧
      r.params 0 = ((if n = 0 then f0.numsta else n : Nat) : ℚ) ∧
      (n = 0 → r.params 0 = (f0.numsta : ℚ)) ∧
      r.params 1 = (f0.tgs 0).dt ∧
      r.params 2 = ((f0.tgs 0).nt : ℚ) := by
  obtain ⟨h1, _, h3, h4, _⟩ := headers_success f0 rest st weights hret
  refine ⟨_, _read_mux2_eq _ _ _ _ _ _, ?_, ?_, ?_, ?_⟩
  · simp [h1]
  · intro hn
    simp [h1, hn]
  · simp [h4]
  · simp [h3]

/-- Witness of C19 as amended: the example file, one selected station. -/
theorem params_side_channel_witness :
    (_read_mux2_headers (exampleFile :: []) freshStorage).ret = 1 ∧
    (∃ r, _read_mux2 (exampleFile :: []) (fun _ => 1) (fun _ => 0) 1 (fun _ => 1)
        freshStorage = some r ∧
      r.params 0 = ((if 1 = 0 then exampleFile.numsta else 1 : Nat) : ℚ) ∧
      (1 = 0 → r.params 0 = (exampleFile.numsta : ℚ)) ∧
      r.params 1 = (exampleFile.tgs 0).dt ∧
      r.params 2 = ((exampleFile.tgs 0).nt : ℚ)) :=
  ⟨rfl,
    params_side_channel exampleFile [] (fun _ => 1) (fun _ => 0) 1 (fun _ => 1)
      freshStorage rfl⟩

/-! ## The running trackers of `fillDataArray` -/

/-- C20, the code: `fillDataArray` updates `*istart_p` to the minimum as the
claim says, but it updates `*istop_p` with the same comparison `<`, so the
tracker holds the minimum stop seen so far: from `*istop_p = 2` and
`nft[ista] = 5` it stays `2`, not `max(2, 5) = 5`. -/
theorem fillDataArray_trackers (ista total nt : Nat) (ig : Int) (nst nft : Nat → Int)
    (data : Nat → ℚ) (istart istop : Int) (muxData : Nat → ℚ) :
    (fillDataArray ista total nt ig nst nft data istart istop muxData).istart
      = (if nst ista = -1 then istart
         else if istart = -1 then nst ista else min istart (nst ista)) ∧
    (fillDataArray ista total nt ig nst nft data istart istop muxData).istop
      = (if nft ista = -1 then istop
         else if istop = -1 then nft ista else min istop (nft ista)) ∧
    (fillDataArray 0 1 0 0 (fun _ => 1) (fun _ => 5) data istart 2 muxData).istop = 2 := by
  have hmin : ∀ a b : Int, (if a < b then a else b) = min b a := by
    intro a b
    rw [min_def]
    split <;> split <;> omega
  refine ⟨?_, ?_, ?_⟩
  · unfold fillDataArray
    simp only [hmin]
    split_ifs <;> simp_all
  · unfold fillDataArray
    simp only [hmin]
    split_ifs <;> simp_all
  · unfold fillDataArray
    simp only [fillLoop]
    split <;> rfl

/-- The zero-fill rule on `shortRows`: station 1 has stopped at step 2, so its value
for step 3 of the global window 1..3 is zero. -/
theorem assembler_zero_fill_witness :
    1 < 2 ∧
    ¬ ((globalWindow shortRows 3 2).1 > 3 ∨ (globalWindow shortRows 3 2).2 < 0) ∧
    ¬ (globalWindow shortRows 3 2).1 ≥ (globalWindow shortRows 3 2).2 ∧
    (1 : Int) ≤ 3 ∧ (globalWindow shortRows 3 2).1 ≤ 3 ∧ 3 ≤ (globalWindow shortRows 3 2).2 ∧
    (∃ tab, assembleOutput shortRows 3 2 (fun _ _ => 7) = Except.ok tab ∧
      ((3 : Int) > cInt (shortRows 1 ((3 : Int) + 4).toNat) →
        tab.data 1 ((3 : Int) - max (globalWindow shortRows 3 2).1 1).toNat = 0 ∧
        tab.data 1 ((3 : Int) - max (globalWindow shortRows 3 2).1 1).toNat ≠ NODATA) ∧
      ((3 : Int) ≤ cInt (shortRows 1 ((3 : Int) + 4).toNat) →
        tab.data 1 ((3 : Int) - max (globalWindow shortRows 3 2).1 1).toNat
          = shortRows 1 ((3 : Int) - 1).toNat)) :=
  ⟨by decide, by decide, by decide, by decide, by decide, by decide,
    assembler_zero_fill shortRows 3 2 (fun _ _ => 7) 1 3 (by decide) (by decide) (by decide)
      (by decide) (by decide) (by decide)⟩

/-! ## The temporary buffer -/

theorem fillDataArray_data_indep (ista total nt : Nat) (ig : Int) (nst nft : Nat → Int)
    (d1 d2 : Nat → ℚ) (s1 e1 s2 e2 : Int) (muxData : Nat → ℚ) (k : Nat) (hk : k < nt) :
    (fillDataArray ista total nt ig nst nft d1 s1 e1 muxData).data k
      = (fillDataArray ista total nt ig nst nft d2 s2 e2 muxData).data k := by
  by_cases h : ig = -1 ∨ nst ista = -1
  · rw [fillDataArray_data_inactive _ _ _ _ _ _ _ _ _ _ h,
      fillDataArray_data_inactive _ _ _ _ _ _ _ _ _ _ h, if_pos hk, if_pos hk]
  · rw [fillDataArray_data_active _ _ _ _ _ _ _ _ _ _ (fun h' => h (Or.inl h'))
        (fun h' => h (Or.inr h')),
      fillDataArray_data_active _ _ _ _ _ _ _ _ _ _ (fun h' => h (Or.inl h'))
        (fun h' => h (Or.inr h')), if_pos hk, if_pos hk]

/-- C22: `fillDataArray` overwrites every one of the `nt` output slots.  For all
inputs and any two initial contents of the output buffer (and of the trackers),
the resulting `data[0..nt-1]` are the same; so in the station loop of
`_read_mux2` the series slots of the merged row do not depend on what the
temporary buffer held from the previous station or source. -/
theorem fillDataArray_overwrites (ista total nt : Nat) (ig : Int) (nst nft : Nat → Int)
    (d1 d2 : Nat → ℚ) (s1 e1 s2 e2 : Int) (muxData : Nat → ℚ) (k : Nat) (hk : k < nt) :
    (fillDataArray ista total nt ig nst nft d1 s1 e1 muxData).data k
      = (fillDataArray ista total nt ig nst nft d2 s2 e2 muxData).data k ∧
    (∀ (mytgs0 : Nat → tgsrwg) (total' : Nat) (permutation : Nat → Nat) (isrc : Nat)
      (src : Source) (i : Nat) (s : MuxState) (temp : Nat → ℚ),
      (stationStep mytgs0 total' nt permutation isrc src i s).sts_data i k
        = (stationStep mytgs0 total' nt permutation isrc src i
            { s with temp_sts_data := temp }).sts_data i k) := by
  refine ⟨fillDataArray_data_indep ista total nt ig nst nft d1 d2 s1 e1 s2 e2 muxData k hk, ?_⟩
  intro mytgs0 total' permutation isrc src i s temp
  simp only [stationStep, Function.update_same]
  rw [updateMeta_series _ _ _ _ _ _ _ hk, updateMeta_series _ _ _ _ _ _ _ hk,
    mergeLoop_apply, mergeLoop_apply,
    fillDataArray_data_indep _ _ _ _ _ _ s.temp_sts_data temp s.istart s.istop s.istart
      s.istop _ k hk]

/-- Witness of C22: station B of the example decoded into two different buffers. -/
theorem fillDataArray_overwrites_witness :
    1 < 3 ∧
    (fillDataArray 1 2 3 0 exampleNst exampleNft (fun _ => 7) (-1) (-1)
        (blockMem [5, 11, 5, 11, 22, 5, 11])).data 1
      = (fillDataArray 1 2 3 0 exampleNst exampleNft (fun _ => 8) 4 4
          (blockMem [5, 11, 5, 11, 22, 5, 11])).data 1 :=
  ⟨by decide,
    (fillDataArray_overwrites 1 2 3 0 exampleNst exampleNft (fun _ => 7) (fun _ => 8)
      (-1) (-1) 4 4 (blockMem [5, 11, 5, 11, 22, 5, 11]) 1 (by decide)).1⟩

/-! ## The reads of the decoder -/

theorem fillReads_spec (ista total : Nat) (nst nft : Nat → Int) (n it offset : Nat)
    (hoff : offset = headOffset ista total nst nft it) :
    ∀ p ∈ fillReads ista total nst nft n it offset,
      it ≤ p.1 ∧ p.1 < it + n ∧ recording nst nft p.1 ista = true ∧
      p.2 = copyOffset ista total nst nft p.1 := by
  induction n generalizing it offset with
  | zero =>
    intro p hp
    simp [fillReads] at hp
  | succ n ih =>
    have hstep : ∀ b : Nat,
        skipRecords nst nft it (total - (ista + 1)) (ista + 1)
          (skipRecords nst nft it ista 0 (offset + 1) + b)
        = headOffset ista total nst nft it + 1 + skipRecords nst nft it ista 0 0 + b
          + skipRecords nst nft it (total - (ista + 1)) (ista + 1) 0 := by
      intro b
      rw [skipRecords_add nst nft it (total - (ista + 1)),
        skipRecords_add nst nft it ista 0 (offset + 1), hoff]
    intro p hp
    rw [fillReads] at hp
    by_cases hrec : recording nst nft it ista = true
    · simp only [hrec, if_true] at hp
      rcases List.mem_cons.mp hp with rfl | hp
      · refine ⟨le_refl _, by omega, hrec, ?_⟩
        simp only
        rw [copyOffset, skipRecords_add nst nft it ista 0 (offset + 1), hoff]
      · have := ih (it + 1) _ (by rw [hstep 1]; simp [headOffset, stepWidth, hrec]; ring) p hp
        exact ⟨by omega, by omega, this.2.2.1, this.2.2.2⟩
    · simp only [hrec] at hp
      by_cases hpre : (it : Int) + 1 < nst ista
      · simp only [hpre, if_true] at hp
        have h0 := hstep 0
        simp only [Nat.add_zero] at h0
        have := ih (it + 1) _ (by rw [h0]; simp [headOffset, stepWidth, hrec]; ring) p hp
        exact ⟨by omega, by omega, this.2.2.1, this.2.2.2⟩
      · simp [hpre] at hp

theorem headOffset_mono (ista total : Nat) (nst nft : Nat → Int) (a k : Nat) :
    headOffset ista total nst nft a ≤ headOffset ista total nst nft (a + k) := by
  induction k with
  | zero => exact le_refl _
  | succ k ih =>
    rw [← Nat.add_assoc, headOffset]
    omega

theorem copyOffset_lt_next (ista total : Nat) (nst nft : Nat → Int) (it : Nat)
    (hrec : recording nst nft it ista = true) :
    copyOffset ista total nst nft it < headOffset ista total nst nft (it + 1) := by
  rw [copyOffset, headOffset, stepWidth, if_pos hrec]
  omega

theorem activeSteps_succ (nst nft : Nat → Int) (j T : Nat) :
    activeSteps nst nft j (T + 1)
      = activeSteps nst nft j T + (if activeAt nst nft (T + 1) j = true then 1 else 0) := by
  unfold activeSteps
  rw [List.range_succ, List.filter_append, List.length_append]
  by_cases ha : activeAt nst nft (T + 1) j = true
  · simp [List.filter_cons, ha]
  · simp [List.filter_cons, ha]

theorem activeSteps_interval (nst nft : Nat → Int) (j T : Nat) (h1 : 1 ≤ nst j) :
    (activeSteps nst nft j T : Int) = (min (T : Int) (nft j) - nst j + 1).toNat := by
  induction T with
  | zero =>
    have : activeSteps nst nft j 0 = 0 := rfl
    rw [this]
    omega
  | succ T ih =>
    rw [activeSteps_succ]
    by_cases ha : activeAt nst nft (T + 1) j = true
    · have ha' : nst j ≤ ((T + 1 : Nat) : Int) ∧ ((T + 1 : Nat) : Int) ≤ nft j := by
        simpa [activeAt] using ha
      rw [if_pos ha]
      omega
    · have ha' : ¬ (nst j ≤ ((T + 1 : Nat) : Int) ∧ ((T + 1 : Nat) : Int) ≤ nft j) := by
        simpa [activeAt] using ha
      rw [if_neg ha]
      omega

theorem activeSteps_never (nst nft : Nat → Int) (j T : Nat) (h : nft j < 1) :
    activeSteps nst nft j T = 0 := by
  unfold activeSteps
  rw [List.length_eq_zero, List.filter_eq_nil_iff]
  intro i _
  simp only [activeAt, Bool.and_eq_true, decide_eq_true_eq, not_and]
  intro _
  push_cast
  omega

theorem activeCount_succ (n : Nat) (nst nft : Nat → Int) (t : Nat) :
    activeCount (n + 1) nst nft t
      = activeCount n nst nft t + (if activeAt nst nft t n = true then 1 else 0) := by
  unfold activeCount
  rw [List.range_succ, List.filter_append, List.length_append]
  by_cases ha : activeAt nst nft t n = true
  · simp [List.filter_cons, ha]
  · simp [List.filter_cons, ha]

theorem activePairs_succ (n : Nat) (nst nft : Nat → Int) (T : Nat) :
    activePairs n nst nft (T + 1)
      = activePairs n nst nft T + activeCount n nst nft (T + 1) := by
  unfold activePairs
  rw [List.range_succ, List.map_append, List.sum_append]
  simp

theorem activePairs_succ_station (n : Nat) (nst nft : Nat → Int) (T : Nat) :
    activePairs (n + 1) nst nft T = activePairs n nst nft T + activeSteps nst nft n T := by
  induction T with
  | zero => rfl
  | succ T ih =>
    rw [activePairs_succ, activePairs_succ, activeSteps_succ, activeCount_succ, ih]
    omega

theorem spanSum_succ (fros lros : Nat → Int) (n : Nat) :
    spanSum fros lros (n + 1)
      = spanSum fros lros n + (if fros n ≠ -1 then lros n - fros n + 1 else 0) := by
  unfold spanSum
  rw [List.range_succ, List.map_append, List.sum_append]
  simp

theorem lastActiveStep_succ (fros lros : Nat → Int) (n : Nat) :
    lastActiveStep fros lros (n + 1)
      = if fros n ≠ -1 then max (lastActiveStep fros lros n) (lros n)
        else lastActiveStep fros lros n := by
  unfold lastActiveStep
  rw [List.range_succ, List.foldl_append]
  rfl

theorem lastActiveStep_spec (fros lros : Nat → Int) (n : Nat) :
    0 ≤ lastActiveStep fros lros n ∧
    ∀ j, j < n → fros j ≠ -1 → lros j ≤ lastActiveStep fros lros n := by
  induction n with
  | zero =>
    refine ⟨le_refl _, ?_⟩
    intro j hj
    omega
  | succ n ih =>
    rw [lastActiveStep_succ]
    by_cases h : fros n ≠ -1
    · rw [if_pos h]
      refine ⟨le_trans ih.1 (le_max_left _ _), ?_⟩
      intro j hj hf
      by_cases hjn : j = n
      · subst hjn
        exact le_max_right _ _
      · exact le_trans (ih.2 j (by omega) hf) (le_max_left _ _)
    · rw [if_neg h]
      refine ⟨ih.1, ?_⟩
      intro j hj hf
      by_cases hjn : j = n
      · subst hjn
        exact absurd hf h
      · exact ih.2 j (by omega) hf

theorem activePairs_zero_stations (nst nft : Nat → Int) (T : Nat) :
    activePairs 0 nst nft T = 0 := by
  induction T with
  | zero => rfl
  | succ T ih =>
    rw [activePairs_succ, ih]
    rfl

theorem activePairs_eq_spanSum (nst nft : Nat → Int) (n T : Nat)
    (hwf : ∀ j, j < n → (nst j = -1 ∧ nft j = -1) ∨ (1 ≤ nst j ∧ nst j ≤ nft j))
    (hT : ∀ j, j < n → nst j ≠ -1 → nft j ≤ (T : Int)) :
    (activePairs n nst nft T : Int) = spanSum nst nft n := by
  induction n with
  | zero =>
    rw [activePairs_zero_stations]
    rfl
  | succ n ih =>
    have hi := ih (fun j hj => hwf j (by omega)) (fun j hj => hT j (by omega))
    rw [activePairs_succ_station, spanSum_succ]
    push_cast
    rw [hi]
    rcases hwf n (by omega) with ⟨h1, h2⟩ | ⟨h1, h2⟩
    · have hn : ¬ nst n ≠ -1 := by
        intro h
        exact h h1
      rw [if_neg hn, activeSteps_never nst nft n T (by omega)]
      simp
    · have hn : nst n ≠ -1 := by omega
      have hb := hT n (by omega) hn
      rw [if_pos hn, activeSteps_interval nst nft n T h1]
      omega

/-- Every offset at which the decoder copies a value lies inside a block of
span sum plus last active step elements, for well-formed window tables. -/
theorem copyOffset_lt_blockSize (ista total : Nat) (nst nft : Nat → Int) (it : Nat)
    (hista : ista < total)
    (hwf : ∀ j, j < total → (nst j = -1 ∧ nft j = -1) ∨ (1 ≤ nst j ∧ nst j ≤ nft j))
    (hrec : recording nst nft it ista = true) :
    (copyOffset ista total nst nft it : Int)
      < spanSum nst nft total + lastActiveStep nst nft total := by
  have hr : nst ista ≤ (it : Int) + 1 ∧ (it : Int) + 1 ≤ nft ista := by
    simpa [recording] using hrec
  have hne : nst ista ≠ -1 := by
    rcases hwf ista hista with ⟨h1, h2⟩ | ⟨h1, h2⟩
    · omega
    · omega
  obtain ⟨hL0, hL⟩ := lastActiveStep_spec nst nft total
  have hLi := hL ista hista hne
  have h1 := copyOffset_lt_next ista total nst nft it hrec
  have h2 : headOffset ista total nst nft (it + 1)
      ≤ headOffset ista total nst nft (lastActiveStep nst nft total).toNat := by
    have := headOffset_mono ista total nst nft (it + 1)
      ((lastActiveStep nst nft total).toNat - (it + 1))
    rwa [show it + 1 + ((lastActiveStep nst nft total).toNat - (it + 1))
      = (lastActiveStep nst nft total).toNat by omega] at this
  have h2' := headOffset_eq ista total nst nft (lastActiveStep nst nft total).toNat hista
  have h3 := activePairs_eq_spanSum nst nft total (lastActiveStep nst nft total).toNat hwf
    (by
      intro j hj hn
      have := hL j hj hn
      omega)
  omega

/-- Every offset at which the decoder copies a value lies inside a block of
`getNumData` elements, for well-formed window tables. -/
theorem copyOffset_lt_getNumData (ista total : Nat) (nst nft : Nat → Int) (it : Nat)
    (hista : ista < total)
    (hwf : ∀ j, j < total → (nst j = -1 ∧ nft j = -1) ∨ (1 ≤ nst j ∧ nst j ≤ nft j))
    (hrec : recording nst nft it ista = true) :
    (copyOffset ista total nst nft it : Int) < getNumData nst nft total := by
  have h := copyOffset_lt_blockSize ista total nst nft it hista hwf hrec
  obtain ⟨hL0, _⟩ := lastActiveStep_spec nst nft total
  have h4 : lastActiveStep nst nft total * 1 ≤ lastActiveStep nst nft total * (total : Int) :=
    Int.mul_le_mul_of_nonneg_left (by omega) hL0
  rw [getNumData_eq]
  omega

theorem headerStep_numDataMax (f : MuxFile) (i : Nat) (st : Storage)
    (h : (headerStep f i st).1 = true) :
    st.numDataMax ≤ (headerStep f i st).2.numDataMax ∧
    getNumData f.fros f.lros (headerStep f i st).2.total_number_of_stations
      ≤ (headerStep f i st).2.numDataMax := by
  have hmax : ∀ a b : Int, a ≤ (if a < b then b else a) ∧ b ≤ (if a < b then b else a) := by
    intro a b
    split <;> omega
  unfold headerStep at h ⊢
  by_cases h0 : i = 0
  · simp only [h0, if_true] at h ⊢
    by_cases hn : getNumData f.fros f.lros f.numsta < 0
    · simp [hn] at h
    · simp only [hn, if_false]
      exact hmax _ _
  · simp only [h0, if_false] at h ⊢
    by_cases h1 : f.numsta ≠ st.total_number_of_stations
    · simp [h1] at h
    · simp only [h1, if_false] at h ⊢
      by_cases h2 : stationsCompatible f.tgs st.mytgs0 f.numsta 0 = true
      · simp only [h2, if_true] at h ⊢
        by_cases hn : getNumData f.fros f.lros st.total_number_of_stations < 0
        · simp [hn] at h
        · simp only [hn, if_false]
          exact hmax _ _
      · simp [h2] at h

theorem headersLoop_numDataMax (files : List MuxFile) (i : Nat) (st : Storage) (hi : i ≠ 0)
    (h : (headersLoop files i st).1 = true) :
    st.numDataMax ≤ (headersLoop files i st).2.numDataMax ∧
    ∀ f ∈ files, getNumData f.fros f.lros st.total_number_of_stations
      ≤ (headersLoop files i st).2.numDataMax := by
  induction files generalizing i st with
  | nil =>
    refine ⟨le_refl _, ?_⟩
    intro f hf
    simp at hf
  | cons f rest ih =>
    rw [headersLoop] at h ⊢
    by_cases hs : (headerStep f i st).1 = true
    · rw [if_pos hs] at h ⊢
      obtain ⟨a, b⟩ := headerStep_numDataMax f i st hs
      obtain ⟨_, t2, _⟩ := headerStep_later f i st hi
      rw [t2] at b
      obtain ⟨c, d⟩ := ih (i + 1) (headerStep f i st).2 (by omega) h
      rw [t2] at d
      refine ⟨le_trans a c, ?_⟩
      intro g hg
      rcases List.mem_cons.mp hg with rfl | hg
      · exact le_trans b c
      · exact d g hg
    · rw [if_neg hs] at h
      exact absurd h (by simp)

/-- After a successful header validation `numDataMax` is at least the size that
`getNumData` gives for each source. -/
theorem headers_numDataMax (f0 : MuxFile) (rest : List MuxFile) (st : Storage)
    (hret : (_read_mux2_headers (f0 :: rest) st).ret = 1) :
    ∀ f ∈ f0 :: rest, getNumData f.fros f.lros f0.numsta
      ≤ (_read_mux2_headers (f0 :: rest) st).st.numDataMax := by
  have hl := (_read_mux2_headers_ret (f0 :: rest) st).1.mp hret
  have hm : (_read_mux2_headers (f0 :: rest) st).st.numDataMax
      = (headersLoop (f0 :: rest) 0 st).2.numDataMax := by
    unfold _read_mux2_headers
    simp only [hl, if_true]
  rw [hm]
  rw [headersLoop] at hl ⊢
  by_cases hs : (headerStep f0 0 st).1 = true
  · rw [if_pos hs] at hl ⊢
    obtain ⟨_, b⟩ := headerStep_numDataMax f0 0 st hs
    obtain ⟨_, t2, _⟩ := headerStep_first f0 st
    rw [t2] at b
    obtain ⟨c, d⟩ := headersLoop_numDataMax rest (0 + 1) (headerStep f0 0 st).2 (by omega) hl
    rw [t2] at d
    intro g hg
    rcases List.mem_cons.mp hg with rfl | hg
    · exact le_trans b c
    · exact d g hg
  · rw [if_neg hs] at hl
    exact absurd hl (by simp)

/-- C21: decoder reads stay inside the sized block.  For a well-formed window
table (each station has `nst = nft = -1` or `1 <= nst <= nft`) and a target
station of the network with grid flag other than `-1` and `nst[ista] != -1`,
every offset at which `fillDataArray` reads `muxData` is non-negative and
strictly less than `getNumData(nst, nft, total_number_of_stations)`, and even
than the span sum plus the last active step; the value read there is the one
stored in the output slot; and after a successful header
validation `numDataMax` is at least `getNumData` of every source, so the
buffer of `numDataMax` elements is not read out of range. -/
theorem decoder_reads_in_block (ista total nt : Nat) (ig : Int) (nst nft : Nat → Int)
    (hista : ista < total)
    (hwf : ∀ j, j < total → (nst j = -1 ∧ nft j = -1) ∨ (1 ≤ nst j ∧ nst j ≤ nft j))
    (hig : ig ≠ -1) (hn : nst ista ≠ -1) :
    (∀ p ∈ fillDataArrayReads ista total nt ig nst nft,
      p.1 < nt ∧ 0 ≤ (p.2 : Int) ∧ (p.2 : Int) < getNumData nst nft total ∧
      (p.2 : Int) < spanSum nst nft total + lastActiveStep nst nft total ∧
      ∀ (data : Nat → ℚ) (istart istop : Int) (muxData : Nat → ℚ),
        (fillDataArray ista total nt ig nst nft data istart istop muxData).data p.1
          = muxData p.2) ∧
    (∀ (f0 : MuxFile) (rest : List MuxFile) (st : Storage),
      (_read_mux2_headers (f0 :: rest) st).ret = 1 →
      ∀ f ∈ f0 :: rest, getNumData f.fros f.lros f0.numsta
        ≤ (_read_mux2_headers (f0 :: rest) st).st.numDataMax) := by
  refine ⟨?_, fun f0 rest st hret => headers_numDataMax f0 rest st hret⟩
  intro p hp
  have hc : ¬ (ig = -1 ∨ nst ista = -1) := by
    intro h
    rcases h with h | h
    · exact hig h
    · exact hn h
  rw [fillDataArrayReads, if_neg hc] at hp
  obtain ⟨_, h2, h3, h4⟩ := fillReads_spec ista total nst nft nt 0 0 rfl p hp
  have hr : nst ista ≤ (p.1 : Int) + 1 ∧ (p.1 : Int) + 1 ≤ nft ista := by
    simpa [recording] using h3
  refine ⟨by omega, Int.natCast_nonneg _, ?_, ?_, ?_⟩
  · rw [h4]
    exact copyOffset_lt_getNumData ista total nst nft p.1 hista hwf h3
  · rw [h4]
    exact copyOffset_lt_blockSize ista total nst nft p.1 hista hwf h3
  · intro data istart istop muxData
    rw [fillDataArray_data_active _ _ _ _ _ _ _ _ _ _ hig hn, if_pos (by omega), decodedAt,
      if_neg (by omega), if_pos hr.2, h4]

/-- Witness of C21: station B of the two-station example; its one read is at
offset 4 and `getNumData` is 10. -/
theorem decoder_reads_in_block_witness :
    1 < 2 ∧
    (∀ j, j < 2 → (exampleNst j = -1 ∧ exampleNft j = -1) ∨
      (1 ≤ exampleNst j ∧ exampleNst j ≤ exampleNft j)) ∧
    (0 : Int) ≠ -1 ∧ exampleNst 1 ≠ -1 ∧
    fillDataArrayReads 1 2 3 0 exampleNst exampleNft = [(1, 4)] ∧
    (((1, 4) : Nat × Nat).2 : Int) < getNumData exampleNst exampleNft 2 :=
  ⟨by decide, by decide, by decide, by decide, by decide,
    ((decoder_reads_in_block 1 2 3 0 exampleNst exampleNft (by decide) (by decide)
      (by decide) (by decide)).1 (1, 4) (by decide)).2.2.1⟩

/-! ## The reads of the assembler -/

theorem timeLoopReads_spec (crow : Nat → ℚ) (nt start finish : Int) (n it0 : Nat) :
    ∀ it ∈ timeLoopReads crow nt start finish n it0,
      it0 ≤ it ∧ it < it0 + n ∧ start ≤ (it : Int) + 1 ∧ (it : Int) + 1 ≤ finish ∧
      (it : Int) + 1 ≤ cInt (crow (nt + 4).toNat) := by
  induction n generalizing it0 with
  | zero =>
    intro it hit
    simp [timeLoopReads] at hit
  | succ n ih =>
    intro it hit
    rw [timeLoopReads] at hit
    by_cases hw : start ≤ (it0 : Int) + 1 ∧ (it0 : Int) + 1 ≤ finish
    · rw [if_pos hw] at hit
      by_cases hl : (it0 : Int) + 1 > cInt (crow (nt + 4).toNat)
      · rw [if_pos hl] at hit
        have := ih (it0 + 1) it hit
        exact ⟨by omega, by omega, this.2.2⟩
      · rw [if_neg hl] at hit
        rcases List.mem_cons.mp hit with rfl | hit
        · exact ⟨le_refl _, by omega, hw.1, hw.2, by omega⟩
        · have := ih (it0 + 1) it hit
          exact ⟨by omega, by omega, this.2.2⟩
    · rw [if_neg hw] at hit
      have := ih (it0 + 1) it hit
      exact ⟨by omega, by omega, this.2.2⟩

theorem long_read (pydata : Nat → Nat → ℚ) :
    read_mux2 [longFile] (fun _ => 1) (fun _ => 0) [] freshStorage pydata
      = assembleOutput (mergedRows longMeta 1 3 1 (fun i => i) [longSource]).sts_data 3 1
          pydata := by
  rfl

theorem long_rows :
    (mergedRows longMeta 1 3 1 (fun i => i) [longSource]).sts_data 0 3 = 10 ∧
    (mergedRows longMeta 1 3 1 (fun i => i) [longSource]).sts_data 0 6 = ((1 : Int) : ℚ) ∧
    (mergedRows longMeta 1 3 1 (fun i => i) [longSource]).sts_data 0 7 = ((5 : Int) : ℚ) := by
  have hw := rowFold_window longMeta 1 3 0 longSource [] (fun _ => 0)
  have hs := rowStep_site_first longMeta 1 3 0 longSource (fun _ => 0)
  rw [mergedRows_row _ _ _ _ _ _ _ (show 0 < 1 by decide)]
  exact ⟨hs.1, hw.1, hw.2⟩

theorem long_window :
    globalWindow (mergedRows longMeta 1 3 1 (fun i => i) [longSource]).sts_data 3 1
      = (1, 5) := by
  obtain ⟨_, a, b⟩ := long_rows
  have e3 : ((3 : Int) + 3).toNat = 6 := by decide
  have e4 : ((3 : Int) + 4).toNat = 7 := by decide
  simp only [globalWindow, windowLoop, e3, e4, a, b, cInt_intCast]
  decide

/-- C23 fails as stated: one source whose only station is declared to record the
steps 1..5 of a series of length `nt = 3`.  The window is `start = 1`,
`finish = 5` and passes both checks, the assembler reads `cdata[0][it]` for
`it = 0..4`, and the read at `it = 3` copies the latitude slot (value 10) into
the fourth time-series column. -/
theorem assembler_reads_counterexample :
    globalWindow (mergedRows longMeta 1 3 1 (fun i => i) [longSource]).sts_data 3 1
      = (1, 5) ∧
    windowCheck 3 1 5 = Except.ok () ∧
    assembleReads (mergedRows longMeta 1 3 1 (fun i => i) [longSource]).sts_data 3 1 0
      = [0, 1, 2, 3, 4] ∧
    ¬ ((3 : Int) < 3) ∧
    (longFile.tgs 0).geolat = 10 ∧
    (∃ tab, read_mux2 [longFile] (fun _ => 1) (fun _ => 0) [] freshStorage (fun _ _ => 0)
        = Except.ok tab ∧ tab.data 0 3 = 10) := by
  have hw := long_window
  obtain ⟨r3, _, r7⟩ := long_rows
  have e4 : ((3 : Int) + 4).toNat = 7 := by decide
  have hok := assembleOutput_ok
    (mergedRows longMeta 1 3 1 (fun i => i) [longSource]).sts_data 3 1 (fun _ _ => 0)
    (by rw [hw]; decide) (by rw [hw]; decide)
  rw [hw] at hok
  refine ⟨hw, rfl, ?_, by decide, rfl, _, (long_read _).trans hok, ?_⟩
  · unfold assembleReads
    rw [hw]
    simp only [timeLoopReads, e4, r7, cInt_intCast]
    decide
  · have h := assembleLoop_step
      (mergedRows longMeta 1 3 1 (fun i => i) [longSource]).sts_data 3 1 5 1 (fun _ _ => 0)
      0 4 (by decide) (by decide) (by decide) (by decide) (by decide)
    rw [e4, r7, cInt_intCast, if_neg (by decide)] at h
    have e : ((4 : Int) - max 1 1).toNat = 3 := by decide
    have e' : ((4 : Int) - 1).toNat = 3 := by decide
    rw [e, e', r3] at h
    exact h

/-- C23 as amended: for every invocation whose global window passes the window
checks of `read_mux2` (only `start < finish` is needed) and whose global finish
does not exceed `nt`, every index
`it` at which the assembler reads `cdata[i][it]` as a time-series value
satisfies `0 <= it < nt` (and `it + 1` is at most the global finish and the
station's own last step); the value read is the one stored in the column of
step `it + 1`. -/
theorem assembler_reads_in_series (cdata : Nat → Nat → ℚ) (nt : Int) (nsel i : Nat)
    (hc2 : ¬ (globalWindow cdata nt nsel).1 ≥ (globalWindow cdata nt nsel).2)
    (hfin : (globalWindow cdata nt nsel).2 ≤ nt) :
    ∀ it ∈ assembleReads cdata nt nsel i,
      0 ≤ (it : Int) ∧ (it : Int) < nt ∧
      (it : Int) + 1 ≤ (globalWindow cdata nt nsel).2 ∧
      (it : Int) + 1 ≤ cInt (cdata i (nt + 4).toNat) ∧
      (i < nsel → ∀ pydata : Nat → Nat → ℚ,
        assembleLoop cdata nt (globalWindow cdata nt nsel).1 (globalWindow cdata nt nsel).2
            nsel 0 pydata i
            (((it : Int) + 1) - max (globalWindow cdata nt nsel).1 1).toNat
          = cdata i it) := by
  intro it hit
  obtain ⟨_, _, h3, h4, h5⟩ := timeLoopReads_spec (cdata i) nt _ _ _ 0 it hit
  refine ⟨Int.natCast_nonneg _, by omega, h4, h5, ?_⟩
  intro hi pydata
  rw [assembleLoop_step cdata nt _ _ nsel pydata i ((it : Int) + 1) hi (by omega) (by omega)
    h3 h4, if_neg (by omega)]
  congr 1
  omega

/-- Witness of C23 as amended: station 0 of `shortRows`, window 1..3, `nt = 3`. -/
theorem assembler_reads_in_series_witness :
    ¬ (globalWindow shortRows 3 2).1 ≥ (globalWindow shortRows 3 2).2 ∧
    (globalWindow shortRows 3 2).2 ≤ 3 ∧
    2 ∈ assembleReads shortRows 3 2 0 ∧
    (0 : Int) ≤ ((2 : Nat) : Int) ∧ ((2 : Nat) : Int) < 3 :=
  ⟨by decide, by decide, by decide,
    ((assembler_reads_in_series shortRows 3 2 0 (by decide) (by decide)) 2
      (by decide)).1,
    ((assembler_reads_in_series shortRows 3 2 0 (by decide) (by decide)) 2
      (by decide)).2.1⟩

/-! ## The value of a step in a window that starts at `-1` -/

/-- C16, the code on one source in which station 0 never records and station 1
records the steps 1..3 (window `start = -1`, `finish = 3`, both checks passed).
Step `t = 1` of station 1 is inside the window and not past its last step 3,
but its column `t - start = 2` holds `cdata[1][2] = 23`, not
`cdata[1][t-1] = 21`; step `t = 2` of station 0 is past its last step `-1`, but
its column `t - start = 3` is never written and keeps what the allocation put
there.  For every window with `start >= 1` that passed the checks the column
`t - start` holds `0.0` past the station's last step and `cdata[i][t-1]`
otherwise. -/
theorem assembler_value_at_gap (pydata : Nat → Nat → ℚ) :
    (∃ tab, read_mux2 [gapFile] (fun _ => 1) (fun _ => 0) [] freshStorage pydata
        = Except.ok tab ∧
      globalWindow (mergedRows exampleMeta 2 3 2 (fun i => i) [gapSource]).sts_data 3 2
        = (-1, 3) ∧
      cInt ((mergedRows exampleMeta 2 3 2 (fun i => i) [gapSource]).sts_data 1 7) = 3 ∧
      (mergedRows exampleMeta 2 3 2 (fun i => i) [gapSource]).sts_data 1
        ((1 : Int) - 1).toNat = 21 ∧
      tab.data 1 ((1 : Int) - (-1)).toNat = 23 ∧
      cInt ((mergedRows exampleMeta 2 3 2 (fun i => i) [gapSource]).sts_data 0 7) = -1 ∧
      tab.data 0 ((2 : Int) - (-1)).toNat = pydata 0 3) ∧
    (∀ (cdata : Nat → Nat → ℚ) (nt : Int) (nsel i : Nat) (t : Int), i < nsel →
      ¬ ((globalWindow cdata nt nsel).1 > nt ∨ (globalWindow cdata nt nsel).2 < 0) →
      ¬ (globalWindow cdata nt nsel).1 ≥ (globalWindow cdata nt nsel).2 →
      1 ≤ (globalWindow cdata nt nsel).1 →
      (globalWindow cdata nt nsel).1 ≤ t → t ≤ (globalWindow cdata nt nsel).2 →
      ∃ tab, assembleOutput cdata nt nsel pydata = Except.ok tab ∧
        tab.data i (t - (globalWindow cdata nt nsel).1).toNat
          = if t > cInt (cdata i (nt + 4).toNat) then 0 else cdata i (t - 1).toNat) := by
  constructor
  · have hw := gap_window
    obtain ⟨s0, _, s2⟩ := gap_series
    obtain ⟨_, q7, _, r7⟩ := gap_rows
    have e4 : ((3 : Int) + 4).toNat = 7 := by decide
    have hok := assembleOutput_ok
      (mergedRows exampleMeta 2 3 2 (fun i => i) [gapSource]).sts_data 3 2 pydata
      (by rw [hw]; decide) (by rw [hw]; decide)
    rw [hw] at hok
    refine ⟨_, (gap_read pydata).trans hok, hw, by rw [r7, cInt_intCast], ?_, ?_,
      by rw [q7, cInt_intCast], ?_⟩
    · have e : ((1 : Int) - 1).toNat = 0 := by decide
      rw [e]
      exact s0
    · have h := assembleLoop_step
        (mergedRows exampleMeta 2 3 2 (fun i => i) [gapSource]).sts_data 3 (-1) 3 2 pydata
        1 3 (by decide) (by decide) (by decide) (by decide) (by decide)
      rw [e4, r7, cInt_intCast, if_neg (by decide)] at h
      have e : ((3 : Int) - max (-1) 1).toNat = ((1 : Int) - (-1)).toNat := by decide
      have e' : ((3 : Int) - 1).toNat = 2 := by decide
      rw [e, e', s2] at h
      exact h
    · have hin : 0 ≤ 0 ∧ 0 < 0 + 2 := by decide
      have e : ((2 : Int) - (-1)).toNat = 3 := by decide
      have hm : ¬ (((3 : Int) - (-1) + 1).toNat ≤ 3 ∧
          3 < ((3 : Int) - (-1) + 1).toNat + POFFSET) := by decide
      have ht : ¬ (3 + ((-1 : Int) - 1).toNat < (3 : Int).toNat) := by decide
      show assembleLoop (mergedRows exampleMeta 2 3 2 (fun i => i) [gapSource]).sts_data 3
        (-1) 3 2 0 pydata 0 ((2 : Int) - (-1)).toNat = pydata 0 3
      rw [e, assembleLoop_apply, if_pos hin,
        assembleRow_apply _ _ _ _ _ _ (by decide) (by decide), if_neg hm, if_neg ht]
  · intro cdata nt nsel i t hi hc1 hc2 h1 hs hf
    refine ⟨_, assembleOutput_ok cdata nt nsel pydata hc1 hc2, ?_⟩
    have h := assembleLoop_step cdata nt _ _ nsel pydata i t hi (by omega) (by omega) hs hf
    rw [max_eq_left h1] at h
    exact h

end UrsExt
